import Mathlib

/-!
Mana decay engine and work score arithmetic.

A shallow embedding of `mana_decay_provider.go` and `workscore.go`.

Machine integers are natural numbers; every operation that can leave the
64-bit range in Go is reduced modulo `2 ^ 64` explicitly.  The declarations of
`Mana`, `BaseToken`, `SlotIndex` and `EpochIndex` are not among the sources; the
spec calls them unsigned integers and `mana_decay_provider.go` converts them
with `uint64(..)`, so they are unsigned 64-bit words here.  `WorkScore` is
`uint32`.  A Go result pair `(T, error)` is a pair `T × Option Error`.
-/

namespace Iotago

/-! ## Unsigned 64-bit operations of Go -/

/-- Go `x + y` on `uint64`. -/
def add64 (x y : Nat) : Nat := (x + y) % 2 ^ 64

/-- Go `x - y` on `uint64` (wraps around below zero). -/
def sub64 (x y : Nat) : Nat := (x % 2 ^ 64 + (2 ^ 64 - y % 2 ^ 64)) % 2 ^ 64

/-- Go `x * y` on `uint64`. -/
def mul64 (x y : Nat) : Nat := (x * y) % 2 ^ 64

/-- Go `x << s` on `uint64` with a `uint64` shift count: a count of 64 or more gives 0. -/
def shl64 (x s : Nat) : Nat := if s < 64 then (x <<< s) % 2 ^ 64 else 0

/-- Go `x >> s` on `uint64` with a `uint64` shift count: a count of 64 or more gives 0. -/
def shr64 (x s : Nat) : Nat := if s < 64 then (x % 2 ^ 64) >>> s else 0

/-! ## Fixed-point helpers (`mana_decay_provider.go`, lines 9-46) -/

/-- Go `splitUint64`: the high and the low double-word of a `uint64`. -/
def splitUint64 (value : Nat) : Nat × Nat :=
  (shr64 value 32, value &&& 0x00000000FFFFFFFF)

/-- Go `mergeUint64`: `(valueHi << 32) | valueLo`. -/
def mergeUint64 (valueHi valueLo : Nat) : Nat :=
  (shl64 valueHi 32) ||| valueLo

/-- Go `fixedPointMultiplication32Splitted`, statement by statement. -/
def fixedPointMultiplication32Splitted (valueHi valueLo factor scale : Nat) : Nat × Nat :=
  -- valueHi = valueHi * factor
  let valueHi1 := mul64 valueHi factor
  -- valueLo = (valueHi&((1<<scale)-1))<<(32-scale) + (valueLo*factor)>>scale
  let valueLo1 := add64 (shl64 (valueHi1 &&& (sub64 (shl64 1 scale) 1)) (sub64 32 scale))
    (shr64 (mul64 valueLo factor) scale)
  -- valueHi = (valueHi >> scale) + (valueLo >> 32)
  let valueHi2 := add64 (shr64 valueHi1 scale) (shr64 valueLo1 32)
  -- valueLo = valueLo & 0x00000000FFFFFFFF
  let valueLo2 := valueLo1 &&& 0x00000000FFFFFFFF
  (valueHi2, valueLo2)

/-- Go `fixedPointMultiplication32`: split, multiply, merge. -/
def fixedPointMultiplication32 (value factor scale : Nat) : Nat :=
  let (valueHi, valueLo) := splitUint64 value
  let r := fixedPointMultiplication32Splitted valueHi valueLo factor scale
  mergeUint64 r.1 r.2

/-! ## Errors -/

/-- The sentinel errors the embedded code returns.  Wrapping with a message
(`errors.Wrapf`, `ierrors.Wrap`) keeps the sentinel, so it is not modelled.
`New` is an error made by `ierrors.New` or `ierrors.Errorf` in place (it has no
sentinel), `Join a b` is `ierrors.Join(a, b)` and also `ierrors.Wrapf(a, "%w..", b)`,
which chains both errors, and `ChainTransitionError inner` is the struct
`iotago.ChainTransitionError` around `inner`. -/
inductive Error where
  | ErrWrongEpochIndex
  | ErrIntegerOverflow
  | New
  | Join (a b : Error)
  | ChainTransitionError (inner : Error)
  | ErrImplicitAccountDestructionDisallowed
  | ErrInvalidAccountStateTransition
  | ErrInvalidBlockIssuerTransition
  | ErrBlockIssuanceCreditInputRequired
  | ErrAccountLocked
  | ErrTxCapabilitiesAccountDestructionNotAllowed
  | ErrInvalidStakingTransition
  | ErrInvalidStakingRewardClaim
  | ErrInvalidStakingRewardInputRequired
  | ErrInvalidStakingCommitmentInput
  | ErrInvalidStakingStartEpoch
  | ErrInvalidStakingEndEpochTooEarly
  | ErrInvalidStakingBlockIssuerRequired
  | ErrInvalidStakingBondedRemoval
  | ErrInvalidStakingBondedModified
  | ErrInvalidAnchorStateTransition
  | ErrInvalidAnchorGovernanceTransition
  | ErrTxCapabilitiesAnchorDestructionNotAllowed
  | ErrInvalidFeatureTransition
  | ErrInvalidFoundryStateTransition
  | ErrTxCapabilitiesFoundryDestructionNotAllowed
  | ErrInvalidNFTStateTransition
  | ErrTxCapabilitiesNFTDestructionNotAllowed
  | ErrInvalidDelegationTransition
  | ErrInvalidDelegationRewardsClaiming
  | ErrInvalidDelegationNonZeroedID
  | ErrInvalidDelegationModified
  | ErrInvalidDelegationStartEpoch
  | ErrInvalidDelegationAmount
  | ErrInvalidDelegationNonZeroEndEpoch
  | ErrInvalidDelegationEndEpoch
  | ErrDelegationCommitmentInputRequired
  deriving DecidableEq, Repr

/-! ## Time provider -/

/-- The part of `TimeProvider` the decay provider calls.  `timeprovider.go` is
not among the sources, so the three methods are parameters of the embedding. -/
structure TimeProvider where
  EpochsFromSlot : Nat → Nat
  SlotsBeforeNextEpoch : Nat → Nat
  SlotsSinceEpochStart : Nat → Nat

/-- Modelled from the spec: `timeprovider.go` is missing; the data model gives
`epoch = slot >> slotsPerEpochExponent`, an epoch spans `2^slotsPerEpochExponent`
slots, and `timeprovider_test.go` fixes `SlotsBeforeNextEpoch(20) = 4` and
`SlotsSinceEpochStart(21) = 5` for exponent 3.  Used for concrete evaluations only. -/
def specTimeProvider (slotsPerEpochExponent : Nat) : TimeProvider where
  EpochsFromSlot := fun slot => shr64 slot slotsPerEpochExponent
  SlotsBeforeNextEpoch := fun slot =>
    sub64 (shl64 (add64 (shr64 slot slotsPerEpochExponent) 1) slotsPerEpochExponent) slot
  SlotsSinceEpochStart := fun slot =>
    sub64 slot (shl64 (shr64 slot slotsPerEpochExponent) slotsPerEpochExponent)

/-! ## Mana decay provider (`mana_decay_provider.go`, lines 48-175) -/

/-- The struct `ManaDecayProvider`, field by field. -/
structure ManaDecayProvider where
  timeProvider : TimeProvider
  slotsPerEpochShiftFactor : Nat
  generationRate : Nat
  generationRateShiftFactor : Nat
  decayFactors : List Nat
  decayFactorsLength : Nat
  decayFactorsShiftFactor : Nat
  decayFactorEpochsSum : Nat
  decayFactorEpochsSumShiftFactor : Nat

/-- The constructor `NewManaDecayProvider`.  In Go the shift factors and the generation rate are
`uint8`, the decay factors and their sum are `uint32`; all are widened to `uint64`. -/
def NewManaDecayProvider (timeProvider : TimeProvider)
    (slotsPerEpochShiftFactor generationRate generationRateShiftFactor : Nat)
    (decayFactors : List Nat)
    (decayFactorsShiftFactor decayFactorEpochsSum decayFactorEpochsSumShiftFactor : Nat) :
    ManaDecayProvider where
  timeProvider := timeProvider
  slotsPerEpochShiftFactor := slotsPerEpochShiftFactor
  generationRate := generationRate
  generationRateShiftFactor := generationRateShiftFactor
  decayFactors := decayFactors
  decayFactorsLength := decayFactors.length
  decayFactorsShiftFactor := decayFactorsShiftFactor
  decayFactorEpochsSum := decayFactorEpochsSum
  decayFactorEpochsSumShiftFactor := decayFactorEpochsSumShiftFactor

/-- What `NewManaDecayProvider` guarantees by its argument types: the cached
length is the length of the table, every factor and the factor sum fit in 32
bits, the generation rate and the shift factors fit in 8 bits. -/
def ManaDecayProvider.WellFormed (p : ManaDecayProvider) : Prop :=
  p.decayFactorsLength = p.decayFactors.length ∧
  (∀ f ∈ p.decayFactors, f < 2 ^ 32) ∧
  p.decayFactorEpochsSum < 2 ^ 32 ∧
  p.generationRate < 2 ^ 8 ∧
  p.slotsPerEpochShiftFactor < 2 ^ 8 ∧
  p.generationRateShiftFactor < 2 ^ 8 ∧
  p.decayFactorsShiftFactor < 2 ^ 8 ∧
  p.decayFactorEpochsSumShiftFactor < 2 ^ 8

/-- The `for remainingEpochIndexDiff > 0` loop of `decay` on the split value.
The first argument bounds the number of rounds; every round with a non-empty
table consumes at least one epoch, so `remainingEpochIndexDiff` rounds suffice
(`decayLoop_fuel`).  The table lookup `p.decayFactors[diffsToDecay-1]` is always
in range when the cached length is the length of the table
(`decayLoop_index_lt`), so the default of the lookup is never used there. -/
def decayLoop (p : ManaDecayProvider) : Nat → Nat → Nat → Nat → Nat × Nat
  | 0, valueHi, valueLo, _ => (valueHi, valueLo)
  | fuel + 1, valueHi, valueLo, remainingEpochIndexDiff =>
    if remainingEpochIndexDiff > 0 then
      let diffsToDecay :=
        if remainingEpochIndexDiff > p.decayFactorsLength then p.decayFactorsLength
        else remainingEpochIndexDiff
      let remaining := sub64 remainingEpochIndexDiff diffsToDecay
      let decayFactor := p.decayFactors.getD (sub64 diffsToDecay 1) 0
      let r := fixedPointMultiplication32Splitted valueHi valueLo decayFactor
        p.decayFactorsShiftFactor
      decayLoop p fuel r.1 r.2 remaining
    else (valueHi, valueLo)

/-- Go `decay`: performs mana decay without mana generation. -/
def decay (p : ManaDecayProvider) (value epochIndexDiff : Nat) : Nat :=
  if value = 0 ∨ epochIndexDiff = 0 ∨ p.decayFactorsLength = 0 then value
  else
    let (valueHi, valueLo) := splitUint64 value
    let r := decayLoop p epochIndexDiff valueHi valueLo epochIndexDiff
    mergeUint64 r.1 r.2

/-- Go `generateMana`: calculates the generated mana. -/
def generateMana (p : ManaDecayProvider) (value slotIndexDiff : Nat) : Nat :=
  if slotIndexDiff = 0 ∨ p.generationRate = 0 then 0
  else fixedPointMultiplication32 value (mul64 slotIndexDiff p.generationRate)
    p.generationRateShiftFactor

/-- Go `StoredManaWithDecay`: applies the decay to the given stored mana. -/
def StoredManaWithDecay (p : ManaDecayProvider)
    (storedMana slotIndexCreated slotIndexTarget : Nat) : Nat × Option Error :=
  let epochIndexCreated := p.timeProvider.EpochsFromSlot slotIndexCreated
  let epochIndexTarget := p.timeProvider.EpochsFromSlot slotIndexTarget
  if epochIndexCreated > epochIndexTarget then (0, some Error.ErrWrongEpochIndex)
  else (decay p storedMana (sub64 epochIndexTarget epochIndexCreated), none)

/-- Go `PotentialManaWithDecay`: calculates the generated potential mana and applies
the decay to the result. -/
def PotentialManaWithDecay (p : ManaDecayProvider)
    (deposit slotIndexCreated slotIndexTarget : Nat) : Nat × Option Error :=
  let epochIndexCreated := p.timeProvider.EpochsFromSlot slotIndexCreated
  let epochIndexTarget := p.timeProvider.EpochsFromSlot slotIndexTarget
  if epochIndexCreated > epochIndexTarget then (0, some Error.ErrWrongEpochIndex)
  else
    let epochIndexDiff := sub64 epochIndexTarget epochIndexCreated
    match epochIndexDiff with
    | 0 => (generateMana p deposit (sub64 slotIndexTarget slotIndexCreated), none)
    | 1 =>
      (add64
        (decay p (generateMana p deposit (p.timeProvider.SlotsBeforeNextEpoch slotIndexCreated)) 1)
        (generateMana p deposit (p.timeProvider.SlotsSinceEpochStart slotIndexTarget)), none)
    | _ =>
      let c := fixedPointMultiplication32 deposit p.decayFactorEpochsSum
        (sub64 (add64 p.decayFactorEpochsSumShiftFactor p.generationRateShiftFactor)
          p.slotsPerEpochShiftFactor)
      let potentialMana_n :=
        decay p (generateMana p deposit (p.timeProvider.SlotsBeforeNextEpoch slotIndexCreated))
          epochIndexDiff
      let potentialMana_n_1 := decay p c (sub64 epochIndexDiff 1)
      let potentialMana_0 :=
        add64 (generateMana p deposit (p.timeProvider.SlotsSinceEpochStart slotIndexTarget)) c
      (add64 (sub64 potentialMana_n potentialMana_n_1) potentialMana_0, none)

/-- Go `RewardsWithDecay`: applies the decay to the given rewards. -/
def RewardsWithDecay (p : ManaDecayProvider)
    (rewards rewardEpochIndex epochIndexClaimed : Nat) : Nat × Option Error :=
  if rewardEpochIndex > epochIndexClaimed then (0, some Error.ErrWrongEpochIndex)
  else (decay p rewards (sub64 epochIndexClaimed rewardEpochIndex), none)

/-! ## Work score (`workscore.go`, lines 8-34) -/

/-- The largest `WorkScore` (`uint32`). -/
def maxWorkScore : Nat := 2 ^ 32 - 1

/-- Modelled from the spec: `safemath.SafeAdd` of hive.go is not among the
sources; the spec calls it checked-overflow arithmetic in which any overflow
is a hard error.  On `uint32`: the sum when it is representable, else
`ErrIntegerOverflow`. -/
def SafeAdd (x y : Nat) : Nat × Option Error :=
  if x + y ≤ maxWorkScore then (x + y, none) else (0, some Error.ErrIntegerOverflow)

/-- Modelled from the spec: `safemath.SafeMul` of hive.go is not among the
sources; the spec calls it checked-overflow arithmetic in which any overflow
is a hard error.  On `uint32`: the product when it is representable, else
`ErrIntegerOverflow`. -/
def SafeMul (x y : Nat) : Nat × Option Error :=
  if x * y ≤ maxWorkScore then (x * y, none) else (0, some Error.ErrIntegerOverflow)

/-- The Go conversion `WorkScore(in)` of an `int` to `uint32`: the value modulo `2^32`. -/
def WorkScore.ofInt (n : Int) : Nat := (n % 2 ^ 32).toNat

/-- The `for _, workScore := range in` loop of `WorkScore.Add`. -/
def WorkScore.addLoop (result : Nat) : List Nat → Nat × Option Error
  | [] => (result, none)
  | workScore :: rest =>
    match SafeAdd result workScore with
    | (r, none) => WorkScore.addLoop r rest
    | (_, some err) => (0, some err)

/-- Go `WorkScore.Add`: adds `ins` to this workscore. -/
def WorkScore.Add (w : Nat) (ins : List Nat) : Nat × Option Error :=
  WorkScore.addLoop w ins

/-- Go `WorkScore.Multiply`: multiplies `n` with this workscore. -/
def WorkScore.Multiply (w : Nat) (n : Int) : Nat × Option Error :=
  match SafeMul w (WorkScore.ofInt n) with
  | (result, none) => (result, none)
  | (_, some err) => (0, some err)

/-! ## Data model of the transaction validation VM (`vm/nova/vm.go`)

The output types, the working set and the protocol API are declared outside the
sources at hand; each is modelled by the fields and methods `vm.go` reads.
Identifiers (byte arrays) and addresses are the numbers they encode, the zeroed
identifier is 0.  Go maps are functions into `Option`. -/

/-- Go `iotago.ChainTransitionType`. -/
inductive ChainTransitionType where
  | Genesis
  | StateChange
  | Destroy
  deriving DecidableEq, Repr

/-- Go `iotago.ChainID`: the identifier of a chain output, by kind.  Modelled from
the spec: a foundry identity is derived from the owning account address, the
serial number and the token-scheme type. -/
inductive ChainID where
  | Account (id : Nat)
  | Anchor (id : Nat)
  | Foundry (account serialNumber tokenSchemeType : Nat)
  | NFT (id : Nat)
  | Delegation (id : Nat)
  deriving DecidableEq, Repr

/-- Go `iotago.BlockIssuerFeature`. -/
structure BlockIssuerFeature where
  BlockIssuerKeys : List Nat
  ExpirySlot : Nat
  deriving DecidableEq, Repr

/-- Go `iotago.StakingFeature`. -/
structure StakingFeature where
  StakedAmount : Nat
  FixedCost : Nat
  StartEpoch : Nat
  EndEpoch : Nat
  deriving DecidableEq, Repr

/-- Go `iotago.BasicOutput`, as far as the VM reads it. -/
structure BasicOutput where
  Amount : Nat
  Mana : Nat
  deriving DecidableEq, Repr

/-- Go `iotago.AccountOutput`.  `BlockIssuer` and `Staking` are
`FeatureSet().BlockIssuer()` and `FeatureSet().Staking()`; immutable features
are opaque values compared by `Equal`. -/
structure AccountOutput where
  Amount : Nat
  Mana : Nat
  AccountID : Nat
  FoundryCounter : Nat
  BlockIssuer : Option BlockIssuerFeature
  Staking : Option StakingFeature
  ImmutableFeatures : List Nat
  deriving DecidableEq, Repr

/-- Go `iotago.AnchorOutput`.  `Metadata` and `StateMetadata` are the entries of
`Features.MustSet()` for the two feature types. -/
structure AnchorOutput where
  Amount : Nat
  Mana : Nat
  AnchorID : Nat
  StateIndex : Nat
  StateController : Nat
  GovernorAddress : Nat
  Metadata : Option Nat
  StateMetadata : Option Nat
  ImmutableFeatures : List Nat
  deriving DecidableEq, Repr

/-- Go `iotago.FoundryOutput`.  `Ident` is the account ID of the immutable
account address that owns the foundry. -/
structure FoundryOutput where
  Amount : Nat
  SerialNumber : Nat
  TokenSchemeType : Nat
  Ident : Nat
  ImmutableFeatures : List Nat
  deriving DecidableEq, Repr

/-- Go `iotago.NFTOutput`. -/
structure NFTOutput where
  Amount : Nat
  Mana : Nat
  NFTID : Nat
  ImmutableFeatures : List Nat
  deriving DecidableEq, Repr

/-- Go `iotago.DelegationOutput`. -/
structure DelegationOutput where
  Amount : Nat
  DelegatedAmount : Nat
  DelegationID : Nat
  ValidatorAddress : Nat
  StartEpoch : Nat
  EndEpoch : Nat
  deriving DecidableEq, Repr

/-- Go `iotago.Output`: the six output variants and the VM wrapper
`vm.ImplicitAccountOutput` around a basic output. -/
inductive Output where
  | Basic (o : BasicOutput)
  | Account (o : AccountOutput)
  | Anchor (o : AnchorOutput)
  | Foundry (o : FoundryOutput)
  | NFT (o : NFTOutput)
  | Delegation (o : DelegationOutput)
  | ImplicitAccount (o : BasicOutput)
  deriving DecidableEq, Repr

/-- Go `Output.StoredMana()`: the mana field; foundry and delegation outputs store none. -/
def Output.StoredMana : Output → Nat
  | Output.Basic o => o.Mana
  | Output.Account o => o.Mana
  | Output.Anchor o => o.Mana
  | Output.Foundry _ => 0
  | Output.NFT o => o.Mana
  | Output.Delegation _ => 0
  | Output.ImplicitAccount o => o.Mana

/-- Go `FoundryOutput.FoundryID()` and `MustFoundryID()`.  The unlock condition of
a foundry is always an immutable account address, so the computation cannot fail. -/
def FoundryOutput.MustFoundryID (f : FoundryOutput) : ChainID :=
  ChainID.Foundry f.Ident f.SerialNumber f.TokenSchemeType

/-- Go `iotago.OutputID`: the creation slot of the transaction and the rest of the bytes. -/
structure OutputID where
  CreationSlot : Nat
  Rest : Nat
  deriving DecidableEq, Repr

/-- Go `vm.ChainOutputWithIDs`. -/
structure ChainOutputWithIDs where
  ChainID : ChainID
  OutputID : OutputID
  Output : Output
  deriving DecidableEq, Repr

/-- Go `iotago.Commitment`, as far as the VM reads it. -/
structure Commitment where
  Slot : Nat
  deriving DecidableEq, Repr

/-- Go `iotago.TransactionCapabilitiesBitMask`, by its four queries used here. -/
structure TransactionCapabilities where
  CannotDestroyAccountOutputs : Bool
  CannotDestroyAnchorOutputs : Bool
  CannotDestroyFoundryOutputs : Bool
  CannotDestroyNFTOutputs : Bool
  deriving DecidableEq, Repr

/-- Go `iotago.Transaction`, as far as the VM reads it; `Allotments` is
`Allotments.Get`, which is 0 for an account without allotment. -/
structure Transaction where
  CreationSlot : Nat
  Outputs : List Output
  Allotments : Nat → Nat
  Capabilities : TransactionCapabilities

/-- Go `vm.WorkingSet`, as far as the chain validators read it.  Reading a nil map
in Go finds no entry, so a nil `Rewards` map is the function that is `none`
everywhere. -/
structure WorkingSet where
  Tx : Transaction
  InChains : ChainID → Option ChainOutputWithIDs
  OutChains : ChainID → Option Output
  BIC : Nat → Option Int
  Commitment : Option Commitment
  Rewards : ChainID → Option Nat
  TotalManaIn : Nat
  TotalManaOut : Nat

/-- The methods of the newer `TimeProvider` that the VM calls; `timeprovider.go` is
not among the sources, so they are parameters. -/
structure VMTimeProvider where
  EpochFromSlot : Nat → Nat
  EpochEnd : Nat → Nat

/-- Go `iotago.ProtocolParameters`, by the three values the chain validators read. -/
structure ProtocolParameters where
  MaxCommittableAge : Nat
  StakingUnbondingPeriod : Nat
  EpochNearingThreshold : Nat
  deriving DecidableEq, Repr

/-- Go `iotago.API` as the VM uses it.  `DecayManaBySlots` is the method of the
mana decay provider, `PotentialMana` is `iotago.PotentialMana` with the decay
provider and the storage score structure of this API; both are declared outside
the sources at hand and are parameters. -/
structure API where
  TimeProvider : VMTimeProvider
  ProtocolParameters : ProtocolParameters
  DecayManaBySlots : Nat → Nat → Nat → Nat × Option Error
  PotentialMana : Output → Nat → Nat → Nat × Option Error

/-- Go `vm.Params`.  Its methods `PastBoundedSlotIndex` and
`FutureBoundedSlotIndex`, the function `vm.IsIssuerOnOutputUnlocked` (applied to
the unlocked identities of the working set) and
`UnlockConditionSet().HasManalockCondition` are declared outside the sources at
hand and are parameters. -/
structure Params where
  API : API
  WorkingSet : WorkingSet
  PastBoundedSlotIndex : Nat → Nat
  FutureBoundedSlotIndex : Nat → Nat
  IsIssuerOnOutputUnlocked : Output → Option Error
  HasManalockCondition : Output → Nat → Nat → Bool

/-! ## Account validators (`vm/nova/vm.go`, lines 238-658)

A validator that returns `error` is an `Option Error` (`none` is `nil`).  The
flag behind the pointer `isRemovingStakingFeature` is passed in and returned
next to the error.  A validator that asserts the type of `input.Output` or
dereferences an argument that may be `nil` has one more `Option` around its
result: the outer `none` is the Go panic. -/

/-- Modelled from the spec: `safemath.SafeSub` of hive.go is not among the
sources; the spec calls it checked-overflow arithmetic in which a subtraction
that would go below zero is an error.  On unsigned integers: the difference
when the subtrahend is not larger, else an error. -/
def SafeSub (x y : Nat) : Nat × Option Error :=
  if y ≤ x then (x - y, none) else (0, some Error.ErrIntegerOverflow)

/-- Go `x - y` on `uint32` (wraps around below zero). -/
def sub32 (x y : Nat) : Nat := (x % 2 ^ 32 + (2 ^ 32 - y % 2 ^ 32)) % 2 ^ 32

/-- Go `x + y` on `uint32`. -/
def add32 (x y : Nat) : Nat := (x + y) % 2 ^ 32

/-- Go `accountBlockIssuanceCreditLocked` (lines 644-658). -/
def accountBlockIssuanceCreditLocked (input : ChainOutputWithIDs)
    (bicSet : Nat → Option Int) : Option Error :=
  match input.ChainID with
  | ChainID.Account accountID =>
    match bicSet accountID with
    | none => some Error.ErrBlockIssuanceCreditInputRequired
    | some bic => if bic < 0 then some Error.ErrAccountLocked else none
  | _ => some Error.ErrBlockIssuanceCreditInputRequired

/-- Go `accountStakingGenesisValidation` (lines 476-504). -/
def accountStakingGenesisValidation (vmParams : Params) (next : AccountOutput)
    (stakingFeat : StakingFeature) : Option Error :=
  match vmParams.WorkingSet.Commitment with
  | none => some Error.ErrInvalidStakingCommitmentInput
  | some commitment =>
    let pastBoundedSlot := vmParams.PastBoundedSlotIndex commitment.Slot
    let pastBoundedEpoch := vmParams.API.TimeProvider.EpochFromSlot pastBoundedSlot
    if stakingFeat.StartEpoch ≠ pastBoundedEpoch then some Error.ErrInvalidStakingStartEpoch
    else
      let unbondingEpoch :=
        add64 pastBoundedEpoch vmParams.API.ProtocolParameters.StakingUnbondingPeriod
      if stakingFeat.EndEpoch < unbondingEpoch then some Error.ErrInvalidStakingEndEpochTooEarly
      else if next.BlockIssuer = none then some Error.ErrInvalidStakingBlockIssuerRequired
      else none

/-- Go `accountStakingNonExpiredValidation` (lines 506-534). -/
def accountStakingNonExpiredValidation (currentStakingFeat : StakingFeature)
    (nextStakingFeat : Option StakingFeature) (earliestUnbondingEpoch : Nat)
    (nextHasBlockIssuerFeat : Bool) : Option Error :=
  match nextStakingFeat with
  | none =>
    some (Error.Join Error.ErrInvalidStakingTransition Error.ErrInvalidStakingBondedRemoval)
  | some nextStakingFeat =>
    if ¬ nextHasBlockIssuerFeat then
      some (Error.Join Error.ErrInvalidStakingTransition
        Error.ErrInvalidStakingBlockIssuerRequired)
    else if currentStakingFeat.StakedAmount ≠ nextStakingFeat.StakedAmount ∨
        currentStakingFeat.FixedCost ≠ nextStakingFeat.FixedCost ∨
        currentStakingFeat.StartEpoch ≠ nextStakingFeat.StartEpoch then
      some (Error.Join Error.ErrInvalidStakingTransition Error.ErrInvalidStakingBondedModified)
    else if currentStakingFeat.EndEpoch ≠ nextStakingFeat.EndEpoch ∧
        nextStakingFeat.EndEpoch < earliestUnbondingEpoch then
      some (Error.Join Error.ErrInvalidStakingTransition
        Error.ErrInvalidStakingEndEpochTooEarly)
    else none

/-- Go `accountStakingExpiredValidation` (lines 536-559).  `StakingFeature.Equal`
compares the four fields. -/
def accountStakingExpiredValidation (vmParams : Params) (next : AccountOutput)
    (currentStakingFeat : StakingFeature) (nextStakingFeat : Option StakingFeature)
    (isRemovingStakingFeature : Bool) : Option Error × Bool :=
  match nextStakingFeat with
  | none => (none, true)
  | some nextStakingFeat =>
    if currentStakingFeat ≠ nextStakingFeat then
      match accountStakingGenesisValidation vmParams next nextStakingFeat with
      | some err =>
        (some (Error.Join Error.ErrInvalidStakingTransition err), isRemovingStakingFeature)
      | none => (none, true)
    else (none, isRemovingStakingFeature)

/-- Go `accountStakingSTVF` (lines 442-474). -/
def accountStakingSTVF (vmParams : Params) (current next : AccountOutput)
    (isRemovingStakingFeature : Bool) : Option Error × Bool :=
  match current.Staking with
  | some currentStakingFeat =>
    match vmParams.WorkingSet.Commitment with
    | none =>
      (some (Error.Join Error.ErrInvalidStakingTransition
        Error.ErrInvalidStakingCommitmentInput), isRemovingStakingFeature)
    | some commitment =>
      let timeProvider := vmParams.API.TimeProvider
      let pastBoundedSlot := vmParams.PastBoundedSlotIndex commitment.Slot
      let pastBoundedEpoch := timeProvider.EpochFromSlot pastBoundedSlot
      let futureBoundedSlot := vmParams.FutureBoundedSlotIndex commitment.Slot
      let futureBoundedEpoch := timeProvider.EpochFromSlot futureBoundedSlot
      if futureBoundedEpoch ≤ currentStakingFeat.EndEpoch then
        let earliestUnbondingEpoch :=
          add64 pastBoundedEpoch vmParams.API.ProtocolParameters.StakingUnbondingPeriod
        let nextHasBlockIssuerFeat := next.BlockIssuer.isSome
        (accountStakingNonExpiredValidation currentStakingFeat next.Staking
          earliestUnbondingEpoch nextHasBlockIssuerFeat, isRemovingStakingFeature)
      else
        accountStakingExpiredValidation vmParams next currentStakingFeat next.Staking
          isRemovingStakingFeature
  | none =>
    match next.Staking with
    | some nextStakingFeat =>
      (accountStakingGenesisValidation vmParams next nextStakingFeat, isRemovingStakingFeature)
    | none => (none, isRemovingStakingFeature)

/-- The loop of `accountFoundryCounterSTVF` (lines 571-588): the number, as a
`uint32`, of transaction outputs that are foundries, are not among the chain
inputs and are owned by the account. -/
def seenNewFoundriesOfAccount (vmParams : Params) (accountID : Nat) : Nat → List Output → Nat
  | seen, [] => seen
  | seen, Output.Foundry foundryOutput :: rest =>
    if (vmParams.WorkingSet.InChains foundryOutput.MustFoundryID).isSome then
      seenNewFoundriesOfAccount vmParams accountID seen rest
    else if foundryOutput.Ident ≠ accountID then
      seenNewFoundriesOfAccount vmParams accountID seen rest
    else seenNewFoundriesOfAccount vmParams accountID (add32 seen 1) rest
  | seen, _ :: rest => seenNewFoundriesOfAccount vmParams accountID seen rest

/-- Go `accountFoundryCounterSTVF` (lines 561-596). -/
def accountFoundryCounterSTVF (vmParams : Params) (current next : AccountOutput) :
    Option Error :=
  if current.FoundryCounter > next.FoundryCounter then
    some Error.ErrInvalidAccountStateTransition
  else if current.FoundryCounter = next.FoundryCounter then none
  else
    let seen := seenNewFoundriesOfAccount vmParams next.AccountID 0 vmParams.WorkingSet.Tx.Outputs
    let expectedNewFoundriesCount := sub32 next.FoundryCounter current.FoundryCounter
    if expectedNewFoundriesCount ≠ seen then some Error.ErrInvalidAccountStateTransition
    else none

/-- The expiry rule of `accountBlockIssuerSTVF` (lines 365-380); `none` means
the code goes on to the mana check. -/
def accountBlockIssuerExpiry (currentBlockIssuerFeat nextBlockIssuerFeat : Option BlockIssuerFeature)
    (commitmentInputSlot pastBoundedSlot : Nat) : Option Error :=
  match currentBlockIssuerFeat, nextBlockIssuerFeat with
  | some currentFeat, none =>
    if currentFeat.ExpirySlot ≥ commitmentInputSlot then
      some Error.ErrInvalidBlockIssuerTransition
    else none
  | some currentFeat, some nextFeat =>
    if currentFeat.ExpirySlot ≥ commitmentInputSlot then
      if nextFeat.ExpirySlot ≠ currentFeat.ExpirySlot ∧ nextFeat.ExpirySlot < pastBoundedSlot then
        some Error.ErrInvalidBlockIssuerTransition
      else none
    else if nextFeat.ExpirySlot < pastBoundedSlot then
      some Error.ErrInvalidBlockIssuerTransition
    else none
  | none, some nextFeat =>
    if nextFeat.ExpirySlot < pastBoundedSlot then some Error.ErrInvalidBlockIssuerTransition
    else none
  | none, none => none

/-- The loop over the transaction outputs in `accountBlockIssuerSTVF` (lines
426-433): the stored mana of every output mana-locked to the account is
subtracted from `manaOut` with `safemath.SafeSub`. -/
def manalockedLoop (vmParams : Params) (accountID minManalockedSlot : Nat) :
    Nat → List Output → Nat × Option Error
  | manaOut, [] => (manaOut, none)
  | manaOut, output :: rest =>
    if vmParams.HasManalockCondition output accountID minManalockedSlot then
      match SafeSub manaOut output.StoredMana with
      | (manaOut1, none) => manalockedLoop vmParams accountID minManalockedSlot manaOut1 rest
      | (manaOut1, some err) => (manaOut1, some err)
    else manalockedLoop vmParams accountID minManalockedSlot manaOut rest

/-- The mana check of `accountBlockIssuerSTVF` (lines 382-439). -/
def accountBlockIssuerMana (vmParams : Params) (input : ChainOutputWithIDs)
    (next : AccountOutput) (pastBoundedSlot : Nat) : Option Error :=
  let current := input.Output
  let manaIn := vmParams.WorkingSet.TotalManaIn
  let manaOut := vmParams.WorkingSet.TotalManaOut
  match vmParams.API.DecayManaBySlots current.StoredMana input.OutputID.CreationSlot
      vmParams.WorkingSet.Tx.CreationSlot with
  | (_, some err) => some err
  | (manaStoredAccount, none) =>
    match SafeSub manaIn manaStoredAccount with
    | (_, some err) => some err
    | (manaIn1, none) =>
      match vmParams.API.PotentialMana input.Output input.OutputID.CreationSlot
          vmParams.WorkingSet.Tx.CreationSlot with
      | (_, some err) => some err
      | (manaPotentialAccount, none) =>
        match SafeSub manaIn1 manaPotentialAccount with
        | (_, some err) => some err
        | (manaIn2, none) =>
          match SafeSub manaOut next.Mana with
          | (_, some err) => some err
          | (manaOut1, none) =>
            let accountOutAllotted := vmParams.WorkingSet.Tx.Allotments next.AccountID
            match SafeSub manaOut1 accountOutAllotted with
            | (_, some err) => some err
            | (manaOut2, none) =>
              let minManalockedSlot :=
                add64 pastBoundedSlot vmParams.API.ProtocolParameters.MaxCommittableAge
              match manalockedLoop vmParams next.AccountID minManalockedSlot manaOut2
                  vmParams.WorkingSet.Tx.Outputs with
              | (_, some err) => some err
              | (manaOut3, none) =>
                if manaIn2 < manaOut3 then some Error.ErrInvalidBlockIssuerTransition
                else none

/-- Go `accountBlockIssuerSTVF` (lines 339-440): the feature, commitment and BIC
checks, then the expiry rule, then the mana check. -/
def accountBlockIssuerSTVF (vmParams : Params) (input : ChainOutputWithIDs)
    (currentBlockIssuerFeat : Option BlockIssuerFeature) (next : AccountOutput) :
    Option Error :=
  let nextBlockIssuerFeat := next.BlockIssuer
  if currentBlockIssuerFeat = none ∧ nextBlockIssuerFeat = none then none
  else
    match vmParams.WorkingSet.Commitment with
    | none => some Error.ErrInvalidBlockIssuerTransition
    | some commitment =>
      match vmParams.WorkingSet.BIC next.AccountID with
      | none => some Error.ErrInvalidBlockIssuerTransition
      | some bic =>
        if bic < 0 then some Error.ErrInvalidBlockIssuerTransition
        else
          let commitmentInputSlot := commitment.Slot
          let pastBoundedSlot := vmParams.PastBoundedSlotIndex commitmentInputSlot
          match accountBlockIssuerExpiry currentBlockIssuerFeat nextBlockIssuerFeat
              commitmentInputSlot pastBoundedSlot with
          | some err => some err
          | none => accountBlockIssuerMana vmParams input next pastBoundedSlot

/-- Go `accountGenesisValid` (lines 285-307). -/
def accountGenesisValid (vmParams : Params) (next : AccountOutput)
    (accountIDMustBeZeroed : Bool) : Option Error :=
  if accountIDMustBeZeroed ∧ next.AccountID ≠ 0 then
    some Error.ErrInvalidAccountStateTransition
  else
    let blockIssuerCheck : Option Error :=
      match next.BlockIssuer with
      | some nextBlockIssuerFeat =>
        match vmParams.WorkingSet.Commitment with
        | none => some Error.ErrInvalidBlockIssuerTransition
        | some commitment =>
          if nextBlockIssuerFeat.ExpirySlot < vmParams.PastBoundedSlotIndex commitment.Slot then
            some Error.ErrInvalidBlockIssuerTransition
          else none
      | none => none
    match blockIssuerCheck with
    | some err => some err
    | none =>
      let stakingCheck : Option Error :=
        match next.Staking with
        | some stakingFeat =>
          match accountStakingGenesisValidation vmParams next stakingFeat with
          | some err => some (Error.Join Error.ErrInvalidStakingTransition err)
          | none => none
        | none => none
      match stakingCheck with
      | some err => some err
      | none => vmParams.IsIssuerOnOutputUnlocked (Output.Account next)

/-- Go `accountStateChangeValid` (lines 309-333). -/
def accountStateChangeValid (vmParams : Params) (input : ChainOutputWithIDs)
    (next : AccountOutput) (isRemovingStakingFeature : Bool) :
    Option (Option Error × Bool) :=
  match input.Output with
  | Output.Account current =>
    some (
      if current.ImmutableFeatures ≠ next.ImmutableFeatures then
        (some Error.ErrInvalidAccountStateTransition, isRemovingStakingFeature)
      else
        let lockCheck : Option Error :=
          if current.BlockIssuer ≠ none then
            accountBlockIssuanceCreditLocked input vmParams.WorkingSet.BIC
          else none
        match lockCheck with
        | some err => (some err, isRemovingStakingFeature)
        | none =>
          match accountStakingSTVF vmParams current next isRemovingStakingFeature with
          | (some err, flag) => (some err, flag)
          | (none, flag) =>
            match accountFoundryCounterSTVF vmParams current next with
            | some err => (some err, flag)
            | none => (accountBlockIssuerSTVF vmParams input current.BlockIssuer next, flag))
  | _ => none

/-- Go `accountDestructionValid` (lines 598-642). -/
def accountDestructionValid (vmParams : Params) (input : ChainOutputWithIDs)
    (isRemovingStakingFeature : Bool) : Option (Option Error × Bool) :=
  if vmParams.WorkingSet.Tx.Capabilities.CannotDestroyAccountOutputs then
    some (some (Error.Join Error.ErrInvalidAccountStateTransition
      Error.ErrTxCapabilitiesAccountDestructionNotAllowed), isRemovingStakingFeature)
  else
    match input.Output with
    | Output.Account outputToDestroy =>
      let blockIssuerCheck : Option Error :=
        match outputToDestroy.BlockIssuer with
        | some blockIssuerFeat =>
          match vmParams.WorkingSet.Commitment with
          | none => some Error.ErrInvalidBlockIssuerTransition
          | some commitment =>
            if blockIssuerFeat.ExpirySlot ≥ commitment.Slot then
              some Error.ErrInvalidBlockIssuerTransition
            else accountBlockIssuanceCreditLocked input vmParams.WorkingSet.BIC
        | none => none
      match blockIssuerCheck with
      | some err => some (some err, isRemovingStakingFeature)
      | none =>
        match outputToDestroy.Staking with
        | some stakingFeat =>
          match vmParams.WorkingSet.Commitment with
          | none =>
            some (some (Error.Join Error.ErrInvalidStakingTransition
              Error.ErrInvalidStakingCommitmentInput), isRemovingStakingFeature)
          | some commitment =>
            let futureBoundedSlot := vmParams.FutureBoundedSlotIndex commitment.Slot
            let futureBoundedEpoch := vmParams.API.TimeProvider.EpochFromSlot futureBoundedSlot
            if futureBoundedEpoch ≤ stakingFeat.EndEpoch then
              some (some (Error.Join Error.ErrInvalidAccountStateTransition
                Error.ErrInvalidStakingBondedRemoval), isRemovingStakingFeature)
            else some (none, true)
        | none => some (none, isRemovingStakingFeature)
    | _ => none

/-- The end of `accountSTVF` (lines 274-282): claiming rewards and removing the
staking feature must coincide. -/
def accountRewardsCheck (isClaimingRewards isRemovingStakingFeature : Bool) : Option Error :=
  if isClaimingRewards ∧ ¬ isRemovingStakingFeature then
    some (Error.Join Error.ErrInvalidStakingTransition Error.ErrInvalidStakingRewardClaim)
  else if ¬ isClaimingRewards ∧ isRemovingStakingFeature then
    some (Error.Join Error.ErrInvalidStakingTransition
      Error.ErrInvalidStakingRewardInputRequired)
  else none

/-- Go `accountSTVF` (lines 240-283).  `input` is `nil` for a genesis and `next` is
`nil` for a destruction; dereferencing a missing one is the Go panic (outer `none`). -/
def accountSTVF (vmParams : Params) (input : Option ChainOutputWithIDs)
    (transType : ChainTransitionType) (next : Option AccountOutput) : Option (Option Error) :=
  let isClaimingRewards : Bool :=
    match input with
    | some i => (vmParams.WorkingSet.Rewards i.ChainID).isSome
    | none => false
  match transType with
  | ChainTransitionType.Genesis =>
    match next with
    | none => none
    | some n =>
      match accountGenesisValid vmParams n true with
      | some err => some (some err)
      | none => some (accountRewardsCheck isClaimingRewards false)
  | ChainTransitionType.StateChange =>
    match input, next with
    | some i, some n =>
      match accountStateChangeValid vmParams i n false with
      | none => none
      | some (some err, _) => some (some err)
      | some (none, flag) => some (accountRewardsCheck isClaimingRewards flag)
    | _, _ => none
  | ChainTransitionType.Destroy =>
    match input with
    | some i =>
      match accountDestructionValid vmParams i false with
      | none => none
      | some (some err, _) =>
        -- a := input.Output.(*iotago.AccountOutput), to name the account in the error
        match i.Output with
        | Output.Account _ => some (some err)
        | _ => none
      | some (none, flag) => some (accountRewardsCheck isClaimingRewards flag)
    | none => none

/-! ## Anchor, NFT, delegation and foundry validators (`vm/nova/vm.go`, lines 660-1043) -/

/-- Modelled from the spec: `iotago.FeatureUnchanged` is not among the sources;
the spec calls such a feature frozen.  A feature is unchanged when it is absent
on both sides or present on both sides with equal content. -/
def FeatureUnchanged (inFeat outFeat : Option Nat) : Option Error :=
  if inFeat = outFeat then none else some Error.ErrInvalidFeatureTransition

/-- Go `anchorGenesisValid` (lines 693-699). -/
def anchorGenesisValid (vmParams : Params) (current : AnchorOutput)
    (anchorIDMustBeZeroed : Bool) : Option Error :=
  if anchorIDMustBeZeroed ∧ current.AnchorID ≠ 0 then
    some Error.ErrInvalidAnchorStateTransition
  else vmParams.IsIssuerOnOutputUnlocked (Output.Anchor current)

/-- Go `anchorGovernanceSTVF` (lines 722-738), on the asserted anchor output. -/
def anchorGovernanceSTVF (current next : AnchorOutput) : Option Error :=
  if current.Amount ≠ next.Amount then some Error.ErrInvalidAnchorGovernanceTransition
  else if current.StateIndex ≠ next.StateIndex then
    some Error.ErrInvalidAnchorGovernanceTransition
  else
    match FeatureUnchanged current.StateMetadata next.StateMetadata with
    | some err => some (Error.Join Error.ErrInvalidAnchorGovernanceTransition err)
    | none => none

/-- Go `anchorStateSTVF` (lines 740-757), on the asserted anchor output;
`StateIndex` is a `uint32`. -/
def anchorStateSTVF (current next : AnchorOutput) : Option Error :=
  if current.StateController ≠ next.StateController then
    some Error.ErrInvalidAnchorStateTransition
  else if current.GovernorAddress ≠ next.GovernorAddress then
    some Error.ErrInvalidAnchorStateTransition
  else if add32 current.StateIndex 1 ≠ next.StateIndex then
    some Error.ErrInvalidAnchorStateTransition
  else
    match FeatureUnchanged current.Metadata next.Metadata with
    | some err => some (Error.Join Error.ErrInvalidAnchorStateTransition err)
    | none => none

/-- Go `anchorStateChangeValid` (lines 701-720). -/
def anchorStateChangeValid (input : ChainOutputWithIDs) (next : AnchorOutput) :
    Option (Option Error) :=
  match input.Output with
  | Output.Anchor current =>
    let isGovTransition := current.StateIndex = next.StateIndex
    if current.ImmutableFeatures ≠ next.ImmutableFeatures then
      if isGovTransition then some (some Error.ErrInvalidAnchorGovernanceTransition)
      else some (some Error.ErrInvalidAnchorStateTransition)
    else if isGovTransition then some (anchorGovernanceSTVF current next)
    else some (anchorStateSTVF current next)
  | _ => none

/-- Go `anchorDestructionValid` (lines 759-765). -/
def anchorDestructionValid (vmParams : Params) : Option Error :=
  if vmParams.WorkingSet.Tx.Capabilities.CannotDestroyAnchorOutputs then
    some (Error.Join Error.ErrInvalidAnchorStateTransition
      Error.ErrTxCapabilitiesAnchorDestructionNotAllowed)
  else none

/-- Go `anchorSTVF` (lines 666-691). -/
def anchorSTVF (vmParams : Params) (input : Option ChainOutputWithIDs)
    (transType : ChainTransitionType) (next : Option AnchorOutput) : Option (Option Error) :=
  match transType with
  | ChainTransitionType.Genesis =>
    match next with
    | none => none
    | some n => some (anchorGenesisValid vmParams n true)
  | ChainTransitionType.StateChange =>
    match input, next with
    | some i, some n => anchorStateChangeValid i n
    | _, _ => none
  | ChainTransitionType.Destroy =>
    match anchorDestructionValid vmParams with
    | some err =>
      match input with
      | some i =>
        match i.Output with
        | Output.Anchor _ => some (some err)
        | _ => none
      | none => none
    | none => some none

/-- Go `nftGenesisValid` (lines 913-919). -/
def nftGenesisValid (vmParams : Params) (current : NFTOutput) : Option Error :=
  if current.NFTID ≠ 0 then some Error.New
  else vmParams.IsIssuerOnOutputUnlocked (Output.NFT current)

/-- Go `nftStateChangeValid` (lines 921-927). -/
def nftStateChangeValid (current next : NFTOutput) : Option Error :=
  if current.ImmutableFeatures ≠ next.ImmutableFeatures then some Error.New else none

/-- Go `nftDestructionValid` (lines 929-935). -/
def nftDestructionValid (vmParams : Params) : Option Error :=
  if vmParams.WorkingSet.Tx.Capabilities.CannotDestroyNFTOutputs then
    some (Error.Join Error.ErrInvalidNFTStateTransition
      Error.ErrTxCapabilitiesNFTDestructionNotAllowed)
  else none

/-- Go `nftSTVF` (lines 888-911). -/
def nftSTVF (vmParams : Params) (input : Option ChainOutputWithIDs)
    (transType : ChainTransitionType) (next : Option NFTOutput) : Option (Option Error) :=
  match transType with
  | ChainTransitionType.Genesis =>
    match next with
    | none => none
    | some n =>
      match nftGenesisValid vmParams n with
      | some err => some (some (Error.ChainTransitionError err))
      | none => some none
  | ChainTransitionType.StateChange =>
    match input, next with
    | some i, some n =>
      match i.Output with
      | Output.NFT current =>
        match nftStateChangeValid current n with
        | some err => some (some (Error.ChainTransitionError err))
        | none => some none
      | _ => none
    | _, _ => none
  | ChainTransitionType.Destroy =>
    match input with
    | some i =>
      match i.Output with
      | Output.NFT _ =>
        match nftDestructionValid vmParams with
        | some err => some (some (Error.ChainTransitionError err))
        | none => some none
      | _ => none
    | none => none

/-- Go `registrationSlot` (lines 1039-1043), in `SlotIndex` arithmetic. -/
def registrationSlot (vmParams : Params) (epoch : Nat) : Nat :=
  sub64 (vmParams.API.TimeProvider.EpochEnd epoch)
    vmParams.API.ProtocolParameters.EpochNearingThreshold

/-- Go `delegationGenesisValid` (lines 967-1001). -/
def delegationGenesisValid (vmParams : Params) (current : DelegationOutput) : Option Error :=
  if current.DelegationID ≠ 0 then
    some (Error.Join Error.ErrInvalidDelegationNonZeroedID Error.ErrInvalidDelegationTransition)
  else
    match vmParams.WorkingSet.Commitment with
    | none => some Error.ErrDelegationCommitmentInputRequired
    | some commitment =>
      let pastBoundedSlot := vmParams.PastBoundedSlotIndex commitment.Slot
      let pastBoundedEpoch := vmParams.API.TimeProvider.EpochFromSlot pastBoundedSlot
      let registrationSlot := registrationSlot vmParams pastBoundedEpoch
      let expectedStartEpoch :=
        if pastBoundedSlot ≤ registrationSlot then add64 pastBoundedEpoch 1
        else add64 pastBoundedEpoch 2
      if current.StartEpoch ≠ expectedStartEpoch then
        some (Error.Join Error.ErrInvalidDelegationTransition
          Error.ErrInvalidDelegationStartEpoch)
      else if current.DelegatedAmount ≠ current.Amount then
        some (Error.Join Error.ErrInvalidDelegationTransition Error.ErrInvalidDelegationAmount)
      else if current.EndEpoch ≠ 0 then
        some (Error.Join Error.ErrInvalidDelegationTransition
          Error.ErrInvalidDelegationNonZeroEndEpoch)
      else none

/-- Go `delegationStateChangeValid` (lines 1003-1037). -/
def delegationStateChangeValid (vmParams : Params) (current next : DelegationOutput) :
    Option Error :=
  if current.DelegationID ≠ 0 then
    some (Error.Join Error.ErrInvalidDelegationTransition Error.ErrInvalidDelegationNonZeroedID)
  else if current.DelegatedAmount ≠ next.DelegatedAmount ∨
      current.ValidatorAddress ≠ next.ValidatorAddress ∨
      current.StartEpoch ≠ next.StartEpoch then
    some (Error.Join Error.ErrInvalidDelegationTransition Error.ErrInvalidDelegationModified)
  else
    match vmParams.WorkingSet.Commitment with
    | none => some Error.ErrDelegationCommitmentInputRequired
    | some commitment =>
      let futureBoundedSlot := vmParams.FutureBoundedSlotIndex commitment.Slot
      let futureBoundedEpoch := vmParams.API.TimeProvider.EpochFromSlot futureBoundedSlot
      let registrationSlot := registrationSlot vmParams futureBoundedEpoch
      let expectedEndEpoch :=
        if futureBoundedSlot ≤ registrationSlot then futureBoundedEpoch
        else add64 futureBoundedEpoch 1
      if next.EndEpoch ≠ expectedEndEpoch then
        some (Error.Join Error.ErrInvalidDelegationTransition Error.ErrInvalidDelegationEndEpoch)
      else none

/-- Go `delegationSTVF` (lines 937-965). -/
def delegationSTVF (vmParams : Params) (input : Option ChainOutputWithIDs)
    (transType : ChainTransitionType) (next : Option DelegationOutput) :
    Option (Option Error) :=
  match transType with
  | ChainTransitionType.Genesis =>
    match next with
    | none => none
    | some n =>
      match delegationGenesisValid vmParams n with
      | some err => some (some (Error.ChainTransitionError err))
      | none => some none
  | ChainTransitionType.StateChange =>
    match input with
    | some i =>
      if (vmParams.WorkingSet.Rewards i.ChainID).isSome then
        some (some (Error.Join Error.ErrInvalidDelegationTransition
          Error.ErrInvalidDelegationRewardsClaiming))
      else
        match i.Output with
        | Output.Delegation current =>
          match next with
          | some n =>
            match delegationStateChangeValid vmParams current n with
            | some err => some (some (Error.ChainTransitionError err))
            | none => some none
          | none =>
            -- the check of the zeroed ID comes before the first read of next
            if current.DelegationID ≠ 0 then
              some (some (Error.ChainTransitionError
                (Error.Join Error.ErrInvalidDelegationTransition
                  Error.ErrInvalidDelegationNonZeroedID)))
            else none
        | _ => none
    | none => none
  | ChainTransitionType.Destroy =>
    match input with
    | some i =>
      if (vmParams.WorkingSet.Rewards i.ChainID).isSome then some none
      else
        some (some (Error.Join Error.ErrInvalidDelegationTransition
          Error.ErrInvalidDelegationRewardsClaiming))
    | none => none

/-- The loop of `foundrySerialNumberValid` (lines 828-855) over the transaction
outputs: every new foundry of the same owner listed before this foundry must
have a smaller serial number. -/
def foundrySerialOrderLoop (vmParams : Params) (current : FoundryOutput)
    (thisFoundryID : ChainID) : List Output → Option Error
  | [] => none
  | Output.Foundry otherFoundryOutput :: rest =>
    if otherFoundryOutput.Ident ≠ current.Ident then
      foundrySerialOrderLoop vmParams current thisFoundryID rest
    else if (vmParams.WorkingSet.InChains otherFoundryOutput.MustFoundryID).isSome then
      foundrySerialOrderLoop vmParams current thisFoundryID rest
    else if otherFoundryOutput.MustFoundryID = thisFoundryID then none
    else if otherFoundryOutput.SerialNumber ≥ current.SerialNumber then
      some Error.ErrInvalidFoundryStateTransition
    else foundrySerialOrderLoop vmParams current thisFoundryID rest
  | _ :: rest => foundrySerialOrderLoop vmParams current thisFoundryID rest

/-- The counter-interval check of `foundrySerialNumberValid` (lines 819-824). -/
def foundrySerialInInterval (current : FoundryOutput) (inAccount outAccount : AccountOutput) :
    Option Error :=
  let startSerial := inAccount.FoundryCounter
  let endIncSerial := outAccount.FoundryCounter
  if startSerial ≥ current.SerialNumber ∨ current.SerialNumber > endIncSerial then
    some Error.ErrInvalidFoundryStateTransition
  else none

/-- Go `foundrySerialNumberValid` (lines 818-858). -/
def foundrySerialNumberValid (vmParams : Params) (current : FoundryOutput)
    (inAccount outAccount : AccountOutput) (thisFoundryID : ChainID) : Option Error :=
  match foundrySerialInInterval current inAccount outAccount with
  | some err => some err
  | none => foundrySerialOrderLoop vmParams current thisFoundryID vmParams.WorkingSet.Tx.Outputs

/-! ## Implicit accounts, foundry destruction and the execution entry point
(`vm/nova/vm.go`, lines 12-29, 111-136, 211-236, 878-886) -/

/-- Modelled from the spec: the constant `iotago.MaxSlotIndex` is declared outside
the sources at hand; the spec calls it the maximum slot value, which for the
64-bit `SlotIndex` of this embedding is `2^64 - 1`. -/
def MaxSlotIndex : Nat := 2 ^ 64 - 1

/-- Go `implicitAccountSTVF` (lines 211-236).  `next` is `nil` for a destruction;
reading `next.AccountID` of a missing output is the Go panic (outer `none`). -/
def implicitAccountSTVF (vmParams : Params) (implicitAccount : BasicOutput)
    (outputID : OutputID) (next : Option AccountOutput) (transType : ChainTransitionType) :
    Option (Option Error) :=
  if transType = ChainTransitionType.Destroy then
    some (some Error.ErrImplicitAccountDestructionDisallowed)
  else
    match next with
    | none => none
    | some n =>
      let implicitAccountChainOutput : ChainOutputWithIDs :=
        ⟨ChainID.Account n.AccountID, outputID, Output.ImplicitAccount implicitAccount⟩
      let implicitAccountBlockIssuerFeature : BlockIssuerFeature := ⟨[], MaxSlotIndex⟩
      match accountBlockIssuerSTVF vmParams implicitAccountChainOutput
          (some implicitAccountBlockIssuerFeature) n with
      | some err => some (some err)
      | none => some (accountGenesisValid vmParams n false)

/-- Go `foundryDestructionValid` (lines 878-886).  `tokenSchemeStateTransition` is
the method `current.TokenScheme.StateTransition`, which is declared outside the
sources at hand and is a parameter (its second argument is the next token
scheme, `nil` here); `inSums` and `outSums` are the native token sums read with
`ValueOrBigInt0`, and the native token ID of a foundry is its foundry ID. -/
def foundryDestructionValid (vmParams : Params) (current : FoundryOutput)
    (tokenSchemeStateTransition :
      ChainTransitionType → Option FoundryOutput → Nat → Nat → Option Error)
    (inSums outSums : ChainID → Nat) : Option Error :=
  if vmParams.WorkingSet.Tx.Capabilities.CannotDestroyFoundryOutputs then
    some (Error.Join Error.ErrInvalidFoundryStateTransition
      Error.ErrTxCapabilitiesFoundryDestructionNotAllowed)
  else
    let nativeTokenID := current.MustFoundryID
    tokenSchemeStateTransition ChainTransitionType.Destroy none (inSums nativeTokenID)
      (outSums nativeTokenID)

/-- Go `vm.ExecFunc`, applied to the virtual machine it runs in: a check of the
VM parameters that returns an error or `nil`. -/
def ExecFunc : Type := Params → Option Error

/-- Go `virtualMachine` (lines 27-29). -/
structure VirtualMachine where
  execList : List ExecFunc

/-- Go `NewVirtualMachine` (lines 12-25).  The seven default exec functions of the
package `vm` are declared outside the sources at hand and are parameters; the
constructor fixes their order. -/
def NewVirtualMachine (execFuncTimelocks execFuncSenderUnlocked execFuncBalancedBaseTokens
    execFuncBalancedNativeTokens execFuncChainTransitions execFuncBalancedMana
    execFuncAtMostOneImplicitAccountCreationAddress : ExecFunc) : VirtualMachine where
  execList := [execFuncTimelocks, execFuncSenderUnlocked, execFuncBalancedBaseTokens,
    execFuncBalancedNativeTokens, execFuncChainTransitions, execFuncBalancedMana,
    execFuncAtMostOneImplicitAccountCreationAddress]

/-- Modelled from the spec: `vm.RunVMFuncs` is not among the sources; the spec has
the exec functions applied in order to the VM parameters, each may fail, and
the first failure is returned without running the remaining ones. -/
def RunVMFuncs (vmParams : Params) : List ExecFunc → Option Error
  | [] => none
  | execFunc :: rest =>
    match execFunc vmParams with
    | some err => some err
    | none => RunVMFuncs vmParams rest

/-- The copy loop of `Execute` (lines 131-133): `outputs[i] = output` for the
outputs of the transaction from index `i` on. -/
def copyOutputs : List (Option Output) → Nat → List Output → List (Option Output)
  | outputs, _, [] => outputs
  | outputs, i, output :: rest => copyOutputs (outputs.set i (some output)) (i + 1) rest

/-- Go `virtualMachine.Execute` (lines 111-136).  A Go slice of outputs is a list
of `Option Output` (`none` is the nil interface value that `make` fills in) and
the nil slice is the outer `none`.  `newVMParamsWorkingSet` is the result of
`NewVMParamsWorkingSet(vmParams.API, transaction, resolvedInputs)`, which
returns either `nil` and an error or a working set and `nil`; `withUnlockedIdents`
builds the VM parameters from the API of the transaction and that working set
with `UnlockedIdents` set.  Both depend on declarations outside the sources at
hand and are parameters. -/
def Execute (novaVM : VirtualMachine) (newVMParamsWorkingSet : Except Error WorkingSet)
    (withUnlockedIdents : WorkingSet → Params) (transaction : Transaction)
    (execFunctions : List ExecFunc) : Option (List (Option Output)) × Option Error :=
  match newVMParamsWorkingSet with
  | Except.error err => (none, some err)
  | Except.ok workingSet =>
    let vmParams := withUnlockedIdents workingSet
    let execFunctions1 := if execFunctions.length = 0 then novaVM.execList else execFunctions
    match RunVMFuncs vmParams execFunctions1 with
    | some err => (none, some err)
    | none =>
      let outputs := List.replicate transaction.Outputs.length (none : Option Output)
      (some (copyOutputs outputs 0 transaction.Outputs), none)

/-! ## Quantities named by the specification -/

/-- The new foundries of an account in a list of outputs, in list order: the
foundry outputs owned by the account whose foundry ID is absent from the chain
inputs. -/
def newFoundriesOfAccount (vmParams : Params) (accountID : Nat) : List Output → List FoundryOutput
  | [] => []
  | Output.Foundry f :: rest =>
    if f.Ident = accountID ∧ vmParams.WorkingSet.InChains f.MustFoundryID = none then
      f :: newFoundriesOfAccount vmParams accountID rest
    else newFoundriesOfAccount vmParams accountID rest
  | _ :: rest => newFoundriesOfAccount vmParams accountID rest

/-- The sum of the stored mana of every output of a list that is mana-locked to
the account until the given slot. -/
def manalockedSum (vmParams : Params) (accountID minManalockedSlot : Nat) : List Output → Nat
  | [] => 0
  | output :: rest =>
    if vmParams.HasManalockCondition output accountID minManalockedSlot then
      output.StoredMana + manalockedSum vmParams accountID minManalockedSlot rest
    else manalockedSum vmParams accountID minManalockedSlot rest

/-- The per-epoch iterative sum the specification compares the closed form of
`PotentialManaWithDecay` with, for an epoch difference of 2, in unsigned 64-bit
arithmetic: `decay(generateMana(deposit, SlotsBeforeNextEpoch(created)), 2) +
decay(generateMana(deposit, slotsPerEpoch), 1) +
generateMana(deposit, SlotsSinceEpochStart(target))`. -/
def potentialManaIterativeTwoEpochs (p : ManaDecayProvider)
    (deposit slotIndexCreated slotIndexTarget : Nat) : Nat :=
  add64
    (add64
      (decay p (generateMana p deposit (p.timeProvider.SlotsBeforeNextEpoch slotIndexCreated)) 2)
      (decay p (generateMana p deposit (shl64 1 p.slotsPerEpochShiftFactor)) 1))
    (generateMana p deposit (p.timeProvider.SlotsSinceEpochStart slotIndexTarget))

/-- One round of the loop of `decay` with the table entry at `index`. -/
def decayRound (p : ManaDecayProvider) (index : Nat) (value : Nat × Nat) : Nat × Nat :=
  fixedPointMultiplication32Splitted value.1 value.2 (p.decayFactors.getD index 0)
    p.decayFactorsShiftFactor

/-- The rounds the specification describes for an epoch difference
`q * tableLength + r`: `q` rounds with the last table entry, then, when
`r > 0`, one round with the entry at index `r - 1`. -/
def decayRounds (p : ManaDecayProvider) (q r : Nat) (value : Nat × Nat) : Nat × Nat :=
  let afterFullPasses := Nat.iterate (decayRound p (p.decayFactorsLength - 1)) q value
  if r > 0 then decayRound p (r - 1) afterFullPasses else afterFullPasses

/-- The consumed account has a staking feature that has expired: a commitment is
present and the future-bounded epoch is after the EndEpoch of the feature. -/
def hasExpiredStaking (vmParams : Params) (current : AccountOutput) : Bool :=
  match current.Staking, vmParams.WorkingSet.Commitment with
  | some currentStakingFeat, some commitment =>
    decide (currentStakingFeat.EndEpoch
      < vmParams.API.TimeProvider.EpochFromSlot
          (vmParams.FutureBoundedSlotIndex commitment.Slot))
  | _, _ => false

/-- The state change removes the expired staking feature of the consumed account
or replaces it by a different one. -/
def removesOrReplacesExpiredStaking (vmParams : Params) (current next : AccountOutput) : Bool :=
  hasExpiredStaking vmParams current && decide (next.Staking ≠ current.Staking)

/-! ## Concrete configurations used in evaluations -/

/-- A small consistent configuration: epochs of `2^3` slots, generation rate 1
with shift factor 10, decay by one half per epoch (table `[2^31, 2^30]`, shift
factor 32), and the decay-factor sum `Σ_{k≥1} 2^-k = 1` with shift factor 20. -/
def halvingProvider : ManaDecayProvider :=
  NewManaDecayProvider (specTimeProvider 3) 3 1 10 [2 ^ 31, 2 ^ 30] 32 (2 ^ 20) 20

/-- A two-entry table for decay by two thirds per epoch:
`[⌊2^32·2/3⌋, ⌊2^32·4/9⌋]` with shift factor 32. -/
def twoThirdsProvider : ManaDecayProvider :=
  NewManaDecayProvider (specTimeProvider 13) 13 1 27 [2863311530, 1908874353] 32 0 20

/-- A one-entry table whose factor `2^32 - 1` exceeds `2^decayFactorsShiftFactor = 2`:
"decay" by this table multiplies the value. -/
def growingProvider : ManaDecayProvider :=
  NewManaDecayProvider (specTimeProvider 13) 13 1 27 [4294967295] 1 0 20

/-- The mana parameters of `TestProtocolParametersJSONMarshalling` in
`api_test.go` (lines 100-112): slots-per-epoch exponent 13, generation rate 1
with exponent 27, decay factors `[10, 20]` with exponent 32 and the decay-factor
sum 1337 with exponent 20. -/
def apiTestProvider : ManaDecayProvider :=
  NewManaDecayProvider (specTimeProvider 13) 13 1 27 [10, 20] 32 1337 20

/-- Modelled from the spec: the newer `timeprovider.go` is missing; the data model
gives `epoch = slot >> slotsPerEpochExponent` and an epoch spans
`2^slotsPerEpochExponent` slots, so the last slot of an epoch is the slot before
the first slot of the next one.  Used for concrete evaluations only. -/
def specVMTimeProvider (slotsPerEpochExponent : Nat) : VMTimeProvider where
  EpochFromSlot := fun slot => shr64 slot slotsPerEpochExponent
  EpochEnd := fun epoch => sub64 (shl64 (add64 epoch 1) slotsPerEpochExponent) 1

/-- A transaction with the given outputs, created in slot 100, without allotments
and with every destruction allowed. -/
def exampleTransaction (outputs : List Output) : Transaction where
  CreationSlot := 100
  Outputs := outputs
  Allotments := fun _ => 0
  Capabilities := ⟨false, false, false, false⟩

/-- VM parameters for concrete evaluations: epochs of `2^3` slots, an
epoch-nearing threshold of 3 slots, a staking unbonding period of 10 epochs, a
maximal committable age of 4 slots; the past-bounded slot is the commitment slot
plus `pastOffset` and the future-bounded slot is the commitment slot plus
`futureOffset`; stored mana decays by the halving configuration, no output has
potential mana, every issuer is unlocked, no output is mana-locked and no chain
is consumed. -/
def exampleParams (pastOffset futureOffset : Nat) (commitment : Option Commitment)
    (bic : Nat → Option Int) (rewards : ChainID → Option Nat) (outputs : List Output)
    (totalManaIn totalManaOut : Nat) : Params where
  API := {
    TimeProvider := specVMTimeProvider 3
    ProtocolParameters := ⟨4, 10, 3⟩
    DecayManaBySlots := StoredManaWithDecay halvingProvider
    PotentialMana := fun _ _ _ => (0, none) }
  WorkingSet := {
    Tx := exampleTransaction outputs
    InChains := fun _ => none
    OutChains := fun _ => none
    BIC := bic
    Commitment := commitment
    Rewards := rewards
    TotalManaIn := totalManaIn
    TotalManaOut := totalManaOut }
  PastBoundedSlotIndex := fun slot => add64 slot pastOffset
  FutureBoundedSlotIndex := fun slot => add64 slot futureOffset
  IsIssuerOnOutputUnlocked := fun _ => none
  HasManalockCondition := fun _ _ _ => false

/-- A new foundry of account 7 with the given serial number. -/
def exampleFoundry (serialNumber : Nat) : FoundryOutput :=
  ⟨1000, serialNumber, 0, 7, []⟩

/-- Account 7 with the given stored mana and foundry counter and no features. -/
def exampleAccount (mana foundryCounter : Nat) : AccountOutput :=
  ⟨1000, mana, 7, foundryCounter, none, none, []⟩

/-- Account 7 with the given stored mana, no foundries and a block-issuer feature
with one key that expires in the given slot. -/
def exampleIssuerAccount (mana expirySlot : Nat) : AccountOutput :=
  ⟨1000, mana, 7, 0, some ⟨[1], expirySlot⟩, none, []⟩

/-- The consumed output of account 7, created in slot 100. -/
def exampleAccountInput (current : AccountOutput) : ChainOutputWithIDs :=
  ⟨ChainID.Account 7, ⟨100, 0⟩, Output.Account current⟩

/-- The parameters of `exampleParams` with no commitment, no BIC entries and no
rewards, for a transaction with the given capabilities. -/
def exampleParamsWithCapabilities (capabilities : TransactionCapabilities) : Params :=
  let vmParams := exampleParams 4 2 none (fun _ => none) (fun _ => none) [] 0 0
  { vmParams with
    WorkingSet := { vmParams.WorkingSet with
      Tx := { vmParams.WorkingSet.Tx with Capabilities := capabilities } } }

/-- Anchor 3 with the given state index, plain metadata and state metadata. -/
def exampleAnchor (stateIndex : Nat) (metadata stateMetadata : Option Nat) : AnchorOutput :=
  ⟨1000, 0, 3, stateIndex, 11, 12, metadata, stateMetadata, []⟩

/-- The consumed output of anchor 3, created in slot 100. -/
def exampleAnchorInput (current : AnchorOutput) : ChainOutputWithIDs :=
  ⟨ChainID.Anchor 3, ⟨100, 0⟩, Output.Anchor current⟩

/-- Account 7 with a block-issuer feature that expires in slot 500 and the given
staking feature. -/
def exampleStakingAccount (staking : Option StakingFeature) : AccountOutput :=
  ⟨1000, 0, 7, 0, some ⟨[1], 500⟩, staking, []⟩

/-! ## Arithmetic of the 64-bit operations -/

theorem add64_eq {x y : Nat} (h : x + y < 2 ^ 64) : add64 x y = x + y := by
  unfold add64; exact Nat.mod_eq_of_lt h

theorem mul64_eq {x y : Nat} (h : x * y < 2 ^ 64) : mul64 x y = x * y := by
  unfold mul64; exact Nat.mod_eq_of_lt h

theorem sub64_eq {x y : Nat} (hy : y ≤ x) (hx : x < 2 ^ 64) : sub64 x y = x - y := by
  unfold sub64; omega

theorem shl64_eq {x s : Nat} (hs : s < 64) (h : x * 2 ^ s < 2 ^ 64) : shl64 x s = x * 2 ^ s := by
  unfold shl64; rw [if_pos hs, Nat.shiftLeft_eq, Nat.mod_eq_of_lt h]

theorem shr64_eq {x s : Nat} (hs : s < 64) (hx : x < 2 ^ 64) : shr64 x s = x / 2 ^ s := by
  unfold shr64; rw [if_pos hs, Nat.mod_eq_of_lt hx, Nat.shiftRight_eq_div_pow]

theorem and_mask32 (x : Nat) : x &&& 0x00000000FFFFFFFF = x % 2 ^ 32 := by
  have h : (0x00000000FFFFFFFF : Nat) = 2 ^ 32 - 1 := by norm_num
  rw [h, Nat.and_pow_two_sub_one_eq_mod]

theorem add64_lt (x y : Nat) : add64 x y < 2 ^ 64 := by
  unfold add64; exact Nat.mod_lt _ (by norm_num)

theorem sub64_lt (x y : Nat) : sub64 x y < 2 ^ 64 := by
  unfold sub64; exact Nat.mod_lt _ (by norm_num)

theorem mul64_lt (x y : Nat) : mul64 x y < 2 ^ 64 := by
  unfold mul64; exact Nat.mod_lt _ (by norm_num)

theorem split_merge {value : Nat} (h : value < 2 ^ 64) :
    splitUint64 value = (value / 2 ^ 32, value % 2 ^ 32) := by
  unfold splitUint64
  rw [shr64_eq (by norm_num) h, and_mask32]

theorem mergeUint64_eq {hi lo : Nat} (hlo : lo < 2 ^ 32) :
    mergeUint64 hi lo = (hi % 2 ^ 32) * 2 ^ 32 + lo := by
  unfold mergeUint64 shl64
  rw [if_pos (by norm_num), Nat.shiftLeft_eq]
  have h1 : hi * 2 ^ 32 % 2 ^ 64 = 2 ^ 32 * (hi % 2 ^ 32) := by omega
  rw [h1, ← Nat.mul_add_lt_is_or hlo]
  ring

/-- The exact quotient `⌊(hi·2^32 + lo)·F / 2^s⌋` splits along the two words:
the high word contributes `hi·F·2^(32-s)` exactly. -/
theorem quotient_split (hi lo F s : Nat) (hs : s ≤ 32) :
    (hi * 2 ^ 32 + lo) * F / 2 ^ s
      = (hi * F / 2 ^ s) * 2 ^ 32 + ((hi * F % 2 ^ s) * 2 ^ (32 - s) + lo * F / 2 ^ s) := by
  have hpow : (2 : Nat) ^ 32 = 2 ^ s * 2 ^ (32 - s) := by
    rw [← pow_add]; congr 1; omega
  have hdm : hi * F = 2 ^ s * (hi * F / 2 ^ s) + hi * F % 2 ^ s := (Nat.div_add_mod _ _).symm
  have h1 : (hi * 2 ^ 32 + lo) * F = lo * F + 2 ^ s * (hi * F * 2 ^ (32 - s)) := by
    rw [hpow]; ring
  rw [h1, Nat.add_mul_div_left _ _ (by positivity : 0 < 2 ^ s)]
  have h2 : hi * F * 2 ^ (32 - s)
      = (hi * F / 2 ^ s) * 2 ^ 32 + (hi * F % 2 ^ s) * 2 ^ (32 - s) := by
    conv_lhs => rw [hdm]
    rw [hpow]; ring
  rw [h2]; ring

/-- Within its design range (32-bit words, a factor of at most 32 bits and a scale
of at most 32) `fixedPointMultiplication32Splitted` returns the exact quotient,
split into its high part and its low 32 bits, and none of its 64-bit
operations overflows. -/
theorem fixedPointMultiplication32Splitted_exact {hi lo F s : Nat}
    (hhi : hi < 2 ^ 32) (hlo : lo < 2 ^ 32) (hF : F < 2 ^ 32) (hs : s ≤ 32) :
    fixedPointMultiplication32Splitted hi lo F s
      = ((hi * 2 ^ 32 + lo) * F / 2 ^ s / 2 ^ 32, (hi * 2 ^ 32 + lo) * F / 2 ^ s % 2 ^ 32) := by
  have hhiF : hi * F ≤ (2 ^ 32 - 1) * (2 ^ 32 - 1) :=
    Nat.mul_le_mul (by omega) (by omega)
  have hloF : lo * F ≤ (2 ^ 32 - 1) * (2 ^ 32 - 1) :=
    Nat.mul_le_mul (by omega) (by omega)
  have hpos : 0 < 2 ^ s := by positivity
  have hpow : (2 : Nat) ^ s * 2 ^ (32 - s) = 2 ^ 32 := by
    rw [← pow_add]; congr 1; omega
  have hps : (2 : Nat) ^ s ≤ 2 ^ 32 := Nat.pow_le_pow_right (by norm_num) hs
  have hA : (hi * F % 2 ^ s) * 2 ^ (32 - s) < 2 ^ 32 := by
    have : hi * F % 2 ^ s < 2 ^ s := Nat.mod_lt _ hpos
    calc (hi * F % 2 ^ s) * 2 ^ (32 - s) < 2 ^ s * 2 ^ (32 - s) :=
          Nat.mul_lt_mul_of_pos_right this (by positivity)
      _ = 2 ^ 32 := hpow
  have hB : lo * F / 2 ^ s ≤ (2 ^ 32 - 1) * (2 ^ 32 - 1) :=
    le_trans (Nat.div_le_self _ _) hloF
  have hH : hi * F / 2 ^ s ≤ (2 ^ 32 - 1) * (2 ^ 32 - 1) :=
    le_trans (Nat.div_le_self _ _) hhiF
  unfold fixedPointMultiplication32Splitted
  simp only []
  have e1 : mul64 hi F = hi * F := mul64_eq (by norm_num at hhiF ⊢; omega)
  have e2 : mul64 lo F = lo * F := mul64_eq (by norm_num at hloF ⊢; omega)
  have e3 : shl64 1 s = 2 ^ s := by
    rw [shl64_eq (by omega) (by norm_num at hps ⊢; omega)]; simp
  have e4 : sub64 (2 ^ s) 1 = 2 ^ s - 1 := sub64_eq hpos (by norm_num at hps ⊢; omega)
  have e5 : sub64 32 s = 32 - s := sub64_eq hs (by norm_num)
  have e6 : shl64 (hi * F % 2 ^ s) (32 - s) = (hi * F % 2 ^ s) * 2 ^ (32 - s) :=
    shl64_eq (by omega) (by norm_num at hA ⊢; omega)
  have e7 : shr64 (lo * F) s = lo * F / 2 ^ s :=
    shr64_eq (by omega) (by norm_num at hloF ⊢; omega)
  have e8 : shr64 (hi * F) s = hi * F / 2 ^ s :=
    shr64_eq (by omega) (by norm_num at hhiF ⊢; omega)
  rw [e1, e2, e3, e4, Nat.and_pow_two_sub_one_eq_mod, e5, e6, e7, e8]
  have e9 : add64 ((hi * F % 2 ^ s) * 2 ^ (32 - s)) (lo * F / 2 ^ s)
      = (hi * F % 2 ^ s) * 2 ^ (32 - s) + lo * F / 2 ^ s :=
    add64_eq (by norm_num at hA hB ⊢; omega)
  rw [e9]
  set V := (hi * F % 2 ^ s) * 2 ^ (32 - s) + lo * F / 2 ^ s with hV
  have hVlt : V < 2 ^ 64 := by norm_num at hA hB ⊢; omega
  have e10 : shr64 V 32 = V / 2 ^ 32 := shr64_eq (by norm_num) hVlt
  have e11 : add64 (hi * F / 2 ^ s) (V / 2 ^ 32) = hi * F / 2 ^ s + V / 2 ^ 32 :=
    add64_eq (by norm_num at hH hVlt ⊢; omega)
  rw [e10, e11, and_mask32, quotient_split hi lo F s hs, ← hV]
  have d1 : (hi * F / 2 ^ s * 2 ^ 32 + V) / 2 ^ 32 = hi * F / 2 ^ s + V / 2 ^ 32 := by
    rw [Nat.add_comm, Nat.add_mul_div_right _ _ (by norm_num : 0 < 2 ^ 32), Nat.add_comm]
  have d2 : (hi * F / 2 ^ s * 2 ^ 32 + V) % 2 ^ 32 = V % 2 ^ 32 := by
    rw [Nat.add_comm, Nat.add_mul_mod_self_right]
  rw [d1, d2]

/-- In its design range `fixedPointMultiplication32` is the exact quotient reduced
modulo `2^64`. -/
theorem fixedPointMultiplication32_mod {value F s : Nat}
    (hv : value < 2 ^ 64) (hF : F < 2 ^ 32) (hs : s ≤ 32) :
    fixedPointMultiplication32 value F s = value * F / 2 ^ s % 2 ^ 64 := by
  unfold fixedPointMultiplication32
  rw [split_merge hv]
  simp only []
  rw [fixedPointMultiplication32Splitted_exact (by omega) (Nat.mod_lt _ (by norm_num)) hF hs]
  simp only []
  rw [mergeUint64_eq (Nat.mod_lt _ (by norm_num))]
  have : value / 2 ^ 32 * 2 ^ 32 + value % 2 ^ 32 = value := by omega
  rw [this]
  omega

/-! ## Fixed-point multiplication and mana generation -/

/-- C3, evaluated on the code: for the mana parameters of `api_test.go` the scale
that `PotentialManaWithDecay` passes at line 157 is `20 + 27 - 13 = 34`; with
the deposit `2^40` and the factor 1337 (below `2^32`) the quotient
`⌊2^40 · 1337 / 2^34⌋ = 85568` fits in 64 bits, but
`fixedPointMultiplication32` returns 0: `32 - scale` wraps around as a `uint64`,
so the left shift by it gives 0 and the carried bits of the high word are lost. -/
theorem fixedPointMultiplication32_scale_34 :
    sub64 (add64 apiTestProvider.decayFactorEpochsSumShiftFactor
        apiTestProvider.generationRateShiftFactor) apiTestProvider.slotsPerEpochShiftFactor
      = 34 ∧
    apiTestProvider.decayFactorEpochsSum = 1337 ∧
    ((2 : Nat) ^ 40 < 2 ^ 64 ∧ (1337 : Nat) < 2 ^ 32 ∧
      (2 : Nat) ^ 40 * 1337 / 2 ^ 34 = 85568 ∧ (85568 : Nat) < 2 ^ 64) ∧
    fixedPointMultiplication32 (2 ^ 40) apiTestProvider.decayFactorEpochsSum
      (sub64 (add64 apiTestProvider.decayFactorEpochsSumShiftFactor
        apiTestProvider.generationRateShiftFactor) apiTestProvider.slotsPerEpochShiftFactor)
      = 0 ∧
    fixedPointMultiplication32 (2 ^ 40) 1337 34 ≠ 2 ^ 40 * 1337 / 2 ^ 34 := by
  decide

/-- The smallest scale above 32 with the value `2^33` and the factor 1: the
quotient `2^33 · 1 / 2^33 = 1` fits in 64 bits, but the code returns `0`
(`32 - scale` wraps around and the left shift clears the carried bits). -/
theorem fixedPointMultiplication32_scale_above_32 :
    ((2 : Nat) ^ 33 < 2 ^ 64 ∧ (1 : Nat) < 2 ^ 32 ∧ (2 : Nat) ^ 33 * 1 / 2 ^ 33 < 2 ^ 64) ∧
    fixedPointMultiplication32 (2 ^ 33) 1 33 = 0 ∧
    fixedPointMultiplication32 (2 ^ 33) 1 33 ≠ 2 ^ 33 * 1 / 2 ^ 33 := by
  decide

/-- Within a scale of at most 32 the function is exact: for every 64-bit value,
every factor below `2^32` and every scale of at most 32,
`fixedPointMultiplication32 value factor scale` is `⌊value · factor / 2^scale⌋`
whenever that quotient fits in 64 bits. -/
theorem fixedPointMultiplication32_exact (value factor scale : Nat)
    (hv : value < 2 ^ 64) (hF : factor < 2 ^ 32) (hs : scale ≤ 32)
    (hq : value * factor / 2 ^ scale < 2 ^ 64) :
    fixedPointMultiplication32 value factor scale = value * factor / 2 ^ scale := by
  rw [fixedPointMultiplication32_mod hv hF hs, Nat.mod_eq_of_lt hq]

/-- Witness of `fixedPointMultiplication32_exact`: a 64-bit value that uses both
words, a factor of 32 bits and the scale 32. -/
theorem fixedPointMultiplication32_exact_witness :
    fixedPointMultiplication32 123456789012 3000000000 32
      = 123456789012 * 3000000000 / 2 ^ 32 :=
  fixedPointMultiplication32_exact 123456789012 3000000000 32
    (by norm_num) (by norm_num) (by norm_num) (by norm_num)

/-- C4, as stated, fails: with generation rate 4, shift factor 32, deposit
`2^32 - 1` and a slot difference of `2^31` the quotient `2^33 - 2` fits in 64
bits, but the factor `slotDiff · rate = 2^33` exceeds 32 bits, the product of
the low word overflows and the code returns `2^32 - 2`. -/
theorem generateMana_factor_above_32_bits :
    ((2 : Nat) ^ 31 ≠ 0 ∧ (4 : Nat) ≠ 0 ∧
      ((2 : Nat) ^ 32 - 1) * 2 ^ 31 * 4 / 2 ^ 32 < 2 ^ 64) ∧
    generateMana (NewManaDecayProvider (specTimeProvider 13) 13 4 32 [] 32 0 20)
      (2 ^ 32 - 1) (2 ^ 31) = 2 ^ 32 - 2 ∧
    generateMana (NewManaDecayProvider (specTimeProvider 13) 13 4 32 [] 32 0 20)
      (2 ^ 32 - 1) (2 ^ 31) ≠ (2 ^ 32 - 1) * 2 ^ 31 * 4 / 2 ^ 32 := by
  decide

/-- The shift factor must stay within 32 as well: with rate 1 and shift factor
33, `generateMana(2^33, 1)` is `0` although the quotient is `1`. -/
theorem generateMana_shift_above_32 :
    generateMana (NewManaDecayProvider (specTimeProvider 13) 13 1 33 [] 32 0 20) (2 ^ 33) 1 = 0 ∧
    (2 : Nat) ^ 33 * 1 * 1 / 2 ^ 33 = 1 := by
  decide

/-- C4, amended: `generateMana(deposit, slotDiff)` is 0 when `slotDiff = 0` or
the generation rate is 0; otherwise, when the factor `slotDiff · generationRate`
fits in 32 bits and the generation-rate shift factor is at most 32, it equals
`⌊deposit · slotDiff · generationRate / 2^generationRateShiftFactor⌋` for every
64-bit deposit for which that quotient fits in 64 bits. -/
theorem generateMana_spec (p : ManaDecayProvider) (deposit slotDiff : Nat) :
    ((slotDiff = 0 ∨ p.generationRate = 0) → generateMana p deposit slotDiff = 0) ∧
    (slotDiff ≠ 0 → p.generationRate ≠ 0 → deposit < 2 ^ 64 →
      slotDiff * p.generationRate < 2 ^ 32 → p.generationRateShiftFactor ≤ 32 →
      deposit * slotDiff * p.generationRate / 2 ^ p.generationRateShiftFactor < 2 ^ 64 →
      generateMana p deposit slotDiff
        = deposit * slotDiff * p.generationRate / 2 ^ p.generationRateShiftFactor) := by
  constructor
  · intro h
    unfold generateMana
    rw [if_pos h]
  · intro h1 h2 hd hf hs hq
    unfold generateMana
    rw [if_neg (by tauto), mul64_eq (by omega)]
    rw [Nat.mul_assoc] at hq
    rw [fixedPointMultiplication32_mod hd hf hs, Nat.mod_eq_of_lt hq, Nat.mul_assoc]

/-- Witness of `generateMana_spec`: rate 1, shift factor 27, one epoch of
`2^13` slots and a deposit of `2^40`. -/
theorem generateMana_spec_witness :
    generateMana (NewManaDecayProvider (specTimeProvider 13) 13 1 27 [] 32 0 20) (2 ^ 40) (2 ^ 13)
      = 2 ^ 40 * 2 ^ 13 * 1 / 2 ^ 27 :=
  (generateMana_spec (NewManaDecayProvider (specTimeProvider 13) 13 1 27 [] 32 0 20)
    (2 ^ 40) (2 ^ 13)).2 (by norm_num) (by decide) (by norm_num) (by decide) (by decide)
    (by decide)

/-! ## The decay loop -/

/-- A table lookup with default 0 returns an entry of the table or 0. -/
theorem getD_mem_or_zero (l : List Nat) (i : Nat) : l.getD i 0 ∈ l ∨ l.getD i 0 = 0 := by
  rcases Nat.lt_or_ge i l.length with h | h
  · left
    rw [List.getD_eq_getElem l 0 h]
    exact List.getElem_mem h
  · right
    exact List.getD_eq_default l 0 h

/-- One round of the loop on a split value: a factor of at most 32 bits that is
at most `2^scale` keeps both words within 32 bits and does not increase the value. -/
theorem fixedPointMultiplication32Splitted_le {hi lo F s : Nat}
    (hhi : hi < 2 ^ 32) (hlo : lo < 2 ^ 32) (hF : F < 2 ^ 32) (hs : s ≤ 32)
    (hFs : F ≤ 2 ^ s) :
    (fixedPointMultiplication32Splitted hi lo F s).1 < 2 ^ 32 ∧
    (fixedPointMultiplication32Splitted hi lo F s).2 < 2 ^ 32 ∧
    (fixedPointMultiplication32Splitted hi lo F s).1 * 2 ^ 32
      + (fixedPointMultiplication32Splitted hi lo F s).2 ≤ hi * 2 ^ 32 + lo := by
  rw [fixedPointMultiplication32Splitted_exact hhi hlo hF hs]
  simp only []
  have hq : (hi * 2 ^ 32 + lo) * F / 2 ^ s ≤ hi * 2 ^ 32 + lo := by
    calc (hi * 2 ^ 32 + lo) * F / 2 ^ s
        ≤ (hi * 2 ^ 32 + lo) * 2 ^ s / 2 ^ s :=
          Nat.div_le_div_right (Nat.mul_le_mul_left _ hFs)
      _ = hi * 2 ^ 32 + lo := Nat.mul_div_cancel _ (by positivity)
  refine ⟨?_, Nat.mod_lt _ (by norm_num), ?_⟩ <;> omega

/-- The loop body of `decay` when epochs remain. -/
theorem decayLoop_succ (p : ManaDecayProvider) (fuel hi lo rem : Nat) (h : 0 < rem) :
    decayLoop p (fuel + 1) hi lo rem
      = decayLoop p fuel
          (fixedPointMultiplication32Splitted hi lo
            (p.decayFactors.getD
              (sub64 (if rem > p.decayFactorsLength then p.decayFactorsLength else rem) 1) 0)
            p.decayFactorsShiftFactor).1
          (fixedPointMultiplication32Splitted hi lo
            (p.decayFactors.getD
              (sub64 (if rem > p.decayFactorsLength then p.decayFactorsLength else rem) 1) 0)
            p.decayFactorsShiftFactor).2
          (sub64 rem (if rem > p.decayFactorsLength then p.decayFactorsLength else rem)) := by
  rw [decayLoop, if_pos h]

/-- The loop ends as soon as no epoch remains. -/
theorem decayLoop_zero (p : ManaDecayProvider) (fuel hi lo : Nat) :
    decayLoop p fuel hi lo 0 = (hi, lo) := by
  cases fuel <;> simp [decayLoop]

/-- The table lookup of the loop never leaves the table: when the cached length
is the length of a non-empty table and epochs remain, `diffsToDecay - 1` is a
valid index, so the Go slice access cannot fail. -/
theorem decayLoop_index_lt (p : ManaDecayProvider)
    (hlen : p.decayFactorsLength = p.decayFactors.length) (hL : 0 < p.decayFactorsLength)
    (rem : Nat) (hrem : 0 < rem) :
    sub64 (if rem > p.decayFactorsLength then p.decayFactorsLength else rem) 1
      < p.decayFactors.length := by
  have hle : sub64 (if rem > p.decayFactorsLength then p.decayFactorsLength else rem) 1
      < (if rem > p.decayFactorsLength then p.decayFactorsLength else rem) := by
    have hpos : 0 < (if rem > p.decayFactorsLength then p.decayFactorsLength else rem) := by
      split <;> omega
    unfold sub64
    omega
  have : (if rem > p.decayFactorsLength then p.decayFactorsLength else rem)
      ≤ p.decayFactors.length := by
    split <;> omega
  omega

/-- Enough fuel: with a non-empty table every round consumes at least one epoch,
so one more round than the remaining epochs changes nothing. -/
theorem decayLoop_fuel_succ (p : ManaDecayProvider) (hL : 0 < p.decayFactorsLength) :
    ∀ (fuel hi lo rem : Nat), rem ≤ fuel → rem < 2 ^ 64 →
      decayLoop p (fuel + 1) hi lo rem = decayLoop p fuel hi lo rem := by
  intro fuel
  induction fuel with
  | zero =>
    intro hi lo rem h _
    have : rem = 0 := by omega
    subst this
    rw [decayLoop_zero, decayLoop_zero]
  | succ n ih =>
    intro hi lo rem h h64
    rcases Nat.eq_zero_or_pos rem with h0 | hpos
    · subst h0
      rw [decayLoop_zero, decayLoop_zero]
    · rw [decayLoop_succ p (n + 1) hi lo rem hpos, decayLoop_succ p n hi lo rem hpos]
      have hd : sub64 rem (if rem > p.decayFactorsLength then p.decayFactorsLength else rem)
          = rem - (if rem > p.decayFactorsLength then p.decayFactorsLength else rem) := by
        apply sub64_eq _ h64
        split <;> omega
      rw [hd]
      apply ih
      · split <;> omega
      · omega

/-- The result of the loop does not depend on the fuel once it covers the
remaining epochs: the loop of `decay` terminates within `remaining` rounds. -/
theorem decayLoop_fuel (p : ManaDecayProvider) (hL : 0 < p.decayFactorsLength)
    (hi lo rem : Nat) (h64 : rem < 2 ^ 64) :
    ∀ fuel, rem ≤ fuel → decayLoop p fuel hi lo rem = decayLoop p rem hi lo rem := by
  intro fuel hfuel
  induction fuel with
  | zero =>
    have : rem = 0 := by omega
    subst this; rfl
  | succ n ih =>
    rcases Nat.eq_or_lt_of_le hfuel with heq | hlt
    · rw [heq]
    · rw [decayLoop_fuel_succ p hL n hi lo rem (by omega) h64]
      exact ih (by omega)

/-- Every entry the loop can look up is at most 32 bits wide and at most
`2^decayFactorsShiftFactor`, when the table entries are. -/
theorem decayFactor_bounds (p : ManaDecayProvider) (hWF : p.WellFormed)
    (hf : ∀ f ∈ p.decayFactors, f ≤ 2 ^ p.decayFactorsShiftFactor) (i : Nat) :
    p.decayFactors.getD i 0 < 2 ^ 32 ∧
    p.decayFactors.getD i 0 ≤ 2 ^ p.decayFactorsShiftFactor := by
  rcases getD_mem_or_zero p.decayFactors i with h | h
  · exact ⟨hWF.2.1 _ h, hf _ h⟩
  · rw [h]; exact ⟨by norm_num, Nat.zero_le _⟩

/-- With factors of at most `2^decayFactorsShiftFactor` and a shift factor of at
most 32 the loop keeps both words within 32 bits and never increases the value. -/
theorem decayLoop_le (p : ManaDecayProvider) (hWF : p.WellFormed)
    (hs : p.decayFactorsShiftFactor ≤ 32)
    (hf : ∀ f ∈ p.decayFactors, f ≤ 2 ^ p.decayFactorsShiftFactor) :
    ∀ (fuel hi lo rem : Nat), hi < 2 ^ 32 → lo < 2 ^ 32 →
      (decayLoop p fuel hi lo rem).1 < 2 ^ 32 ∧ (decayLoop p fuel hi lo rem).2 < 2 ^ 32 ∧
      (decayLoop p fuel hi lo rem).1 * 2 ^ 32 + (decayLoop p fuel hi lo rem).2
        ≤ hi * 2 ^ 32 + lo := by
  intro fuel
  induction fuel with
  | zero =>
    intro hi lo rem hhi hlo
    exact ⟨hhi, hlo, le_refl _⟩
  | succ n ih =>
    intro hi lo rem hhi hlo
    rcases Nat.eq_zero_or_pos rem with h0 | hpos
    · subst h0
      rw [decayLoop_zero]
      exact ⟨hhi, hlo, le_refl _⟩
    · rw [decayLoop_succ p n hi lo rem hpos]
      obtain ⟨hF, hFs⟩ := decayFactor_bounds p hWF hf
        (sub64 (if rem > p.decayFactorsLength then p.decayFactorsLength else rem) 1)
      obtain ⟨h1, h2, h3⟩ := fixedPointMultiplication32Splitted_le hhi hlo hF hs hFs
      obtain ⟨g1, g2, g3⟩ := ih _ _
        (sub64 rem (if rem > p.decayFactorsLength then p.decayFactorsLength else rem)) h1 h2
      exact ⟨g1, g2, le_trans g3 h3⟩

/-- One full pass over the table: when at least `decayFactorsLength` epochs
remain, the loop applies the last table entry and goes on with the rest. -/
theorem decayLoop_chunk (p : ManaDecayProvider) (hL : 0 < p.decayFactorsLength)
    (hi lo rem : Nat) (hrem : p.decayFactorsLength ≤ rem) (h64 : rem < 2 ^ 64) :
    decayLoop p rem hi lo rem
      = decayLoop p (rem - p.decayFactorsLength)
          (fixedPointMultiplication32Splitted hi lo
            (p.decayFactors.getD (p.decayFactorsLength - 1) 0) p.decayFactorsShiftFactor).1
          (fixedPointMultiplication32Splitted hi lo
            (p.decayFactors.getD (p.decayFactorsLength - 1) 0) p.decayFactorsShiftFactor).2
          (rem - p.decayFactorsLength) := by
  obtain ⟨m, hm⟩ : ∃ m, rem = m + 1 := ⟨rem - 1, by omega⟩
  have hd : (if rem > p.decayFactorsLength then p.decayFactorsLength else rem)
      = p.decayFactorsLength := by
    split <;> omega
  have step := decayLoop_succ p m hi lo rem (by omega)
  rw [hd, sub64_eq hL (by omega), sub64_eq hrem h64] at step
  have hfuel : decayLoop p rem hi lo rem = decayLoop p (m + 1) hi lo rem := by rw [← hm]
  rw [hfuel, step]
  exact decayLoop_fuel p hL _ _ _ (by omega) m (by omega)

/-- Decaying over `k` full passes of the table and then over `b` further epochs
is the loop over `k · decayFactorsLength + b` epochs. -/
theorem decayLoop_multiple_add (p : ManaDecayProvider) (hL : 0 < p.decayFactorsLength) :
    ∀ (k hi lo b : Nat), k * p.decayFactorsLength + b < 2 ^ 64 →
      decayLoop p (k * p.decayFactorsLength + b) hi lo (k * p.decayFactorsLength + b)
        = decayLoop p b
            (decayLoop p (k * p.decayFactorsLength) hi lo (k * p.decayFactorsLength)).1
            (decayLoop p (k * p.decayFactorsLength) hi lo (k * p.decayFactorsLength)).2 b := by
  intro k
  induction k with
  | zero =>
    intro hi lo b _
    simp [decayLoop]
  | succ k ih =>
    intro hi lo b h64
    have e1 : (k + 1) * p.decayFactorsLength + b - p.decayFactorsLength
        = k * p.decayFactorsLength + b := by
      rw [Nat.succ_mul]; omega
    have e2 : (k + 1) * p.decayFactorsLength - p.decayFactorsLength
        = k * p.decayFactorsLength := by
      rw [Nat.succ_mul]; omega
    have h1 : p.decayFactorsLength ≤ (k + 1) * p.decayFactorsLength := by
      rw [Nat.succ_mul]; omega
    rw [decayLoop_chunk p hL hi lo _ (by omega) h64, e1,
      decayLoop_chunk p hL hi lo ((k + 1) * p.decayFactorsLength) h1 (by omega), e2]
    exact ih _ _ b (by rw [Nat.succ_mul] at h64; omega)

/-- Splitting a merged pair of 32-bit words gives the pair back. -/
theorem splitUint64_mergeUint64 {hi lo : Nat} (hhi : hi < 2 ^ 32) (hlo : lo < 2 ^ 32) :
    splitUint64 (mergeUint64 hi lo) = (hi, lo) := by
  rw [mergeUint64_eq hlo, Nat.mod_eq_of_lt hhi, split_merge (by omega)]
  have h1 : (hi * 2 ^ 32 + lo) / 2 ^ 32 = hi := by omega
  have h2 : (hi * 2 ^ 32 + lo) % 2 ^ 32 = lo := by omega
  rw [h1, h2]

/-! ## `decay` -/

/-- Past its early return, `decay` is the loop on the split value, merged. -/
theorem decay_eq_loop (p : ManaDecayProvider) (value d : Nat)
    (hv : value ≠ 0) (hd : d ≠ 0) (hL : p.decayFactorsLength ≠ 0) :
    decay p value d
      = mergeUint64 (decayLoop p d (splitUint64 value).1 (splitUint64 value).2 d).1
          (decayLoop p d (splitUint64 value).1 (splitUint64 value).2 d).2 := by
  unfold decay
  rw [if_neg (by tauto)]

/-- C6: `decay(value, epochDiff)` returns `value` unchanged when `value = 0`
(so the result is 0), when `epochDiff = 0`, and when the provider was built
from an empty decay-factor table, for every value and every epoch difference. -/
theorem decay_unchanged (value epochDiff : Nat) (p : ManaDecayProvider)
    (timeProvider : TimeProvider)
    (slotsPerEpochShiftFactor generationRate generationRateShiftFactor
      decayFactorsShiftFactor decayFactorEpochsSum decayFactorEpochsSumShiftFactor : Nat) :
    decay p 0 epochDiff = 0 ∧
    decay p value 0 = value ∧
    decay (NewManaDecayProvider timeProvider slotsPerEpochShiftFactor generationRate
      generationRateShiftFactor [] decayFactorsShiftFactor decayFactorEpochsSum
      decayFactorEpochsSumShiftFactor) value epochDiff = value := by
  refine ⟨?_, ?_, ?_⟩ <;> simp [decay, NewManaDecayProvider]

/-- C5, as stated, fails: for the table `[⌊2^32·2/3⌋, ⌊2^32·4/9⌋]` with shift
factor 32, `decay(3, 1 + 1) = 1` (one lookup of the second entry) but
`decay(decay(3, 1), 1) = 0` (two lookups of the first entry, truncating twice). -/
theorem decay_not_additive :
    decay twoThirdsProvider 3 (1 + 1) = 1 ∧
    decay twoThirdsProvider (decay twoThirdsProvider 3 1) 1 = 0 ∧
    decay twoThirdsProvider 3 (1 + 1)
      ≠ decay twoThirdsProvider (decay twoThirdsProvider 3 1) 1 := by
  decide

/-- C5, amended: for one provider built by `NewManaDecayProvider` whose shift
factor is at most 32 and whose decay factors are at most
`2^decayFactorsShiftFactor`, every 64-bit mana value `v`, every epoch difference
`a` that is a multiple of the table length and every `b` with `a + b` below
`2^64`: `decay(v, a + b) = decay(decay(v, a), b)`. -/
theorem decay_add_of_table_multiple (p : ManaDecayProvider) (v k b : Nat)
    (hWF : p.WellFormed) (hs : p.decayFactorsShiftFactor ≤ 32)
    (hf : ∀ f ∈ p.decayFactors, f ≤ 2 ^ p.decayFactorsShiftFactor)
    (hv : v < 2 ^ 64) (hab : k * p.decayFactorsLength + b < 2 ^ 64) :
    decay p v (k * p.decayFactorsLength + b)
      = decay p (decay p v (k * p.decayFactorsLength)) b := by
  by_cases hv0 : v = 0
  · subst hv0; simp [decay]
  by_cases hL0 : p.decayFactorsLength = 0
  · simp [decay, hL0]
  by_cases ha : k * p.decayFactorsLength = 0
  · rw [ha]; simp [decay]
  by_cases hb : b = 0
  · subst hb; simp [decay]
  have hsplit1 : (splitUint64 v).1 < 2 ^ 32 := by rw [split_merge hv]; simp only []; omega
  have hsplit2 : (splitUint64 v).2 < 2 ^ 32 := by rw [split_merge hv]; simp only []; omega
  obtain ⟨r1, r2, _⟩ := decayLoop_le p hWF hs hf (k * p.decayFactorsLength)
    (splitUint64 v).1 (splitUint64 v).2 (k * p.decayFactorsLength) hsplit1 hsplit2
  rw [decay_eq_loop p v (k * p.decayFactorsLength + b) hv0 (by omega) hL0,
    decayLoop_multiple_add p (by omega) k _ _ b hab,
    decay_eq_loop p v (k * p.decayFactorsLength) hv0 ha hL0]
  set R := decayLoop p (k * p.decayFactorsLength) (splitUint64 v).1 (splitUint64 v).2
    (k * p.decayFactorsLength) with hR
  by_cases hm : mergeUint64 R.1 R.2 = 0
  · have hz := hm
    rw [mergeUint64_eq r2, Nat.mod_eq_of_lt r1] at hz
    have z1 : R.1 = 0 := by omega
    have z2 : R.2 = 0 := by omega
    obtain ⟨_, q2, q3⟩ := decayLoop_le p hWF hs hf b 0 0 b (by norm_num) (by norm_num)
    have hdec : decay p 0 b = 0 := by simp [decay]
    rw [hm, hdec, z1, z2, mergeUint64_eq q2]
    omega
  · rw [decay_eq_loop p _ b hm hb hL0, splitUint64_mergeUint64 r1 r2]

/-- Witness of `decay_add_of_table_multiple`: the table `[⌊2^32·2/3⌋, ⌊2^32·4/9⌋]`
with shift factor 32, the value 1000, one full pass (`a = 2`) and `b = 1`. -/
theorem decay_add_of_table_multiple_witness :
    decay twoThirdsProvider 1000 (1 * twoThirdsProvider.decayFactorsLength + 1)
      = decay twoThirdsProvider
          (decay twoThirdsProvider 1000 (1 * twoThirdsProvider.decayFactorsLength)) 1 :=
  decay_add_of_table_multiple twoThirdsProvider 1000 1 1
    ⟨rfl, by decide, by decide, by decide, by decide, by decide, by decide, by decide⟩
    (by decide) (by decide) (by norm_num) (by decide)

/-- The bound on the factors is needed for C5 as amended: with the one-entry
table `[2^32 - 1]` and shift factor 1 the intermediate value leaves the 64-bit
range, and `decay(2^63, 1 + 1)` differs from `decay(decay(2^63, 1), 1)` although
1 is a multiple of the table length. -/
theorem decay_overflow_not_additive :
    decay growingProvider (2 ^ 63) (1 + 1)
      ≠ decay growingProvider (decay growingProvider (2 ^ 63) 1) 1 := by
  decide

/-! ## The public decay queries -/

/-- C1: with `eC`, `eT` the epochs of the created and the target slot and
`n = eT - eC`, `PotentialManaWithDecay` returns `ErrWrongEpochIndex` iff
`eC > eT`; otherwise it returns, with no error and in unsigned 64-bit
arithmetic, `generateMana(deposit, target - created)` when `n = 0`,
`decay(generateMana(deposit, SlotsBeforeNextEpoch(created)), 1) +
generateMana(deposit, SlotsSinceEpochStart(target))` when `n = 1`, and
`decay(generateMana(deposit, SlotsBeforeNextEpoch(created)), n) - decay(c, n-1) +
(generateMana(deposit, SlotsSinceEpochStart(target)) + c)` when `n ≥ 2`, where
`c = fixedPointMultiplication32(deposit, decayFactorEpochsSum,
decayFactorEpochsSumShiftFactor + generationRateShiftFactor - slotsPerEpochShiftFactor)`.
The target epoch is a 64-bit `EpochIndex`. -/
theorem PotentialManaWithDecay_spec (p : ManaDecayProvider)
    (deposit created target : Nat)
    (hT : p.timeProvider.EpochsFromSlot target < 2 ^ 64) :
    ((PotentialManaWithDecay p deposit created target).2 = some Error.ErrWrongEpochIndex
      ↔ p.timeProvider.EpochsFromSlot created > p.timeProvider.EpochsFromSlot target) ∧
    (p.timeProvider.EpochsFromSlot created ≤ p.timeProvider.EpochsFromSlot target →
      (p.timeProvider.EpochsFromSlot target - p.timeProvider.EpochsFromSlot created = 0 →
        PotentialManaWithDecay p deposit created target
          = (generateMana p deposit (sub64 target created), none)) ∧
      (p.timeProvider.EpochsFromSlot target - p.timeProvider.EpochsFromSlot created = 1 →
        PotentialManaWithDecay p deposit created target
          = (add64
              (decay p (generateMana p deposit (p.timeProvider.SlotsBeforeNextEpoch created)) 1)
              (generateMana p deposit (p.timeProvider.SlotsSinceEpochStart target)), none)) ∧
      (2 ≤ p.timeProvider.EpochsFromSlot target - p.timeProvider.EpochsFromSlot created →
        PotentialManaWithDecay p deposit created target
          = (add64
              (sub64
                (decay p (generateMana p deposit (p.timeProvider.SlotsBeforeNextEpoch created))
                  (p.timeProvider.EpochsFromSlot target - p.timeProvider.EpochsFromSlot created))
                (decay p
                  (fixedPointMultiplication32 deposit p.decayFactorEpochsSum
                    (sub64 (add64 p.decayFactorEpochsSumShiftFactor p.generationRateShiftFactor)
                      p.slotsPerEpochShiftFactor))
                  (p.timeProvider.EpochsFromSlot target
                    - p.timeProvider.EpochsFromSlot created - 1)))
              (add64 (generateMana p deposit (p.timeProvider.SlotsSinceEpochStart target))
                (fixedPointMultiplication32 deposit p.decayFactorEpochsSum
                  (sub64 (add64 p.decayFactorEpochsSumShiftFactor p.generationRateShiftFactor)
                    p.slotsPerEpochShiftFactor))), none))) := by
  constructor
  · unfold PotentialManaWithDecay
    simp only []
    split_ifs with h
    · simp [h]
    · simp only [h, iff_false]
      split <;> simp
  · intro hle
    have hsub : sub64 (p.timeProvider.EpochsFromSlot target)
        (p.timeProvider.EpochsFromSlot created)
        = p.timeProvider.EpochsFromSlot target - p.timeProvider.EpochsFromSlot created :=
      sub64_eq hle hT
    unfold PotentialManaWithDecay
    simp only []
    rw [if_neg (by omega), hsub]
    have hn : p.timeProvider.EpochsFromSlot target - p.timeProvider.EpochsFromSlot created
        < 2 ^ 64 := by omega
    generalize p.timeProvider.EpochsFromSlot target - p.timeProvider.EpochsFromSlot created = n
      at hn ⊢
    rcases n with _ | _ | m
    · simp
    · simp
    · refine ⟨by omega, by omega, fun _ => ?_⟩
      have h1 : sub64 (m + 1 + 1) 1 = m + 1 + 1 - 1 := sub64_eq (by omega) (by omega)
      simp only [h1]

/-- Witness of `PotentialManaWithDecay_spec`: the halving configuration, created
slot 3 (epoch 0) and target slot 37 (epoch 4), so `n = 4`. -/
theorem PotentialManaWithDecay_spec_witness :
    halvingProvider.timeProvider.EpochsFromSlot 37 < 2 ^ 64 ∧
    PotentialManaWithDecay halvingProvider (2 ^ 20) 3 37
      = (add64
          (sub64
            (decay halvingProvider
              (generateMana halvingProvider (2 ^ 20)
                (halvingProvider.timeProvider.SlotsBeforeNextEpoch 3))
              (halvingProvider.timeProvider.EpochsFromSlot 37
                - halvingProvider.timeProvider.EpochsFromSlot 3))
            (decay halvingProvider
              (fixedPointMultiplication32 (2 ^ 20) halvingProvider.decayFactorEpochsSum
                (sub64 (add64 halvingProvider.decayFactorEpochsSumShiftFactor
                  halvingProvider.generationRateShiftFactor)
                  halvingProvider.slotsPerEpochShiftFactor))
              (halvingProvider.timeProvider.EpochsFromSlot 37
                - halvingProvider.timeProvider.EpochsFromSlot 3 - 1)))
          (add64
            (generateMana halvingProvider (2 ^ 20)
              (halvingProvider.timeProvider.SlotsSinceEpochStart 37))
            (fixedPointMultiplication32 (2 ^ 20) halvingProvider.decayFactorEpochsSum
              (sub64 (add64 halvingProvider.decayFactorEpochsSumShiftFactor
                halvingProvider.generationRateShiftFactor)
                halvingProvider.slotsPerEpochShiftFactor))), none) :=
  ⟨by decide,
    ((PotentialManaWithDecay_spec halvingProvider (2 ^ 20) 3 37 (by decide)).2
      (by decide)).2.2 (by decide)⟩

/-- C2: `StoredManaWithDecay(stored, createdSlot, targetSlot)` returns
`ErrWrongEpochIndex` and mana 0 iff `epoch(createdSlot) > epoch(targetSlot)`, and
otherwise `decay(stored, epoch(targetSlot) - epoch(createdSlot))` with no error;
`RewardsWithDecay(rewards, rewardEpoch, claimEpoch)` returns `ErrWrongEpochIndex`
iff `rewardEpoch > claimEpoch` and otherwise `decay(rewards, claimEpoch -
rewardEpoch)`.  The target and the claim epoch are 64-bit `EpochIndex` values. -/
theorem StoredManaWithDecay_RewardsWithDecay_spec (p : ManaDecayProvider)
    (stored createdSlot targetSlot rewards rewardEpoch claimEpoch : Nat)
    (hT : p.timeProvider.EpochsFromSlot targetSlot < 2 ^ 64) (hC : claimEpoch < 2 ^ 64) :
    ((StoredManaWithDecay p stored createdSlot targetSlot).2 = some Error.ErrWrongEpochIndex
      ↔ p.timeProvider.EpochsFromSlot createdSlot > p.timeProvider.EpochsFromSlot targetSlot) ∧
    StoredManaWithDecay p stored createdSlot targetSlot
      = (if p.timeProvider.EpochsFromSlot createdSlot > p.timeProvider.EpochsFromSlot targetSlot
          then (0, some Error.ErrWrongEpochIndex)
          else (decay p stored
            (p.timeProvider.EpochsFromSlot targetSlot
              - p.timeProvider.EpochsFromSlot createdSlot), none)) ∧
    ((RewardsWithDecay p rewards rewardEpoch claimEpoch).2 = some Error.ErrWrongEpochIndex
      ↔ rewardEpoch > claimEpoch) ∧
    RewardsWithDecay p rewards rewardEpoch claimEpoch
      = (if rewardEpoch > claimEpoch then (0, some Error.ErrWrongEpochIndex)
          else (decay p rewards (claimEpoch - rewardEpoch), none)) := by
  refine ⟨?_, ?_, ?_, ?_⟩
  · unfold StoredManaWithDecay
    simp only []
    split_ifs with h <;> simp [h]
  · unfold StoredManaWithDecay
    simp only []
    split_ifs with h
    · rfl
    · rw [sub64_eq (by omega) hT]
  · unfold RewardsWithDecay
    split_ifs with h <;> simp [h]
  · unfold RewardsWithDecay
    split_ifs with h
    · rfl
    · rw [sub64_eq (by omega) hC]

/-- Witness of `StoredManaWithDecay_RewardsWithDecay_spec`: the halving
configuration, stored mana 1000 from slot 3 (epoch 0) to slot 21 (epoch 2), and
rewards 1000 from epoch 5 claimed in epoch 6. -/
theorem StoredManaWithDecay_RewardsWithDecay_spec_witness :
    (halvingProvider.timeProvider.EpochsFromSlot 21 < 2 ^ 64 ∧ (6 : Nat) < 2 ^ 64) ∧
    StoredManaWithDecay halvingProvider 1000 3 21
      = (if halvingProvider.timeProvider.EpochsFromSlot 3
            > halvingProvider.timeProvider.EpochsFromSlot 21
          then (0, some Error.ErrWrongEpochIndex)
          else (decay halvingProvider 1000
            (halvingProvider.timeProvider.EpochsFromSlot 21
              - halvingProvider.timeProvider.EpochsFromSlot 3), none)) ∧
    RewardsWithDecay halvingProvider 1000 5 6
      = (if 5 > 6 then (0, some Error.ErrWrongEpochIndex)
          else (decay halvingProvider 1000 (6 - 5), none)) :=
  ⟨⟨by decide, by decide⟩,
    (StoredManaWithDecay_RewardsWithDecay_spec halvingProvider 1000 3 21 1000 5 6
      (by decide) (by decide)).2.1,
    (StoredManaWithDecay_RewardsWithDecay_spec halvingProvider 1000 3 21 1000 5 6
      (by decide) (by decide)).2.2.2⟩

/-- The default branch of `PotentialManaWithDecay` at an epoch difference of
exactly 2. -/
theorem PotentialManaWithDecay_diff_two (p : ManaDecayProvider)
    (deposit created target : Nat)
    (h2 : p.timeProvider.EpochsFromSlot target = p.timeProvider.EpochsFromSlot created + 2)
    (hT : p.timeProvider.EpochsFromSlot target < 2 ^ 64) :
    PotentialManaWithDecay p deposit created target
      = (add64
          (sub64
            (decay p (generateMana p deposit (p.timeProvider.SlotsBeforeNextEpoch created)) 2)
            (decay p
              (fixedPointMultiplication32 deposit p.decayFactorEpochsSum
                (sub64 (add64 p.decayFactorEpochsSumShiftFactor p.generationRateShiftFactor)
                  p.slotsPerEpochShiftFactor)) 1))
          (add64 (generateMana p deposit (p.timeProvider.SlotsSinceEpochStart target))
            (fixedPointMultiplication32 deposit p.decayFactorEpochsSum
              (sub64 (add64 p.decayFactorEpochsSumShiftFactor p.generationRateShiftFactor)
                p.slotsPerEpochShiftFactor))), none) := by
  have hsub : sub64 (p.timeProvider.EpochsFromSlot target)
      (p.timeProvider.EpochsFromSlot created) = 2 := by
    rw [sub64_eq (by omega) hT]; omega
  unfold PotentialManaWithDecay
  simp only []
  rw [if_neg (by omega), hsub]
  have h1 : sub64 2 1 = 1 := by decide
  simp only [h1]

/-- C7, as stated, fails: in the halving configuration (a table of 2 entries,
decay-factor sum `Σ 2^-k = 1`), deposit 128, created slot 16 and target slot 32
are 2 epochs apart; the closed form of `PotentialManaWithDecay` gives 1 while
the per-epoch iterative sum `decay(gen1, 2) + decay(generateMana(deposit,
slotsPerEpoch), 1) + gen2` is 0. -/
theorem closed_form_two_epochs_differs :
    (2 ≤ halvingProvider.decayFactors.length ∧
      halvingProvider.timeProvider.EpochsFromSlot 32
        - halvingProvider.timeProvider.EpochsFromSlot 16 = 2) ∧
    PotentialManaWithDecay halvingProvider 128 16 32 = (1, none) ∧
    add64
      (add64
        (decay halvingProvider
          (generateMana halvingProvider 128
            (halvingProvider.timeProvider.SlotsBeforeNextEpoch 16)) 2)
        (decay halvingProvider
          (generateMana halvingProvider 128 (shl64 1 halvingProvider.slotsPerEpochShiftFactor))
          1))
      (generateMana halvingProvider 128
        (halvingProvider.timeProvider.SlotsSinceEpochStart 32)) = 0 := by
  decide

/-- The two sides compared: for an epoch difference of exactly 2 the closed form
used by `PotentialManaWithDecay` and the per-epoch iterative sum differ only in
their middle term, so they are equal if and only if `c - decay(c, 1)` is
`decay(generateMana(deposit, slotsPerEpoch), 1)` modulo `2^64`, where `c` is the
decay-factor-sum constant scaled by the deposit. -/
theorem closed_form_two_epochs_iff (p : ManaDecayProvider) (deposit created target : Nat)
    (h2 : p.timeProvider.EpochsFromSlot target = p.timeProvider.EpochsFromSlot created + 2)
    (hT : p.timeProvider.EpochsFromSlot target < 2 ^ 64) :
    (PotentialManaWithDecay p deposit created target).1
      = add64
          (add64
            (decay p (generateMana p deposit (p.timeProvider.SlotsBeforeNextEpoch created)) 2)
            (decay p (generateMana p deposit (shl64 1 p.slotsPerEpochShiftFactor)) 1))
          (generateMana p deposit (p.timeProvider.SlotsSinceEpochStart target))
    ↔ sub64
        (fixedPointMultiplication32 deposit p.decayFactorEpochsSum
          (sub64 (add64 p.decayFactorEpochsSumShiftFactor p.generationRateShiftFactor)
            p.slotsPerEpochShiftFactor))
        (decay p
          (fixedPointMultiplication32 deposit p.decayFactorEpochsSum
            (sub64 (add64 p.decayFactorEpochsSumShiftFactor p.generationRateShiftFactor)
              p.slotsPerEpochShiftFactor)) 1)
      = decay p (generateMana p deposit (shl64 1 p.slotsPerEpochShiftFactor)) 1 % 2 ^ 64 := by
  rw [PotentialManaWithDecay_diff_two p deposit created target h2 hT]
  simp only []
  generalize decay p (generateMana p deposit (p.timeProvider.SlotsBeforeNextEpoch created)) 2 = A
  generalize fixedPointMultiplication32 deposit p.decayFactorEpochsSum
    (sub64 (add64 p.decayFactorEpochsSumShiftFactor p.generationRateShiftFactor)
      p.slotsPerEpochShiftFactor) = C
  generalize decay p C 1 = B
  generalize decay p (generateMana p deposit (shl64 1 p.slotsPerEpochShiftFactor)) 1 = M
  generalize generateMana p deposit (p.timeProvider.SlotsSinceEpochStart target) = G
  unfold add64 sub64
  omega

/-- Witness of `closed_form_two_epochs_iff`: the halving configuration with
deposit 256, created slot 16 and target slot 32. -/
theorem closed_form_two_epochs_iff_witness :
    (halvingProvider.timeProvider.EpochsFromSlot 32
        = halvingProvider.timeProvider.EpochsFromSlot 16 + 2 ∧
      halvingProvider.timeProvider.EpochsFromSlot 32 < 2 ^ 64) ∧
    ((PotentialManaWithDecay halvingProvider 256 16 32).1
      = add64
          (add64
            (decay halvingProvider
              (generateMana halvingProvider 256
                (halvingProvider.timeProvider.SlotsBeforeNextEpoch 16)) 2)
            (decay halvingProvider
              (generateMana halvingProvider 256
                (shl64 1 halvingProvider.slotsPerEpochShiftFactor)) 1))
          (generateMana halvingProvider 256
            (halvingProvider.timeProvider.SlotsSinceEpochStart 32))
    ↔ sub64
        (fixedPointMultiplication32 256 halvingProvider.decayFactorEpochsSum
          (sub64 (add64 halvingProvider.decayFactorEpochsSumShiftFactor
            halvingProvider.generationRateShiftFactor)
            halvingProvider.slotsPerEpochShiftFactor))
        (decay halvingProvider
          (fixedPointMultiplication32 256 halvingProvider.decayFactorEpochsSum
            (sub64 (add64 halvingProvider.decayFactorEpochsSumShiftFactor
              halvingProvider.generationRateShiftFactor)
              halvingProvider.slotsPerEpochShiftFactor)) 1)
      = decay halvingProvider
          (generateMana halvingProvider 256
            (shl64 1 halvingProvider.slotsPerEpochShiftFactor)) 1 % 2 ^ 64) :=
  ⟨⟨by decide, by decide⟩,
    closed_form_two_epochs_iff halvingProvider 256 16 32 (by decide) (by decide)⟩

/-- C8, evaluated on the code: created slot 5 and target slot 3 lie in the same
epoch, so the epoch check passes and `slotIndexTarget - slotIndexCreated` wraps
around to `2^64 - 2`; the call returns `2^54 - 2^11` mana and no error. -/
theorem PotentialManaWithDecay_slot_wraparound :
    (5 > 3 ∧
      halvingProvider.timeProvider.EpochsFromSlot 5
        = halvingProvider.timeProvider.EpochsFromSlot 3) ∧
    sub64 3 5 = 2 ^ 64 - 2 ∧
    PotentialManaWithDecay halvingProvider (2 ^ 20) 5 3 = (2 ^ 54 - 2 ^ 11, none) := by
  decide

/-! ## Work score -/

/-- C9, evaluated on the code: `WorkScore(in)` truncates the `int` before the
checked multiplication, so `WorkScore(1).Multiply(-1)` returns `2^32 - 1` and
`WorkScore(1).Multiply(2^32 + 1)` returns `1`, both with no error, although the
exact products `-1` and `2^32 + 1` are not representable. -/
theorem WorkScore_Multiply_truncates :
    WorkScore.Multiply 1 (-1) = (2 ^ 32 - 1, none) ∧
    WorkScore.Multiply 1 (2 ^ 32 + 1) = (1, none) := by
  decide

/-- The loop of `WorkScore.Add` from any running result that is a `uint32`. -/
theorem WorkScore_addLoop_eq (xs : List Nat) :
    ∀ w : Nat, w ≤ maxWorkScore → WorkScore.addLoop w xs
      = if w + xs.sum ≤ maxWorkScore then (w + xs.sum, none)
        else (0, some Error.ErrIntegerOverflow) := by
  induction xs with
  | nil => intro w hw; simp [WorkScore.addLoop, hw]
  | cons x rest ih =>
    intro w _
    unfold WorkScore.addLoop SafeAdd
    by_cases h : w + x ≤ maxWorkScore
    · simp only [if_pos h]
      rw [ih (w + x) h, List.sum_cons, Nat.add_assoc]
    · simp only [if_neg h]
      rw [List.sum_cons, if_neg (by omega)]

/-- C10: for every work score `w` (a `uint32`) and every list `xs` of work
scores, `w.Add(xs...)` returns `w + sum(xs)` with no error when that sum is at
most `2^32 - 1`, and returns an error with result 0 exactly when the sum exceeds
`2^32 - 1`; with an empty list it returns `w`. -/
theorem WorkScore_Add_spec (w : Nat) (xs : List Nat) (hw : w ≤ 2 ^ 32 - 1) :
    WorkScore.Add w xs
      = (if w + xs.sum ≤ 2 ^ 32 - 1 then (w + xs.sum, none)
         else (0, some Error.ErrIntegerOverflow)) ∧
    ((WorkScore.Add w xs).2 ≠ none ↔ 2 ^ 32 - 1 < w + xs.sum) ∧
    WorkScore.Add w [] = (w, none) := by
  have h := WorkScore_addLoop_eq xs w hw
  unfold maxWorkScore at h
  refine ⟨h, ?_, rfl⟩
  unfold WorkScore.Add
  rw [h]
  split_ifs with hle
  · simp; omega
  · simp; omega

/-- Witness of `WorkScore_Add_spec`: `2^32 - 3` plus `[1, 1]` is the largest
work score, with no error. -/
theorem WorkScore_Add_spec_witness :
    (2 ^ 32 - 3 ≤ 2 ^ 32 - 1) ∧ WorkScore.Add (2 ^ 32 - 3) [1, 1] = (2 ^ 32 - 1, none) :=
  ⟨by decide, (WorkScore_Add_spec (2 ^ 32 - 3) [1, 1] (by decide)).1⟩

/-- One more unit overflows: `2^32 - 3` plus `[1, 1, 1]` is an error with result 0. -/
theorem WorkScore_Add_overflow :
    WorkScore.Add (2 ^ 32 - 3) [1, 1, 1] = (0, some Error.ErrIntegerOverflow) := by
  decide

/-! ## Account mana conservation -/

/-- The loop over the mana-locked outputs subtracts their total stored mana, and
fails exactly when that total exceeds what is left of `manaOut`. -/
theorem manalockedLoop_eq (vmParams : Params) (accountID slot : Nat) (outputs : List Output) :
    ∀ manaOut : Nat, manalockedLoop vmParams accountID slot manaOut outputs
      = if manalockedSum vmParams accountID slot outputs ≤ manaOut then
          (manaOut - manalockedSum vmParams accountID slot outputs, none)
        else (0, some Error.ErrIntegerOverflow) := by
  induction outputs with
  | nil => intro manaOut; simp [manalockedLoop, manalockedSum]
  | cons output rest ih =>
    intro manaOut
    unfold manalockedLoop manalockedSum
    by_cases hlock : vmParams.HasManalockCondition output accountID slot = true
    · simp only [hlock, if_true]
      unfold SafeSub
      by_cases hle : output.StoredMana ≤ manaOut
      · simp only [if_pos hle]
        rw [ih (manaOut - output.StoredMana)]
        by_cases hsum : manalockedSum vmParams accountID slot rest ≤ manaOut - output.StoredMana
        · rw [if_pos hsum, if_pos (by omega)]
          congr 1
          omega
        · rw [if_neg hsum, if_neg (by omega)]
      · simp only [if_neg hle]
        rw [if_neg (by omega)]
    · simp only [hlock, Bool.false_eq_true, if_false]
      exact ih manaOut

/-- The mana check of `accountBlockIssuerSTVF` passes exactly when both decays
succeed, no checked subtraction goes below zero and what is left of the mana
on the input side covers what is left on the output side. -/
theorem accountBlockIssuerMana_eq_none_iff (vmParams : Params) (input : ChainOutputWithIDs)
    (next : AccountOutput) (pastBoundedSlot : Nat) :
    accountBlockIssuerMana vmParams input next pastBoundedSlot = none ↔
      ∃ stored potential : Nat,
        vmParams.API.DecayManaBySlots input.Output.StoredMana input.OutputID.CreationSlot
          vmParams.WorkingSet.Tx.CreationSlot = (stored, none) ∧
        vmParams.API.PotentialMana input.Output input.OutputID.CreationSlot
          vmParams.WorkingSet.Tx.CreationSlot = (potential, none) ∧
        stored + potential ≤ vmParams.WorkingSet.TotalManaIn ∧
        next.Mana + vmParams.WorkingSet.Tx.Allotments next.AccountID
          + manalockedSum vmParams next.AccountID
              (add64 pastBoundedSlot vmParams.API.ProtocolParameters.MaxCommittableAge)
              vmParams.WorkingSet.Tx.Outputs ≤ vmParams.WorkingSet.TotalManaOut ∧
        vmParams.WorkingSet.TotalManaOut - next.Mana
          - vmParams.WorkingSet.Tx.Allotments next.AccountID
          - manalockedSum vmParams next.AccountID
              (add64 pastBoundedSlot vmParams.API.ProtocolParameters.MaxCommittableAge)
              vmParams.WorkingSet.Tx.Outputs
          ≤ vmParams.WorkingSet.TotalManaIn - stored - potential := by
  unfold accountBlockIssuerMana SafeSub
  simp only [manalockedLoop_eq]
  rcases hD : vmParams.API.DecayManaBySlots input.Output.StoredMana input.OutputID.CreationSlot
      vmParams.WorkingSet.Tx.CreationSlot with ⟨stored, _ | errD⟩
  swap
  · simp
  by_cases h1 : stored ≤ vmParams.WorkingSet.TotalManaIn
  swap
  · simp only [if_neg h1]
    simp
    intro h2 h3
    omega
  simp only [if_pos h1]
  rcases hP : vmParams.API.PotentialMana input.Output input.OutputID.CreationSlot
      vmParams.WorkingSet.Tx.CreationSlot with ⟨potential, _ | errP⟩
  swap
  · simp
  by_cases h2 : potential ≤ vmParams.WorkingSet.TotalManaIn - stored
  swap
  · simp only [if_neg h2]
    simp
    intro h3
    omega
  simp only [if_pos h2]
  by_cases h3 : next.Mana ≤ vmParams.WorkingSet.TotalManaOut
  swap
  · simp only [if_neg h3]
    simp
    intro _ h4
    omega
  simp only [if_pos h3]
  by_cases h4 : vmParams.WorkingSet.Tx.Allotments next.AccountID
      ≤ vmParams.WorkingSet.TotalManaOut - next.Mana
  swap
  · simp only [if_neg h4]
    simp
    intro _ h5
    omega
  simp only [if_pos h4]
  by_cases h5 : manalockedSum vmParams next.AccountID
      (add64 pastBoundedSlot vmParams.API.ProtocolParameters.MaxCommittableAge)
      vmParams.WorkingSet.Tx.Outputs
      ≤ vmParams.WorkingSet.TotalManaOut - next.Mana
        - vmParams.WorkingSet.Tx.Allotments next.AccountID
  swap
  · simp only [if_neg h5]
    simp
    intro _ h6
    omega
  simp only [if_pos h5]
  simp
  constructor
  · intro h6
    exact ⟨by omega, by omega, h6⟩
  · intro h6
    exact h6.2.2

/-- C11: when a block-issuer feature is present on the consumed or on the created
account and the commitment, BIC and expiry checks pass, `accountBlockIssuerSTVF`
accepts exactly when the two decays succeed, none of the checked subtractions
goes below zero, and `TotalManaIn - decayed stored mana - decayed potential mana`
of the consumed account is at least `TotalManaOut - next.Mana - allotment to
next.AccountID - stored mana of every output mana-locked to that account`; so
it accepts only if that inequality holds and returns an error whenever one of
the subtractions would go below zero. -/
theorem accountBlockIssuerSTVF_mana_conservation (vmParams : Params)
    (input : ChainOutputWithIDs) (currentBlockIssuerFeat : Option BlockIssuerFeature)
    (next : AccountOutput) (commitment : Commitment) (bic : Int)
    (hfeat : currentBlockIssuerFeat ≠ none ∨ next.BlockIssuer ≠ none)
    (hcommitment : vmParams.WorkingSet.Commitment = some commitment)
    (hbic : vmParams.WorkingSet.BIC next.AccountID = some bic) (hbic0 : 0 ≤ bic)
    (hexpiry : accountBlockIssuerExpiry currentBlockIssuerFeat next.BlockIssuer commitment.Slot
      (vmParams.PastBoundedSlotIndex commitment.Slot) = none) :
    accountBlockIssuerSTVF vmParams input currentBlockIssuerFeat next = none ↔
      ∃ stored potential : Nat,
        vmParams.API.DecayManaBySlots input.Output.StoredMana input.OutputID.CreationSlot
          vmParams.WorkingSet.Tx.CreationSlot = (stored, none) ∧
        vmParams.API.PotentialMana input.Output input.OutputID.CreationSlot
          vmParams.WorkingSet.Tx.CreationSlot = (potential, none) ∧
        stored + potential ≤ vmParams.WorkingSet.TotalManaIn ∧
        next.Mana + vmParams.WorkingSet.Tx.Allotments next.AccountID
          + manalockedSum vmParams next.AccountID
              (add64 (vmParams.PastBoundedSlotIndex commitment.Slot)
                vmParams.API.ProtocolParameters.MaxCommittableAge)
              vmParams.WorkingSet.Tx.Outputs ≤ vmParams.WorkingSet.TotalManaOut ∧
        vmParams.WorkingSet.TotalManaOut - next.Mana
          - vmParams.WorkingSet.Tx.Allotments next.AccountID
          - manalockedSum vmParams next.AccountID
              (add64 (vmParams.PastBoundedSlotIndex commitment.Slot)
                vmParams.API.ProtocolParameters.MaxCommittableAge)
              vmParams.WorkingSet.Tx.Outputs
          ≤ vmParams.WorkingSet.TotalManaIn - stored - potential := by
  rw [← accountBlockIssuerMana_eq_none_iff]
  unfold accountBlockIssuerSTVF
  simp only []
  rw [if_neg (by tauto), hcommitment]
  simp only [hbic, hexpiry]
  rw [if_neg (by omega)]

/-- Witness of `accountBlockIssuerSTVF_mana_conservation`: account 7 holds 400 mana
and keeps its block-issuer feature; of 500 mana in and 300 mana out, 100 is left
on the input side and 50 on the output side, so the transition is accepted. -/
theorem accountBlockIssuerSTVF_mana_conservation_witness :
    accountBlockIssuerSTVF
      (exampleParams 4 2 (some ⟨90⟩) (fun _ => some 0) (fun _ => none) [] 500 300)
      (exampleAccountInput (exampleIssuerAccount 400 200)) (some ⟨[1], 200⟩)
      (exampleIssuerAccount 250 200) = none :=
  (accountBlockIssuerSTVF_mana_conservation
    (exampleParams 4 2 (some ⟨90⟩) (fun _ => some 0) (fun _ => none) [] 500 300)
    (exampleAccountInput (exampleIssuerAccount 400 200)) (some ⟨[1], 200⟩)
    (exampleIssuerAccount 250 200) ⟨90⟩ 0 (by decide) rfl rfl (by decide) (by decide)).mpr
    ⟨400, 0, by decide, rfl, by decide, by decide, by decide⟩

/-- Moving mana off the account is rejected: with only 450 mana in, the 50 that is
left on the input side does not cover the 100 left on the output side. -/
theorem accountBlockIssuerSTVF_mana_leak_rejected :
    accountBlockIssuerSTVF
      (exampleParams 4 2 (some ⟨90⟩) (fun _ => some 0) (fun _ => none) [] 450 300)
      (exampleAccountInput (exampleIssuerAccount 400 200)) (some ⟨[1], 200⟩)
      (exampleIssuerAccount 200 200) = some Error.ErrInvalidBlockIssuerTransition := by
  decide

/-! ## Locked accounts and genesis identifiers -/

/-- The lock check passes exactly when the chain ID is an account ID whose BIC
entry exists and is not negative. -/
theorem accountBlockIssuanceCreditLocked_eq_none_iff (input : ChainOutputWithIDs)
    (bicSet : Nat → Option Int) :
    accountBlockIssuanceCreditLocked input bicSet = none ↔
      ∃ (accountID : Nat) (bic : Int),
        input.ChainID = ChainID.Account accountID ∧ bicSet accountID = some bic ∧ 0 ≤ bic := by
  unfold accountBlockIssuanceCreditLocked
  cases hid : input.ChainID with
  | Account accountID =>
    cases hb : bicSet accountID with
    | none => simp [hb]
    | some bic =>
      by_cases hneg : bic < 0
      · simp [hb, hneg]
      · simp [hb, hneg]
        omega
  | Anchor id => simp
  | Foundry a b c => simp
  | NFT id => simp
  | Delegation id => simp

/-- C12: for every consumed account output that carries a block-issuer feature and
whose BIC balance is negative, `accountSTVF` rejects the StateChange and the
Destroy transition whatever the other fields, the created output and the
working set are; and `accountBlockIssuanceCreditLocked` returns no error iff
the BIC entry of the account exists and is non-negative. -/
theorem accountSTVF_negative_BIC_locked (vmParams : Params) (input : ChainOutputWithIDs)
    (current : AccountOutput) (feat : BlockIssuerFeature) (accountID : Nat) (bic : Int)
    (next : AccountOutput) (nextOrNil : Option AccountOutput)
    (hout : input.Output = Output.Account current)
    (hfeat : current.BlockIssuer = some feat)
    (hid : input.ChainID = ChainID.Account accountID)
    (hbic : vmParams.WorkingSet.BIC accountID = some bic) :
    (bic < 0 →
      (∃ err, accountSTVF vmParams (some input) ChainTransitionType.StateChange (some next)
        = some (some err)) ∧
      (∃ err, accountSTVF vmParams (some input) ChainTransitionType.Destroy nextOrNil
        = some (some err))) ∧
    (accountBlockIssuanceCreditLocked input vmParams.WorkingSet.BIC = none ↔ 0 ≤ bic) ∧
    (∀ bicSet : Nat → Option Int,
      accountBlockIssuanceCreditLocked input bicSet = none
        ↔ ∃ b : Int, bicSet accountID = some b ∧ 0 ≤ b) := by
  have hlock : bic < 0 →
      accountBlockIssuanceCreditLocked input vmParams.WorkingSet.BIC
        = some Error.ErrAccountLocked := by
    intro hneg
    unfold accountBlockIssuanceCreditLocked
    simp [hid, hbic, hneg]
  refine ⟨fun hneg => ⟨?_, ?_⟩, ?_, ?_⟩
  · unfold accountSTVF accountStateChangeValid
    simp only [hout]
    by_cases himm : current.ImmutableFeatures ≠ next.ImmutableFeatures
    · simp [himm]
    · simp [himm, hfeat, hlock hneg]
  · unfold accountSTVF accountDestructionValid
    simp only [hout, hfeat]
    by_cases hcap : vmParams.WorkingSet.Tx.Capabilities.CannotDestroyAccountOutputs = true
    · simp [hcap]
    · simp only [hcap, Bool.false_eq_true, if_false]
      cases hc : vmParams.WorkingSet.Commitment with
      | none => simp
      | some commitment =>
        by_cases hexp : feat.ExpirySlot ≥ commitment.Slot
        · simp [hexp]
        · simp [hexp, hlock hneg]
  · rw [accountBlockIssuanceCreditLocked_eq_none_iff]
    constructor
    · rintro ⟨a, b, ha, hb, h0⟩
      rw [hid] at ha
      cases ha
      rw [hbic] at hb
      cases hb
      exact h0
    · intro h0
      exact ⟨accountID, bic, hid, hbic, h0⟩
  · intro bicSet
    rw [accountBlockIssuanceCreditLocked_eq_none_iff]
    constructor
    · rintro ⟨a, b, ha, hb, h0⟩
      rw [hid] at ha
      cases ha
      exact ⟨b, hb, h0⟩
    · rintro ⟨b, hb, h0⟩
      exact ⟨accountID, b, hid, hb, h0⟩

/-- Witness of `accountSTVF_negative_BIC_locked`: account 7 with a block-issuer
feature and the BIC balance -1. -/
theorem accountSTVF_negative_BIC_locked_witness :
    (∃ err, accountSTVF
        (exampleParams 4 2 (some ⟨90⟩) (fun _ => some (-1)) (fun _ => none) [] 500 300)
        (some (exampleAccountInput (exampleIssuerAccount 400 50)))
        ChainTransitionType.StateChange (some (exampleIssuerAccount 250 200))
        = some (some err)) ∧
    (∃ err, accountSTVF
        (exampleParams 4 2 (some ⟨90⟩) (fun _ => some (-1)) (fun _ => none) [] 500 300)
        (some (exampleAccountInput (exampleIssuerAccount 400 50)))
        ChainTransitionType.Destroy none = some (some err)) :=
  (accountSTVF_negative_BIC_locked
    (exampleParams 4 2 (some ⟨90⟩) (fun _ => some (-1)) (fun _ => none) [] 500 300)
    (exampleAccountInput (exampleIssuerAccount 400 50)) (exampleIssuerAccount 400 50)
    ⟨[1], 50⟩ 7 (-1) (exampleIssuerAccount 250 200) none rfl rfl rfl rfl).1 (by decide)

/-- With the BIC balance 0 the lock check passes and the destruction of the
account with an expired block-issuer feature is accepted. -/
theorem accountSTVF_zero_BIC_destroy_accepted :
    accountBlockIssuanceCreditLocked (exampleAccountInput (exampleIssuerAccount 400 50))
      (fun _ => some 0) = none ∧
    accountSTVF
      (exampleParams 4 2 (some ⟨90⟩) (fun _ => some 0) (fun _ => none) [] 500 300)
      (some (exampleAccountInput (exampleIssuerAccount 400 50)))
      ChainTransitionType.Destroy none = some none := by
  decide

/-- C13: a genesis transition of an Account output whose AccountID is not zeroed
is always rejected by `accountSTVF`, whatever the other fields, the input
argument and the working set are; the same holds for the genesis of an Anchor
output (`anchorSTVF`), an NFT output (`nftSTVF`) and a Delegation output
(`delegationSTVF`) with a non-zeroed identifier. -/
theorem genesis_nonzero_ID_rejected (vmParams : Params) (input : Option ChainOutputWithIDs) :
    (∀ next : AccountOutput, next.AccountID ≠ 0 →
      accountSTVF vmParams input ChainTransitionType.Genesis (some next)
        = some (some Error.ErrInvalidAccountStateTransition)) ∧
    (∀ next : AnchorOutput, next.AnchorID ≠ 0 →
      anchorSTVF vmParams input ChainTransitionType.Genesis (some next)
        = some (some Error.ErrInvalidAnchorStateTransition)) ∧
    (∀ next : NFTOutput, next.NFTID ≠ 0 →
      nftSTVF vmParams input ChainTransitionType.Genesis (some next)
        = some (some (Error.ChainTransitionError Error.New))) ∧
    (∀ next : DelegationOutput, next.DelegationID ≠ 0 →
      delegationSTVF vmParams input ChainTransitionType.Genesis (some next)
        = some (some (Error.ChainTransitionError
            (Error.Join Error.ErrInvalidDelegationNonZeroedID
              Error.ErrInvalidDelegationTransition)))) := by
  refine ⟨?_, ?_, ?_, ?_⟩
  · intro next h
    unfold accountSTVF accountGenesisValid
    simp [h]
  · intro next h
    unfold anchorSTVF anchorGenesisValid
    simp [h]
  · intro next h
    unfold nftSTVF nftGenesisValid
    simp [h]
  · intro next h
    unfold delegationSTVF delegationGenesisValid
    simp [h]

/-- Witness of `genesis_nonzero_ID_rejected`: a new account output that already
carries the AccountID 7. -/
theorem genesis_nonzero_ID_rejected_witness :
    accountSTVF (exampleParams 4 2 none (fun _ => none) (fun _ => none) [] 0 0) none
      ChainTransitionType.Genesis (some (exampleAccount 0 0))
      = some (some Error.ErrInvalidAccountStateTransition) :=
  (genesis_nonzero_ID_rejected (exampleParams 4 2 none (fun _ => none) (fun _ => none) [] 0 0)
    none).1 (exampleAccount 0 0) (by decide)

/-! ## Foundry serial numbers and the foundry counter -/

/-- C14, as stated, fails: for an account whose foundry counter goes from 0 to 1,
the first foundry has the serial number 1; it passes the check although 1 is
not in the half-open interval `[0, 1)`, and the serial number 0, which is in
`[0, 1)`, is rejected. -/
theorem foundrySerialNumberValid_interval_not_half_open :
    foundrySerialNumberValid
      (exampleParams 4 2 none (fun _ => none) (fun _ => none)
        [Output.Foundry (exampleFoundry 1)] 0 0)
      (exampleFoundry 1) (exampleAccount 0 0) (exampleAccount 0 1)
      (exampleFoundry 1).MustFoundryID = none ∧
    ¬ ((exampleAccount 0 0).FoundryCounter ≤ (exampleFoundry 1).SerialNumber ∧
      (exampleFoundry 1).SerialNumber < (exampleAccount 0 1).FoundryCounter) ∧
    foundrySerialNumberValid
      (exampleParams 4 2 none (fun _ => none) (fun _ => none)
        [Output.Foundry (exampleFoundry 0)] 0 0)
      (exampleFoundry 0) (exampleAccount 0 0) (exampleAccount 0 1)
      (exampleFoundry 0).MustFoundryID = some Error.ErrInvalidFoundryStateTransition ∧
    ((exampleAccount 0 0).FoundryCounter ≤ (exampleFoundry 0).SerialNumber ∧
      (exampleFoundry 0).SerialNumber < (exampleAccount 0 1).FoundryCounter) := by
  decide

/-- C14, amended: foundry genesis passes the counter-interval check iff the serial
number of the new foundry lies in the interval `(inputCounter, outputCounter]`
of the owning account, i.e. iff `inAccount.FoundryCounter < SerialNumber` and
`SerialNumber <= outAccount.FoundryCounter`; outside it
`foundrySerialNumberValid` returns `ErrInvalidFoundryStateTransition`. -/
theorem foundrySerialInInterval_iff (vmParams : Params) (current : FoundryOutput)
    (inAccount outAccount : AccountOutput) (thisFoundryID : ChainID) :
    (foundrySerialInInterval current inAccount outAccount = none ↔
      inAccount.FoundryCounter < current.SerialNumber ∧
        current.SerialNumber ≤ outAccount.FoundryCounter) ∧
    foundrySerialNumberValid vmParams current inAccount outAccount thisFoundryID
      = (if inAccount.FoundryCounter < current.SerialNumber ∧
            current.SerialNumber ≤ outAccount.FoundryCounter then
          foundrySerialOrderLoop vmParams current thisFoundryID vmParams.WorkingSet.Tx.Outputs
        else some Error.ErrInvalidFoundryStateTransition) := by
  unfold foundrySerialNumberValid foundrySerialInInterval
  simp only []
  by_cases h : inAccount.FoundryCounter ≥ current.SerialNumber ∨
      current.SerialNumber > outAccount.FoundryCounter
  · rw [if_pos h, if_neg (by omega)]
    simp
    omega
  · rw [if_neg h, if_pos (by omega)]
    simp
    omega

/-- The counting loop of `accountFoundryCounterSTVF` counts the new foundries of
the account, as a `uint32`. -/
theorem seenNewFoundriesOfAccount_eq (vmParams : Params) (accountID : Nat)
    (outputs : List Output) :
    ∀ seen : Nat, seen < 2 ^ 32 →
      seenNewFoundriesOfAccount vmParams accountID seen outputs
        = (seen + (newFoundriesOfAccount vmParams accountID outputs).length) % 2 ^ 32 := by
  induction outputs with
  | nil =>
    intro seen h
    simp only [seenNewFoundriesOfAccount, newFoundriesOfAccount, List.length_nil, Nat.add_zero]
    exact (Nat.mod_eq_of_lt h).symm
  | cons output rest ih =>
    intro seen h
    cases output with
    | Foundry f =>
      unfold seenNewFoundriesOfAccount newFoundriesOfAccount
      cases hin : vmParams.WorkingSet.InChains f.MustFoundryID with
      | some c => simp [ih seen h]
      | none =>
        by_cases hid : f.Ident = accountID
        · simp only [Option.isSome_none, Bool.false_eq_true, if_false, hid, ne_eq,
            not_true_eq_false, and_self, if_true, List.length_cons]
          rw [ih (add32 seen 1) (by unfold add32; exact Nat.mod_lt _ (by norm_num))]
          unfold add32
          omega
        · simp [hid, ih seen h]
    | Basic o => simp [seenNewFoundriesOfAccount, newFoundriesOfAccount, ih seen h]
    | Account o => simp [seenNewFoundriesOfAccount, newFoundriesOfAccount, ih seen h]
    | Anchor o => simp [seenNewFoundriesOfAccount, newFoundriesOfAccount, ih seen h]
    | NFT o => simp [seenNewFoundriesOfAccount, newFoundriesOfAccount, ih seen h]
    | Delegation o => simp [seenNewFoundriesOfAccount, newFoundriesOfAccount, ih seen h]
    | ImplicitAccount o => simp [seenNewFoundriesOfAccount, newFoundriesOfAccount, ih seen h]

/-- There are at most as many new foundries of an account as outputs. -/
theorem newFoundriesOfAccount_length_le (vmParams : Params) (accountID : Nat)
    (outputs : List Output) :
    (newFoundriesOfAccount vmParams accountID outputs).length ≤ outputs.length := by
  induction outputs with
  | nil => simp [newFoundriesOfAccount]
  | cons output rest ih =>
    cases output <;> unfold newFoundriesOfAccount <;> try (simp only [List.length_cons]; omega)
    split <;> simp only [List.length_cons] <;> omega

/-- C16, as stated, fails: with an unchanged foundry counter (0 and 0) the check
passes although the transaction creates one new foundry owned by the
account, so the increase 0 is not the number 1 of new foundries. -/
theorem accountFoundryCounterSTVF_unchanged_counter_not_counted :
    accountFoundryCounterSTVF
      (exampleParams 4 2 none (fun _ => none) (fun _ => none)
        [Output.Foundry (exampleFoundry 1)] 0 0)
      (exampleAccount 0 0) (exampleAccount 0 0) = none ∧
    (newFoundriesOfAccount
      (exampleParams 4 2 none (fun _ => none) (fun _ => none)
        [Output.Foundry (exampleFoundry 1)] 0 0)
      (exampleAccount 0 0).AccountID [Output.Foundry (exampleFoundry 1)]).length = 1 ∧
    (exampleAccount 0 0).FoundryCounter - (exampleAccount 0 0).FoundryCounter ≠ 1 := by
  decide

/-- C16, amended: an account state change (32-bit counters, fewer than `2^32`
outputs) passes the foundry-counter check iff the counter is unchanged, or it
increases and the increase `next.FoundryCounter - current.FoundryCounter`
equals exactly the number of transaction outputs that are new foundries
(foundry ID absent from the chain inputs) owned by this account; a decrease is
always rejected. -/
theorem accountFoundryCounterSTVF_iff (vmParams : Params) (current next : AccountOutput)
    (hcurrent : current.FoundryCounter < 2 ^ 32) (hnext : next.FoundryCounter < 2 ^ 32)
    (houtputs : vmParams.WorkingSet.Tx.Outputs.length < 2 ^ 32) :
    (accountFoundryCounterSTVF vmParams current next = none ↔
      current.FoundryCounter = next.FoundryCounter ∨
      (current.FoundryCounter < next.FoundryCounter ∧
        next.FoundryCounter - current.FoundryCounter
          = (newFoundriesOfAccount vmParams next.AccountID
              vmParams.WorkingSet.Tx.Outputs).length)) ∧
    (current.FoundryCounter > next.FoundryCounter →
      accountFoundryCounterSTVF vmParams current next
        = some Error.ErrInvalidAccountStateTransition) := by
  have hlen := newFoundriesOfAccount_length_le vmParams next.AccountID
    vmParams.WorkingSet.Tx.Outputs
  unfold accountFoundryCounterSTVF
  simp only []
  rw [seenNewFoundriesOfAccount_eq vmParams next.AccountID _ 0 (by norm_num)]
  constructor
  · by_cases hgt : current.FoundryCounter > next.FoundryCounter
    · rw [if_pos hgt]
      simp
      omega
    · rw [if_neg hgt]
      by_cases heq : current.FoundryCounter = next.FoundryCounter
      · rw [if_pos heq]
        simp [heq]
      · rw [if_neg heq]
        unfold sub32
        simp only [ne_eq, ite_eq_right_iff, reduceCtorEq, imp_false, not_not]
        omega
  · intro hgt
    rw [if_pos hgt]

/-- Witness of `accountFoundryCounterSTVF_iff`: the counter of account 7 goes from
2 to 4 and the transaction creates the foundries 3 and 4 of that account. -/
theorem accountFoundryCounterSTVF_iff_witness :
    accountFoundryCounterSTVF
      (exampleParams 4 2 none (fun _ => none) (fun _ => none)
        [Output.Foundry (exampleFoundry 3), Output.Foundry (exampleFoundry 4)] 0 0)
      (exampleAccount 0 2) (exampleAccount 0 4) = none :=
  ((accountFoundryCounterSTVF_iff
    (exampleParams 4 2 none (fun _ => none) (fun _ => none)
      [Output.Foundry (exampleFoundry 3), Output.Foundry (exampleFoundry 4)] 0 0)
    (exampleAccount 0 2) (exampleAccount 0 4) (by decide) (by decide) (by decide)).1).mpr
    (Or.inr ⟨by decide, by decide⟩)

/-- A new foundry of an account is owned by it and absent from the chain inputs. -/
theorem mem_newFoundriesOfAccount (vmParams : Params) (accountID : Nat) (f : FoundryOutput) :
    ∀ outputs : List Output, f ∈ newFoundriesOfAccount vmParams accountID outputs →
      f.Ident = accountID ∧ vmParams.WorkingSet.InChains f.MustFoundryID = none := by
  intro outputs
  induction outputs with
  | nil => intro h; simp [newFoundriesOfAccount] at h
  | cons output rest ih =>
    intro h
    cases output with
    | Foundry g =>
      unfold newFoundriesOfAccount at h
      by_cases hg : g.Ident = accountID ∧ vmParams.WorkingSet.InChains g.MustFoundryID = none
      · rw [if_pos hg] at h
        rcases List.mem_cons.mp h with rfl | h'
        · exact hg
        · exact ih h'
      · rw [if_neg hg] at h
        exact ih h
    | Basic o => exact ih (by simpa [newFoundriesOfAccount] using h)
    | Account o => exact ih (by simpa [newFoundriesOfAccount] using h)
    | Anchor o => exact ih (by simpa [newFoundriesOfAccount] using h)
    | NFT o => exact ih (by simpa [newFoundriesOfAccount] using h)
    | Delegation o => exact ih (by simpa [newFoundriesOfAccount] using h)
    | ImplicitAccount o => exact ih (by simpa [newFoundriesOfAccount] using h)

/-- The order loop skips every output that is not a new foundry of the owner. -/
theorem foundrySerialOrderLoop_cons_other (vmParams : Params) (current : FoundryOutput)
    (thisFoundryID : ChainID) (output : Output) (rest : List Output)
    (h : ∀ g, output = Output.Foundry g →
      ¬ (g.Ident = current.Ident ∧ vmParams.WorkingSet.InChains g.MustFoundryID = none)) :
    foundrySerialOrderLoop vmParams current thisFoundryID (output :: rest)
      = foundrySerialOrderLoop vmParams current thisFoundryID rest := by
  cases output with
  | Foundry g =>
    rw [foundrySerialOrderLoop]
    have hg := h g rfl
    by_cases hid : g.Ident = current.Ident
    · have hin : vmParams.WorkingSet.InChains g.MustFoundryID ≠ none := fun hn => hg ⟨hid, hn⟩
      have hsome : (vmParams.WorkingSet.InChains g.MustFoundryID).isSome = true :=
        Option.isSome_iff_ne_none.mpr hin
      simp [hid, hsome]
    · simp [hid]
  | Basic o => simp [foundrySerialOrderLoop]
  | Account o => simp [foundrySerialOrderLoop]
  | Anchor o => simp [foundrySerialOrderLoop]
  | NFT o => simp [foundrySerialOrderLoop]
  | Delegation o => simp [foundrySerialOrderLoop]
  | ImplicitAccount o => simp [foundrySerialOrderLoop]

/-- The order loop at a new foundry of the owner: it stops at its own foundry ID
and otherwise requires a smaller serial number. -/
theorem foundrySerialOrderLoop_cons_new (vmParams : Params) (current g : FoundryOutput)
    (thisFoundryID : ChainID) (rest : List Output)
    (hid : g.Ident = current.Ident)
    (hin : vmParams.WorkingSet.InChains g.MustFoundryID = none) :
    foundrySerialOrderLoop vmParams current thisFoundryID (Output.Foundry g :: rest)
      = if g.MustFoundryID = thisFoundryID then none
        else if g.SerialNumber ≥ current.SerialNumber then
          some Error.ErrInvalidFoundryStateTransition
        else foundrySerialOrderLoop vmParams current thisFoundryID rest := by
  rw [foundrySerialOrderLoop]
  simp [hid, hin]

/-- The order checks of all new foundries of one account pass exactly when their
serial numbers increase strictly along the output list, if their foundry IDs
are pairwise distinct. -/
theorem foundrySerialOrderLoop_all_iff (vmParams : Params) (accountID : Nat) :
    ∀ outputs : List Output,
      ((newFoundriesOfAccount vmParams accountID outputs).map
        FoundryOutput.MustFoundryID).Nodup →
      ((∀ f ∈ newFoundriesOfAccount vmParams accountID outputs,
          foundrySerialOrderLoop vmParams f f.MustFoundryID outputs = none) ↔
        ((newFoundriesOfAccount vmParams accountID outputs).map
          FoundryOutput.SerialNumber).Pairwise (· < ·)) := by
  intro outputs
  induction outputs with
  | nil => intro _; simp [newFoundriesOfAccount]
  | cons output rest ih =>
    intro hnodup
    by_cases hnew : ∃ g, output = Output.Foundry g ∧ g.Ident = accountID ∧
        vmParams.WorkingSet.InChains g.MustFoundryID = none
    · obtain ⟨g, rfl, hgid, hgin⟩ := hnew
      have hL : newFoundriesOfAccount vmParams accountID (Output.Foundry g :: rest)
          = g :: newFoundriesOfAccount vmParams accountID rest := by
        rw [newFoundriesOfAccount, if_pos ⟨hgid, hgin⟩]
      rw [hL] at hnodup ⊢
      rw [List.map_cons, List.nodup_cons] at hnodup
      rw [List.map_cons, List.pairwise_cons, ← ih hnodup.2]
      constructor
      · intro hall
        constructor
        · intro s hs
          obtain ⟨f, hf, rfl⟩ := List.mem_map.mp hs
          have hfid := (mem_newFoundriesOfAccount vmParams accountID f rest hf).1
          have hne : g.MustFoundryID ≠ f.MustFoundryID := by
            intro heq
            exact hnodup.1 (heq ▸ List.mem_map_of_mem _ hf)
          have := hall f (List.mem_cons_of_mem _ hf)
          rw [foundrySerialOrderLoop_cons_new vmParams f g _ rest (by rw [hgid, hfid]) hgin,
            if_neg hne] at this
          by_cases hge : g.SerialNumber ≥ f.SerialNumber
          · rw [if_pos hge] at this
            cases this
          · omega
        · intro f hf
          have hfid := (mem_newFoundriesOfAccount vmParams accountID f rest hf).1
          have hne : g.MustFoundryID ≠ f.MustFoundryID := by
            intro heq
            exact hnodup.1 (heq ▸ List.mem_map_of_mem _ hf)
          have := hall f (List.mem_cons_of_mem _ hf)
          rw [foundrySerialOrderLoop_cons_new vmParams f g _ rest (by rw [hgid, hfid]) hgin,
            if_neg hne] at this
          by_cases hge : g.SerialNumber ≥ f.SerialNumber
          · rw [if_pos hge] at this
            cases this
          · rw [if_neg hge] at this
            exact this
      · rintro ⟨hlt, hrest⟩ f hf
        rcases List.mem_cons.mp hf with rfl | hf'
        · rw [foundrySerialOrderLoop_cons_new vmParams f f _ rest rfl hgin, if_pos rfl]
        · have hfid := (mem_newFoundriesOfAccount vmParams accountID f rest hf').1
          have hne : g.MustFoundryID ≠ f.MustFoundryID := by
            intro heq
            exact hnodup.1 (heq ▸ List.mem_map_of_mem _ hf')
          have hs := hlt f.SerialNumber (List.mem_map_of_mem _ hf')
          rw [foundrySerialOrderLoop_cons_new vmParams f g _ rest (by rw [hgid, hfid]) hgin,
            if_neg hne, if_neg (by omega)]
          exact hrest f hf'
    · have hL : newFoundriesOfAccount vmParams accountID (output :: rest)
          = newFoundriesOfAccount vmParams accountID rest := by
        cases output with
        | Foundry g =>
          rw [newFoundriesOfAccount, if_neg (fun h => hnew ⟨g, rfl, h.1, h.2⟩)]
        | Basic o => simp [newFoundriesOfAccount]
        | Account o => simp [newFoundriesOfAccount]
        | Anchor o => simp [newFoundriesOfAccount]
        | NFT o => simp [newFoundriesOfAccount]
        | Delegation o => simp [newFoundriesOfAccount]
        | ImplicitAccount o => simp [newFoundriesOfAccount]
      rw [hL] at hnodup ⊢
      rw [← ih hnodup]
      constructor
      · intro hall f hf
        have hfid := (mem_newFoundriesOfAccount vmParams accountID f rest hf).1
        have := hall f hf
        rwa [foundrySerialOrderLoop_cons_other vmParams f _ output rest
          (fun g hg hc => hnew ⟨g, hg, by rw [hc.1, hfid], hc.2⟩)] at this
      · intro hall f hf
        have hfid := (mem_newFoundriesOfAccount vmParams accountID f rest hf).1
        rw [foundrySerialOrderLoop_cons_other vmParams f _ output rest
          (fun g hg hc => hnew ⟨g, hg, by rw [hc.1, hfid], hc.2⟩)]
        exact hall f hf

/-- C15: for every transaction whose new foundry outputs of one owning account have
pairwise distinct foundry IDs and serial numbers that pass the counter-interval
check, `foundrySerialNumberValid` succeeds for all of them iff their serial
numbers are strictly increasing in output-list order. -/
theorem foundrySerialNumberValid_all_iff_increasing (vmParams : Params) (accountID : Nat)
    (inAccount outAccount : AccountOutput)
    (hdistinct : ((newFoundriesOfAccount vmParams accountID vmParams.WorkingSet.Tx.Outputs).map
      FoundryOutput.MustFoundryID).Nodup)
    (hinterval : ∀ f ∈ newFoundriesOfAccount vmParams accountID vmParams.WorkingSet.Tx.Outputs,
      foundrySerialInInterval f inAccount outAccount = none) :
    (∀ f ∈ newFoundriesOfAccount vmParams accountID vmParams.WorkingSet.Tx.Outputs,
      foundrySerialNumberValid vmParams f inAccount outAccount f.MustFoundryID = none) ↔
    ((newFoundriesOfAccount vmParams accountID vmParams.WorkingSet.Tx.Outputs).map
      FoundryOutput.SerialNumber).Pairwise (· < ·) := by
  rw [← foundrySerialOrderLoop_all_iff vmParams accountID _ hdistinct]
  constructor
  · intro h f hf
    have := h f hf
    unfold foundrySerialNumberValid at this
    rwa [hinterval f hf] at this
  · intro h f hf
    unfold foundrySerialNumberValid
    rw [hinterval f hf]
    exact h f hf

/-- Witness of `foundrySerialNumberValid_all_iff_increasing`: the counter of account 7
goes from 2 to 5 and the new foundries 3, 4, 5 are listed in that order; all
three are accepted. -/
theorem foundrySerialNumberValid_all_iff_increasing_witness :
    foundrySerialNumberValid
      (exampleParams 4 2 none (fun _ => none) (fun _ => none)
        [Output.Foundry (exampleFoundry 3), Output.Foundry (exampleFoundry 4),
          Output.Foundry (exampleFoundry 5)] 0 0)
      (exampleFoundry 3) (exampleAccount 0 2) (exampleAccount 0 5)
      (exampleFoundry 3).MustFoundryID = none ∧
    foundrySerialNumberValid
      (exampleParams 4 2 none (fun _ => none) (fun _ => none)
        [Output.Foundry (exampleFoundry 3), Output.Foundry (exampleFoundry 4),
          Output.Foundry (exampleFoundry 5)] 0 0)
      (exampleFoundry 4) (exampleAccount 0 2) (exampleAccount 0 5)
      (exampleFoundry 4).MustFoundryID = none ∧
    foundrySerialNumberValid
      (exampleParams 4 2 none (fun _ => none) (fun _ => none)
        [Output.Foundry (exampleFoundry 3), Output.Foundry (exampleFoundry 4),
          Output.Foundry (exampleFoundry 5)] 0 0)
      (exampleFoundry 5) (exampleAccount 0 2) (exampleAccount 0 5)
      (exampleFoundry 5).MustFoundryID = none :=
  ⟨(foundrySerialNumberValid_all_iff_increasing
      (exampleParams 4 2 none (fun _ => none) (fun _ => none)
        [Output.Foundry (exampleFoundry 3), Output.Foundry (exampleFoundry 4),
          Output.Foundry (exampleFoundry 5)] 0 0) 7
      (exampleAccount 0 2) (exampleAccount 0 5) (by decide) (by decide)).mpr (by decide)
      (exampleFoundry 3) (by decide),
    (foundrySerialNumberValid_all_iff_increasing
      (exampleParams 4 2 none (fun _ => none) (fun _ => none)
        [Output.Foundry (exampleFoundry 3), Output.Foundry (exampleFoundry 4),
          Output.Foundry (exampleFoundry 5)] 0 0) 7
      (exampleAccount 0 2) (exampleAccount 0 5) (by decide) (by decide)).mpr (by decide)
      (exampleFoundry 4) (by decide),
    (foundrySerialNumberValid_all_iff_increasing
      (exampleParams 4 2 none (fun _ => none) (fun _ => none)
        [Output.Foundry (exampleFoundry 3), Output.Foundry (exampleFoundry 4),
          Output.Foundry (exampleFoundry 5)] 0 0) 7
      (exampleAccount 0 2) (exampleAccount 0 5) (by decide) (by decide)).mpr (by decide)
      (exampleFoundry 5) (by decide)⟩

/-- The serial numbers 5, 3, 4 in that order are rejected: the foundries 3 and 4
come after the foundry 5 and fail their order check, only the foundry 5
passes; the counter of the account goes from 2 to 5. -/
theorem foundrySerialNumberValid_order_examples :
    foundrySerialNumberValid
      (exampleParams 4 2 none (fun _ => none) (fun _ => none)
        [Output.Foundry (exampleFoundry 5), Output.Foundry (exampleFoundry 3),
          Output.Foundry (exampleFoundry 4)] 0 0)
      (exampleFoundry 3) (exampleAccount 0 2) (exampleAccount 0 5)
      (exampleFoundry 3).MustFoundryID = some Error.ErrInvalidFoundryStateTransition ∧
    foundrySerialNumberValid
      (exampleParams 4 2 none (fun _ => none) (fun _ => none)
        [Output.Foundry (exampleFoundry 5), Output.Foundry (exampleFoundry 3),
          Output.Foundry (exampleFoundry 4)] 0 0)
      (exampleFoundry 4) (exampleAccount 0 2) (exampleAccount 0 5)
      (exampleFoundry 4).MustFoundryID = some Error.ErrInvalidFoundryStateTransition ∧
    foundrySerialNumberValid
      (exampleParams 4 2 none (fun _ => none) (fun _ => none)
        [Output.Foundry (exampleFoundry 5), Output.Foundry (exampleFoundry 3),
          Output.Foundry (exampleFoundry 4)] 0 0)
      (exampleFoundry 5) (exampleAccount 0 2) (exampleAccount 0 5)
      (exampleFoundry 5).MustFoundryID = none := by
  decide

/-! ## Delegation -/

/-- C17, as stated, fails at the registration slot itself: with epochs of 8 slots
and a threshold of 3 the registration slot of epoch 10 is 84; for a commitment
whose past-bounded slot is 84 (at, not before, the registration slot) the code
requires the start epoch 11: it accepts 11 and rejects 12. -/
theorem delegationGenesisValid_at_registration_slot :
    ((exampleParams 4 2 (some ⟨80⟩) (fun _ => none) (fun _ => none) [] 0 0).PastBoundedSlotIndex 80
        = 84 ∧
      (exampleParams 4 2 (some ⟨80⟩) (fun _ => none) (fun _ => none) [] 0
        0).API.TimeProvider.EpochFromSlot 84 = 10 ∧
      registrationSlot (exampleParams 4 2 (some ⟨80⟩) (fun _ => none) (fun _ => none) [] 0 0) 10
        = 84) ∧
    delegationGenesisValid (exampleParams 4 2 (some ⟨80⟩) (fun _ => none) (fun _ => none) [] 0 0)
      ⟨1000, 1000, 0, 9, 11, 0⟩ = none ∧
    delegationGenesisValid (exampleParams 4 2 (some ⟨80⟩) (fun _ => none) (fun _ => none) [] 0 0)
      ⟨1000, 1000, 0, 9, 12, 0⟩
      = some (Error.Join Error.ErrInvalidDelegationTransition
          Error.ErrInvalidDelegationStartEpoch) := by
  decide

/-- C17, amended: for delegation genesis with a zeroed DelegationID and a commitment
present, the required StartEpoch is `pastBoundedEpoch + 1` when the past-bounded
slot is at or before the registration slot of that epoch (`registrationSlot =
EpochEnd(pastBoundedEpoch) - EpochNearingThreshold`), and `pastBoundedEpoch + 2`
when it is after that registration slot; every output whose StartEpoch differs
from the required value is rejected, and the output is accepted iff moreover
the delegated amount equals the amount and the end epoch is 0. -/
theorem delegationGenesisValid_start_epoch (vmParams : Params) (current : DelegationOutput)
    (commitment : Commitment)
    (hzero : current.DelegationID = 0)
    (hcommitment : vmParams.WorkingSet.Commitment = some commitment)
    (hrange : vmParams.API.TimeProvider.EpochFromSlot
      (vmParams.PastBoundedSlotIndex commitment.Slot) + 2 < 2 ^ 64) :
    (current.StartEpoch ≠
        (if vmParams.PastBoundedSlotIndex commitment.Slot
            ≤ registrationSlot vmParams (vmParams.API.TimeProvider.EpochFromSlot
                (vmParams.PastBoundedSlotIndex commitment.Slot))
          then vmParams.API.TimeProvider.EpochFromSlot
            (vmParams.PastBoundedSlotIndex commitment.Slot) + 1
          else vmParams.API.TimeProvider.EpochFromSlot
            (vmParams.PastBoundedSlotIndex commitment.Slot) + 2) →
      delegationGenesisValid vmParams current
        = some (Error.Join Error.ErrInvalidDelegationTransition
            Error.ErrInvalidDelegationStartEpoch)) ∧
    (delegationGenesisValid vmParams current = none ↔
      current.StartEpoch =
        (if vmParams.PastBoundedSlotIndex commitment.Slot
            ≤ registrationSlot vmParams (vmParams.API.TimeProvider.EpochFromSlot
                (vmParams.PastBoundedSlotIndex commitment.Slot))
          then vmParams.API.TimeProvider.EpochFromSlot
            (vmParams.PastBoundedSlotIndex commitment.Slot) + 1
          else vmParams.API.TimeProvider.EpochFromSlot
            (vmParams.PastBoundedSlotIndex commitment.Slot) + 2) ∧
      current.DelegatedAmount = current.Amount ∧ current.EndEpoch = 0) := by
  have e1 : add64 (vmParams.API.TimeProvider.EpochFromSlot
      (vmParams.PastBoundedSlotIndex commitment.Slot)) 1
      = vmParams.API.TimeProvider.EpochFromSlot
          (vmParams.PastBoundedSlotIndex commitment.Slot) + 1 := add64_eq (by omega)
  have e2 : add64 (vmParams.API.TimeProvider.EpochFromSlot
      (vmParams.PastBoundedSlotIndex commitment.Slot)) 2
      = vmParams.API.TimeProvider.EpochFromSlot
          (vmParams.PastBoundedSlotIndex commitment.Slot) + 2 := add64_eq (by omega)
  unfold delegationGenesisValid
  simp only [hzero, hcommitment, e1, e2]
  constructor
  · intro h
    simp [h]
  · by_cases hs : current.StartEpoch =
        (if vmParams.PastBoundedSlotIndex commitment.Slot
            ≤ registrationSlot vmParams (vmParams.API.TimeProvider.EpochFromSlot
                (vmParams.PastBoundedSlotIndex commitment.Slot))
          then vmParams.API.TimeProvider.EpochFromSlot
            (vmParams.PastBoundedSlotIndex commitment.Slot) + 1
          else vmParams.API.TimeProvider.EpochFromSlot
            (vmParams.PastBoundedSlotIndex commitment.Slot) + 2)
    · by_cases ha : current.DelegatedAmount = current.Amount
      · by_cases he : current.EndEpoch = 0
        · simp [hs, ha, he]
        · simp [hs, ha, he]
      · simp [hs, ha]
    · simp [hs]

/-- Witness of `delegationGenesisValid_start_epoch`: the past-bounded slot 83 of
epoch 10 is before the registration slot 84, so the start epoch 11 is accepted. -/
theorem delegationGenesisValid_start_epoch_witness :
    delegationGenesisValid (exampleParams 4 2 (some ⟨79⟩) (fun _ => none) (fun _ => none) [] 0 0)
      ⟨1000, 1000, 0, 9, 11, 0⟩ = none :=
  (delegationGenesisValid_start_epoch
    (exampleParams 4 2 (some ⟨79⟩) (fun _ => none) (fun _ => none) [] 0 0)
    ⟨1000, 1000, 0, 9, 11, 0⟩ ⟨79⟩ rfl rfl (by decide)).2.mpr
    ⟨by decide, by decide, by decide⟩

/-- After the registration slot the required start epoch is two epochs ahead: the
past-bounded slot 85 of epoch 10 requires 12. -/
theorem delegationGenesisValid_after_registration_slot :
    delegationGenesisValid (exampleParams 4 2 (some ⟨81⟩) (fun _ => none) (fun _ => none) [] 0 0)
      ⟨1000, 1000, 0, 9, 12, 0⟩ = none ∧
    delegationGenesisValid (exampleParams 4 2 (some ⟨81⟩) (fun _ => none) (fun _ => none) [] 0 0)
      ⟨1000, 1000, 0, 9, 11, 0⟩
      = some (Error.Join Error.ErrInvalidDelegationTransition
          Error.ErrInvalidDelegationStartEpoch) := by
  decide

/-- C18: `delegationStateChangeValid` accepts a delegation state change iff the
DelegationID of the consumed output is zeroed, DelegatedAmount,
ValidatorAddress and StartEpoch are equal on both sides, a commitment is
present, and `next.EndEpoch` equals `futureBoundedEpoch` when the future-bounded
slot is at or before the registration slot of that epoch and
`futureBoundedEpoch + 1` otherwise; hence a delegation output whose
DelegationID is already non-zero can never be state-changed again.  The epoch
after the future-bounded epoch is a 64-bit `EpochIndex`. -/
theorem delegationStateChangeValid_iff (vmParams : Params) (current next : DelegationOutput)
    (hrange : ∀ commitment, vmParams.WorkingSet.Commitment = some commitment →
      vmParams.API.TimeProvider.EpochFromSlot
        (vmParams.FutureBoundedSlotIndex commitment.Slot) + 1 < 2 ^ 64) :
    (delegationStateChangeValid vmParams current next = none ↔
      current.DelegationID = 0 ∧
      current.DelegatedAmount = next.DelegatedAmount ∧
      current.ValidatorAddress = next.ValidatorAddress ∧
      current.StartEpoch = next.StartEpoch ∧
      ∃ commitment, vmParams.WorkingSet.Commitment = some commitment ∧
        next.EndEpoch =
          (if vmParams.FutureBoundedSlotIndex commitment.Slot
              ≤ registrationSlot vmParams (vmParams.API.TimeProvider.EpochFromSlot
                  (vmParams.FutureBoundedSlotIndex commitment.Slot))
            then vmParams.API.TimeProvider.EpochFromSlot
              (vmParams.FutureBoundedSlotIndex commitment.Slot)
            else vmParams.API.TimeProvider.EpochFromSlot
              (vmParams.FutureBoundedSlotIndex commitment.Slot) + 1)) ∧
    (current.DelegationID ≠ 0 →
      delegationStateChangeValid vmParams current next
        = some (Error.Join Error.ErrInvalidDelegationTransition
            Error.ErrInvalidDelegationNonZeroedID)) := by
  unfold delegationStateChangeValid
  constructor
  · by_cases hid : current.DelegationID = 0
    swap
    · simp [hid]
    by_cases hmod : current.DelegatedAmount ≠ next.DelegatedAmount ∨
        current.ValidatorAddress ≠ next.ValidatorAddress ∨
        current.StartEpoch ≠ next.StartEpoch
    · rw [if_neg (by simp [hid]), if_pos hmod]
      simp
      tauto
    · rw [if_neg (by simp [hid]), if_neg hmod]
      have hmod' : current.DelegatedAmount = next.DelegatedAmount ∧
          current.ValidatorAddress = next.ValidatorAddress ∧
          current.StartEpoch = next.StartEpoch := by tauto
      cases hc : vmParams.WorkingSet.Commitment with
      | none => simp
      | some commitment =>
        have e1 : add64 (vmParams.API.TimeProvider.EpochFromSlot
            (vmParams.FutureBoundedSlotIndex commitment.Slot)) 1
            = vmParams.API.TimeProvider.EpochFromSlot
                (vmParams.FutureBoundedSlotIndex commitment.Slot) + 1 :=
          add64_eq (hrange commitment hc)
        simp only [e1, hid, hmod'.1, hmod'.2.1, hmod'.2.2, true_and, Option.some.injEq,
          exists_eq_left']
        by_cases he : next.EndEpoch =
            (if vmParams.FutureBoundedSlotIndex commitment.Slot
                ≤ registrationSlot vmParams (vmParams.API.TimeProvider.EpochFromSlot
                    (vmParams.FutureBoundedSlotIndex commitment.Slot))
              then vmParams.API.TimeProvider.EpochFromSlot
                (vmParams.FutureBoundedSlotIndex commitment.Slot)
              else vmParams.API.TimeProvider.EpochFromSlot
                (vmParams.FutureBoundedSlotIndex commitment.Slot) + 1)
        · simp [he]
        · simp [he]
  · intro hid
    simp [hid]

/-- Witness of `delegationStateChangeValid_iff`: the commitment slot 82 has the
future-bounded slot 84 in epoch 10, at the registration slot 84, so the end
epoch 10 is accepted. -/
theorem delegationStateChangeValid_iff_witness :
    delegationStateChangeValid
      (exampleParams 4 2 (some ⟨82⟩) (fun _ => none) (fun _ => none) [] 0 0)
      ⟨1000, 1000, 0, 9, 5, 0⟩ ⟨1000, 1000, 77, 9, 5, 10⟩ = none :=
  (delegationStateChangeValid_iff
    (exampleParams 4 2 (some ⟨82⟩) (fun _ => none) (fun _ => none) [] 0 0)
    ⟨1000, 1000, 0, 9, 5, 0⟩ ⟨1000, 1000, 77, 9, 5, 10⟩
    (fun commitment h => by
      have hc : commitment = ⟨82⟩ := (Option.some.inj h).symm
      subst hc
      decide)).1.mpr
    ⟨rfl, rfl, rfl, rfl, ⟨82⟩, rfl, by decide⟩

/-- C19: `delegationSTVF` accepts a Destroy transition iff the rewards set contains
an entry for the ChainID of the consumed output, and rejects every StateChange
transition for which the rewards set contains such an entry, whatever the
outputs look like. -/
theorem delegationSTVF_rewards (vmParams : Params) (input : ChainOutputWithIDs)
    (next : Option DelegationOutput) :
    (delegationSTVF vmParams (some input) ChainTransitionType.Destroy next = some none ↔
      (vmParams.WorkingSet.Rewards input.ChainID).isSome) ∧
    ((vmParams.WorkingSet.Rewards input.ChainID).isSome = false →
      delegationSTVF vmParams (some input) ChainTransitionType.Destroy next
        = some (some (Error.Join Error.ErrInvalidDelegationTransition
            Error.ErrInvalidDelegationRewardsClaiming))) ∧
    ((vmParams.WorkingSet.Rewards input.ChainID).isSome →
      delegationSTVF vmParams (some input) ChainTransitionType.StateChange next
        = some (some (Error.Join Error.ErrInvalidDelegationTransition
            Error.ErrInvalidDelegationRewardsClaiming))) := by
  unfold delegationSTVF
  cases h : vmParams.WorkingSet.Rewards input.ChainID <;> simp [h]

/-- Witness of `delegationSTVF_rewards`: a state change of the delegation chain 5
while the rewards set holds an entry for that chain is rejected. -/
theorem delegationSTVF_rewards_witness :
    delegationSTVF
      (exampleParams 4 2 (some ⟨82⟩) (fun _ => none)
        (fun id => if id = ChainID.Delegation 5 then some 10 else none) [] 0 0)
      (some ⟨ChainID.Delegation 5, ⟨100, 0⟩, Output.Delegation ⟨1000, 1000, 0, 9, 5, 0⟩⟩)
      ChainTransitionType.StateChange (some ⟨1000, 1000, 5, 9, 5, 10⟩)
      = some (some (Error.Join Error.ErrInvalidDelegationTransition
          Error.ErrInvalidDelegationRewardsClaiming)) :=
  (delegationSTVF_rewards
    (exampleParams 4 2 (some ⟨82⟩) (fun _ => none)
      (fun id => if id = ChainID.Delegation 5 then some 10 else none) [] 0 0)
    ⟨ChainID.Delegation 5, ⟨100, 0⟩, Output.Delegation ⟨1000, 1000, 0, 9, 5, 0⟩⟩
    (some ⟨1000, 1000, 5, 9, 5, 10⟩)).2.2 (by decide)

/-! ## Anchor governance transitions -/

/-- C20: every anchor state change in which StateIndex is unchanged and Amount
differs between input and output is rejected with
`ErrInvalidAnchorGovernanceTransition`, whatever the remaining fields are. -/
theorem anchorStateChangeValid_amount_changed (vmParams : Params) (input : ChainOutputWithIDs)
    (current next : AnchorOutput)
    (hout : input.Output = Output.Anchor current)
    (hindex : current.StateIndex = next.StateIndex)
    (hamount : current.Amount ≠ next.Amount) :
    anchorStateChangeValid input next
      = some (some Error.ErrInvalidAnchorGovernanceTransition) ∧
    anchorSTVF vmParams (some input) ChainTransitionType.StateChange (some next)
      = some (some Error.ErrInvalidAnchorGovernanceTransition) := by
  have h : anchorStateChangeValid input next
      = some (some Error.ErrInvalidAnchorGovernanceTransition) := by
    unfold anchorStateChangeValid anchorGovernanceSTVF
    simp only [hout]
    by_cases himm : current.ImmutableFeatures ≠ next.ImmutableFeatures
    · simp [himm, hindex]
    · simp [himm, hindex, hamount]
  refine ⟨h, ?_⟩
  unfold anchorSTVF
  simp [h]

/-- Witness of `anchorStateChangeValid_amount_changed`: a governance transition of
anchor 3 that only changes the amount from 1000 to 900. -/
theorem anchorStateChangeValid_amount_changed_witness :
    anchorStateChangeValid
      ⟨ChainID.Anchor 3, ⟨100, 0⟩, Output.Anchor ⟨1000, 0, 3, 5, 11, 12, none, none, []⟩⟩
      ⟨900, 0, 3, 5, 11, 12, none, none, []⟩
      = some (some Error.ErrInvalidAnchorGovernanceTransition) :=
  (anchorStateChangeValid_amount_changed
    (exampleParams 4 2 none (fun _ => none) (fun _ => none) [] 0 0)
    ⟨ChainID.Anchor 3, ⟨100, 0⟩, Output.Anchor ⟨1000, 0, 3, 5, 11, 12, none, none, []⟩⟩
    ⟨1000, 0, 3, 5, 11, 12, none, none, []⟩ ⟨900, 0, 3, 5, 11, 12, none, none, []⟩
    rfl rfl (by decide)).1

/-! ## The fixed-point multiplication in its design range -/

/-- C29: for all `valueHi`, `valueLo`, `factor` below `2^32` and `scale ≤ 32`,
`fixedPointMultiplication32Splitted` returns `(hi, lo)` with `lo < 2^32` and
`hi · 2^32 + lo = ⌊(valueHi · 2^32 + valueLo) · factor / 2^scale⌋`; each of its
64-bit operations (the two products, the shifts to the left, the two
subtractions and the two sums) equals the exact operation, so none overflows;
and `fixedPointMultiplication32 value factor scale` is
`⌊value · factor / 2^scale⌋ mod 2^64` for every 64-bit value. -/
theorem fixedPointMultiplication32Splitted_spec (valueHi valueLo factor scale : Nat)
    (hhi : valueHi < 2 ^ 32) (hlo : valueLo < 2 ^ 32) (hF : factor < 2 ^ 32)
    (hs : scale ≤ 32) :
    ((fixedPointMultiplication32Splitted valueHi valueLo factor scale).2 < 2 ^ 32 ∧
      (fixedPointMultiplication32Splitted valueHi valueLo factor scale).1 * 2 ^ 32
        + (fixedPointMultiplication32Splitted valueHi valueLo factor scale).2
        = (valueHi * 2 ^ 32 + valueLo) * factor / 2 ^ scale) ∧
    (mul64 valueHi factor = valueHi * factor ∧
      mul64 valueLo factor = valueLo * factor ∧
      shl64 1 scale = 2 ^ scale ∧
      sub64 (2 ^ scale) 1 = 2 ^ scale - 1 ∧
      sub64 32 scale = 32 - scale ∧
      shl64 (valueHi * factor % 2 ^ scale) (32 - scale)
        = (valueHi * factor % 2 ^ scale) * 2 ^ (32 - scale) ∧
      add64 ((valueHi * factor % 2 ^ scale) * 2 ^ (32 - scale))
          (valueLo * factor / 2 ^ scale)
        = (valueHi * factor % 2 ^ scale) * 2 ^ (32 - scale) + valueLo * factor / 2 ^ scale ∧
      add64 (valueHi * factor / 2 ^ scale)
          (((valueHi * factor % 2 ^ scale) * 2 ^ (32 - scale)
            + valueLo * factor / 2 ^ scale) / 2 ^ 32)
        = valueHi * factor / 2 ^ scale
          + ((valueHi * factor % 2 ^ scale) * 2 ^ (32 - scale)
            + valueLo * factor / 2 ^ scale) / 2 ^ 32) ∧
    (∀ value, value < 2 ^ 64 →
      fixedPointMultiplication32 value factor scale = value * factor / 2 ^ scale % 2 ^ 64) := by
  refine ⟨?_, ?_, ?_⟩
  · rw [fixedPointMultiplication32Splitted_exact hhi hlo hF hs]
    refine ⟨Nat.mod_lt _ (by norm_num), ?_⟩
    simp only []
    omega
  · have hhiF : valueHi * factor ≤ (2 ^ 32 - 1) * (2 ^ 32 - 1) :=
      Nat.mul_le_mul (by omega) (by omega)
    have hloF : valueLo * factor ≤ (2 ^ 32 - 1) * (2 ^ 32 - 1) :=
      Nat.mul_le_mul (by omega) (by omega)
    have hpos : 0 < 2 ^ scale := by positivity
    have hpow : (2 : Nat) ^ scale * 2 ^ (32 - scale) = 2 ^ 32 := by
      rw [← pow_add]; congr 1; omega
    have hps : (2 : Nat) ^ scale ≤ 2 ^ 32 := Nat.pow_le_pow_right (by norm_num) hs
    have hA : (valueHi * factor % 2 ^ scale) * 2 ^ (32 - scale) < 2 ^ 32 := by
      have : valueHi * factor % 2 ^ scale < 2 ^ scale := Nat.mod_lt _ hpos
      calc (valueHi * factor % 2 ^ scale) * 2 ^ (32 - scale)
          < 2 ^ scale * 2 ^ (32 - scale) := Nat.mul_lt_mul_of_pos_right this (by positivity)
        _ = 2 ^ 32 := hpow
    have hB : valueLo * factor / 2 ^ scale ≤ (2 ^ 32 - 1) * (2 ^ 32 - 1) :=
      le_trans (Nat.div_le_self _ _) hloF
    have hH : valueHi * factor / 2 ^ scale ≤ (2 ^ 32 - 1) * (2 ^ 32 - 1) :=
      le_trans (Nat.div_le_self _ _) hhiF
    have hV : ((valueHi * factor % 2 ^ scale) * 2 ^ (32 - scale)
        + valueLo * factor / 2 ^ scale) / 2 ^ 32 ≤ 2 ^ 32 := by
      norm_num at hA hB ⊢; omega
    refine ⟨mul64_eq (by norm_num at hhiF ⊢; omega), mul64_eq (by norm_num at hloF ⊢; omega),
      ?_, sub64_eq hpos (by norm_num at hps ⊢; omega), sub64_eq hs (by norm_num),
      shl64_eq (by omega) (by norm_num at hA ⊢; omega),
      add64_eq (by norm_num at hA hB ⊢; omega), add64_eq (by norm_num at hH hV ⊢; omega)⟩
    rw [shl64_eq (by omega) (by norm_num at hps ⊢; omega)]; simp
  · intro value hv
    exact fixedPointMultiplication32_mod hv hF hs

/-- Witness of `fixedPointMultiplication32Splitted_spec`: two full 32-bit words, a
32-bit factor and the scale 31. -/
theorem fixedPointMultiplication32Splitted_spec_witness :
    fixedPointMultiplication32Splitted 4294967295 4294967295 4294967295 31
        = (8589934589, 4294967294) ∧
      (8589934589 : Nat) * 2 ^ 32 + 4294967294
        = (4294967295 * 2 ^ 32 + 4294967295) * 4294967295 / 2 ^ 31 ∧
      fixedPointMultiplication32 18446744073709551615 4294967295 31
        = 18446744073709551615 * 4294967295 / 2 ^ 31 % 2 ^ 64 :=
  have h := fixedPointMultiplication32Splitted_spec 4294967295 4294967295 4294967295 31
    (by decide) (by decide) (by decide) (by decide)
  ⟨by decide, by decide, h.2.2 18446744073709551615 (by decide)⟩

/-! ## The rounds of the decay loop -/

/-- With less than a full table of epochs remaining, the loop runs one round
with the entry at index `r - 1`, or none when `r = 0`. -/
theorem decayLoop_remainder (p : ManaDecayProvider) (hi lo r : Nat)
    (hr : r ≤ p.decayFactorsLength) (h64 : r < 2 ^ 64) :
    decayLoop p r hi lo r
      = if r > 0 then decayRound p (r - 1) (hi, lo) else (hi, lo) := by
  rcases Nat.eq_zero_or_pos r with h0 | hpos
  · subst h0
    rw [decayLoop_zero]; rfl
  · obtain ⟨m, hm⟩ : ∃ m, r = m + 1 := ⟨r - 1, by omega⟩
    have hd : (if r > p.decayFactorsLength then p.decayFactorsLength else r) = r := by
      split <;> omega
    have step := decayLoop_succ p m hi lo r hpos
    rw [hd, sub64_eq hpos h64, sub64_eq (le_refl r) h64, Nat.sub_self, decayLoop_zero] at step
    have hfuel : decayLoop p r hi lo r = decayLoop p (m + 1) hi lo r := by rw [← hm]
    rw [hfuel, step, if_pos hpos]
    rfl

/-- The loop over `q · decayFactorsLength + r` epochs, `r` below the table length,
is `q` rounds with the last table entry and then the round of the remainder. -/
theorem decayLoop_rounds (p : ManaDecayProvider) (hL : 0 < p.decayFactorsLength) (r : Nat)
    (hr : r < p.decayFactorsLength) :
    ∀ (q hi lo : Nat), q * p.decayFactorsLength + r < 2 ^ 64 →
      decayLoop p (q * p.decayFactorsLength + r) hi lo (q * p.decayFactorsLength + r)
        = decayRounds p q r (hi, lo) := by
  intro q
  induction q with
  | zero =>
    intro hi lo h64
    simp only [Nat.zero_mul, Nat.zero_add] at h64 ⊢
    rw [decayLoop_remainder p hi lo r (by omega) h64]
    rfl
  | succ q ih =>
    intro hi lo h64
    have e1 : (q + 1) * p.decayFactorsLength + r - p.decayFactorsLength
        = q * p.decayFactorsLength + r := by
      rw [Nat.succ_mul]; omega
    rw [decayLoop_chunk p hL hi lo _ (by rw [Nat.succ_mul]; omega) h64, e1,
      ih _ _ (by rw [Nat.succ_mul] at h64; omega)]
    unfold decayRounds
    rw [Function.iterate_succ_apply]
    rfl

/-- C30: for a non-empty table of length `L`, `value ≠ 0` and an epoch difference
`d > 0` with `d = q · L + r`, `r < L`: the loop of `decay` terminates (its
result is the same for every fuel of at least `d` rounds), every table index it
uses is in range, and `decay` applies the fixed-point multiplication `q` times
with the factor `decayFactors[L - 1]` and then, when `r > 0`, once with
`decayFactors[r - 1]`; for `d ≤ L` it is one application with index `d - 1`. -/
theorem decay_rounds (p : ManaDecayProvider) (value d q r : Nat)
    (hlen : p.decayFactorsLength = p.decayFactors.length) (hL : 0 < p.decayFactorsLength)
    (hv : value ≠ 0) (hd : 0 < d) (hd64 : d < 2 ^ 64)
    (hqr : d = q * p.decayFactorsLength + r) (hr : r < p.decayFactorsLength) :
    (∀ fuel hi lo, d ≤ fuel → decayLoop p fuel hi lo d = decayLoop p d hi lo d) ∧
    (∀ remaining, 0 < remaining →
      sub64 (if remaining > p.decayFactorsLength then p.decayFactorsLength else remaining) 1
        < p.decayFactors.length) ∧
    (p.decayFactorsLength - 1 < p.decayFactors.length ∧
      (0 < r → r - 1 < p.decayFactors.length)) ∧
    (∀ hi lo, decayLoop p d hi lo d = decayRounds p q r (hi, lo)) ∧
    decay p value d
      = mergeUint64 (decayRounds p q r (splitUint64 value)).1
          (decayRounds p q r (splitUint64 value)).2 ∧
    (d ≤ p.decayFactorsLength →
      decay p value d
        = mergeUint64 (decayRound p (d - 1) (splitUint64 value)).1
            (decayRound p (d - 1) (splitUint64 value)).2) := by
  have hloop : ∀ hi lo, decayLoop p d hi lo d = decayRounds p q r (hi, lo) := by
    intro hi lo
    rw [hqr]
    exact decayLoop_rounds p hL r hr q hi lo (by omega)
  refine ⟨fun fuel hi lo hfuel => decayLoop_fuel p hL hi lo d hd64 fuel hfuel,
    fun remaining hrem => decayLoop_index_lt p hlen hL remaining hrem,
    ⟨by omega, fun _ => by omega⟩, hloop, ?_, ?_⟩
  · rw [decay_eq_loop p value d hv (by omega) (by omega), hloop]
  · intro hdL
    rw [decay_eq_loop p value d hv (by omega) (by omega),
      decayLoop_remainder p _ _ d hdL hd64, if_pos hd]

/-- Witness of `decay_rounds`: the table `[2^31, 2^30]` of the halving provider and
the epoch difference `5 = 2 · 2 + 1`, two rounds with the last entry and one
with the first; `2^40` decays to `2^40 / 4 / 4 / 2`. -/
theorem decay_rounds_witness :
    decay halvingProvider (2 ^ 40) 5
        = mergeUint64 (decayRounds halvingProvider 2 1 (splitUint64 (2 ^ 40))).1
            (decayRounds halvingProvider 2 1 (splitUint64 (2 ^ 40))).2 ∧
      decay halvingProvider (2 ^ 40) 5 = 2 ^ 35 :=
  ⟨(decay_rounds halvingProvider (2 ^ 40) 5 2 1 (by decide) (by decide) (by decide)
      (by decide) (by decide) (by decide) (by decide)).2.2.2.2.1, by decide⟩

/-! ## Destruction of chain outputs -/

/-- C26: `implicitAccountSTVF` returns `ErrImplicitAccountDestructionDisallowed`
for every Destroy transition of an implicit account output, whatever the
working set, the implicit account, its output ID and the next output are. -/
theorem implicitAccountSTVF_destroy (vmParams : Params) (implicitAccount : BasicOutput)
    (outputID : OutputID) (next : Option AccountOutput) :
    implicitAccountSTVF vmParams implicitAccount outputID next ChainTransitionType.Destroy
      = some (some Error.ErrImplicitAccountDestructionDisallowed) := by
  unfold implicitAccountSTVF
  rw [if_pos rfl]

/-- C27: the destruction of an Anchor output, respectively of an NFT output, is
accepted iff the transaction capabilities do not disallow anchor, respectively
NFT, destruction, and is rejected with an error otherwise; the destruction of a
Foundry output is rejected whenever the capabilities disallow foundry
destruction, whatever the token scheme and the native token sums are. -/
theorem destruction_capabilities (vmParams : Params) :
    (anchorDestructionValid vmParams = none ↔
      vmParams.WorkingSet.Tx.Capabilities.CannotDestroyAnchorOutputs = false) ∧
    (∀ (input : ChainOutputWithIDs) (current : AnchorOutput) (next : Option AnchorOutput),
      input.Output = Output.Anchor current →
      (anchorSTVF vmParams (some input) ChainTransitionType.Destroy next = some none ↔
        vmParams.WorkingSet.Tx.Capabilities.CannotDestroyAnchorOutputs = false) ∧
      (vmParams.WorkingSet.Tx.Capabilities.CannotDestroyAnchorOutputs = true →
        ∃ err, anchorSTVF vmParams (some input) ChainTransitionType.Destroy next
          = some (some err))) ∧
    (nftDestructionValid vmParams = none ↔
      vmParams.WorkingSet.Tx.Capabilities.CannotDestroyNFTOutputs = false) ∧
    (∀ (input : ChainOutputWithIDs) (current : NFTOutput) (next : Option NFTOutput),
      input.Output = Output.NFT current →
      (nftSTVF vmParams (some input) ChainTransitionType.Destroy next = some none ↔
        vmParams.WorkingSet.Tx.Capabilities.CannotDestroyNFTOutputs = false) ∧
      (vmParams.WorkingSet.Tx.Capabilities.CannotDestroyNFTOutputs = true →
        ∃ err, nftSTVF vmParams (some input) ChainTransitionType.Destroy next
          = some (some err))) ∧
    (vmParams.WorkingSet.Tx.Capabilities.CannotDestroyFoundryOutputs = true →
      ∀ (current : FoundryOutput)
        (tokenSchemeStateTransition :
          ChainTransitionType → Option FoundryOutput → Nat → Nat → Option Error)
        (inSums outSums : ChainID → Nat),
        foundryDestructionValid vmParams current tokenSchemeStateTransition inSums outSums
          = some (Error.Join Error.ErrInvalidFoundryStateTransition
              Error.ErrTxCapabilitiesFoundryDestructionNotAllowed)) := by
  refine ⟨?_, ?_, ?_, ?_, ?_⟩
  · unfold anchorDestructionValid
    cases vmParams.WorkingSet.Tx.Capabilities.CannotDestroyAnchorOutputs <;> simp
  · intro input current next hout
    unfold anchorSTVF anchorDestructionValid
    cases vmParams.WorkingSet.Tx.Capabilities.CannotDestroyAnchorOutputs <;> simp [hout]
  · unfold nftDestructionValid
    cases vmParams.WorkingSet.Tx.Capabilities.CannotDestroyNFTOutputs <;> simp
  · intro input current next hout
    unfold nftSTVF nftDestructionValid
    cases vmParams.WorkingSet.Tx.Capabilities.CannotDestroyNFTOutputs <;> simp [hout]
  · intro hcap current tokenSchemeStateTransition inSums outSums
    unfold foundryDestructionValid
    rw [if_pos hcap]

/-- Witness of `destruction_capabilities`: with capabilities that disallow only
the destruction of foundries, anchor 3 may be destroyed and a foundry of
account 7 may not, although its token scheme would accept the destruction. -/
theorem destruction_capabilities_witness :
    anchorSTVF (exampleParamsWithCapabilities ⟨false, false, true, false⟩)
        (some (exampleAnchorInput (exampleAnchor 5 none none)))
        ChainTransitionType.Destroy none = some none ∧
      foundryDestructionValid (exampleParamsWithCapabilities ⟨false, false, true, false⟩)
        (exampleFoundry 1) (fun _ _ _ _ => none) (fun _ => 0) (fun _ => 0)
        = some (Error.Join Error.ErrInvalidFoundryStateTransition
            Error.ErrTxCapabilitiesFoundryDestructionNotAllowed) :=
  have h := destruction_capabilities (exampleParamsWithCapabilities ⟨false, false, true, false⟩)
  ⟨((h.2.1 (exampleAnchorInput (exampleAnchor 5 none none)) (exampleAnchor 5 none none) none
      rfl).1).mpr rfl,
    h.2.2.2.2 rfl (exampleFoundry 1) (fun _ _ _ _ => none) (fun _ => 0) (fun _ => 0)⟩

/-! ## Anchor state changes -/

/-- C21, as stated, fails: a governance transition of anchor 3 (StateIndex, Amount
and immutable features unchanged) whose only difference is the state-metadata
feature, changed from 1 to 2, is rejected by `anchorStateChangeValid`. -/
theorem anchorStateChangeValid_state_metadata_changed :
    anchorStateChangeValid (exampleAnchorInput (exampleAnchor 5 none (some 1)))
        (exampleAnchor 5 none (some 2))
      = some (some (Error.Join Error.ErrInvalidAnchorGovernanceTransition
          Error.ErrInvalidFeatureTransition)) := by
  decide

/-- C21, amended: in an anchor governance transition (StateIndex, Amount and
immutable features unchanged) the state controller, the governor and the plain
metadata feature are the things that may change: `anchorStateChangeValid`
accepts it iff the state-metadata feature is unchanged, and otherwise rejects
it with `ErrInvalidAnchorGovernanceTransition` joined with the feature error. -/
theorem anchorStateChangeValid_governance_iff (input : ChainOutputWithIDs)
    (current next : AnchorOutput)
    (hout : input.Output = Output.Anchor current)
    (hindex : current.StateIndex = next.StateIndex)
    (hamount : current.Amount = next.Amount)
    (himm : current.ImmutableFeatures = next.ImmutableFeatures) :
    (anchorStateChangeValid input next = some none ↔
      current.StateMetadata = next.StateMetadata) ∧
    (current.StateMetadata ≠ next.StateMetadata →
      anchorStateChangeValid input next
        = some (some (Error.Join Error.ErrInvalidAnchorGovernanceTransition
            Error.ErrInvalidFeatureTransition))) := by
  unfold anchorStateChangeValid anchorGovernanceSTVF FeatureUnchanged
  simp only [hout]
  by_cases hmeta : current.StateMetadata = next.StateMetadata
  · simp [himm, hindex, hamount, hmeta]
  · simp [himm, hindex, hamount, hmeta]

/-- Witness of `anchorStateChangeValid_governance_iff`: a governance transition of
anchor 3 that changes the state controller, the governor and the plain
metadata feature and keeps the state metadata is accepted. -/
theorem anchorStateChangeValid_governance_iff_witness :
    anchorStateChangeValid
      (exampleAnchorInput ⟨1000, 0, 3, 5, 11, 12, some 1, some 8, []⟩)
      ⟨1000, 0, 3, 5, 21, 22, some 2, some 8, []⟩ = some none :=
  ((anchorStateChangeValid_governance_iff
    (exampleAnchorInput ⟨1000, 0, 3, 5, 11, 12, some 1, some 8, []⟩)
    ⟨1000, 0, 3, 5, 11, 12, some 1, some 8, []⟩ ⟨1000, 0, 3, 5, 21, 22, some 2, some 8, []⟩
    rfl rfl rfl rfl).1).mpr rfl

/-- C22, as stated, fails: the state transition of anchor 3 from the maximal
StateIndex `2^32 - 1` to the StateIndex 0, everything else unchanged, is
accepted, although 0 is not one more than `2^32 - 1` as an integer. -/
theorem anchorStateChangeValid_state_index_wraps :
    (exampleAnchor (2 ^ 32 - 1) none none).StateIndex ≠ (exampleAnchor 0 none none).StateIndex ∧
    (exampleAnchor 0 none none).StateIndex
      ≠ (exampleAnchor (2 ^ 32 - 1) none none).StateIndex + 1 ∧
    anchorStateChangeValid (exampleAnchorInput (exampleAnchor (2 ^ 32 - 1) none none))
      (exampleAnchor 0 none none) = some none := by
  decide

/-- C22, amended: for an anchor state change whose StateIndex differs between
input and output and whose immutable features are equal, `anchorStateChangeValid`
accepts iff the StateController address is unchanged, the Governor address is
unchanged, the plain metadata feature is unchanged, and `next.StateIndex` is
`current.StateIndex + 1` in 32-bit arithmetic, that is modulo `2^32`. -/
theorem anchorStateChangeValid_state_iff (input : ChainOutputWithIDs)
    (current next : AnchorOutput)
    (hout : input.Output = Output.Anchor current)
    (hindex : current.StateIndex ≠ next.StateIndex)
    (himm : current.ImmutableFeatures = next.ImmutableFeatures) :
    anchorStateChangeValid input next = some none ↔
      current.StateController = next.StateController ∧
      current.GovernorAddress = next.GovernorAddress ∧
      current.Metadata = next.Metadata ∧
      next.StateIndex = (current.StateIndex + 1) % 2 ^ 32 := by
  unfold anchorStateChangeValid anchorStateSTVF FeatureUnchanged add32
  simp only [hout]
  by_cases hsc : current.StateController = next.StateController
  · by_cases hgov : current.GovernorAddress = next.GovernorAddress
    · by_cases hidx : (current.StateIndex + 1) % 4294967296 = next.StateIndex
      · by_cases hmeta : current.Metadata = next.Metadata
        · simp [himm, hindex, hsc, hgov, hidx, hmeta]
        · simp [himm, hindex, hsc, hgov, hidx, hmeta]
      · have hidx2 : ¬ next.StateIndex = (current.StateIndex + 1) % 4294967296 :=
          fun h => hidx h.symm
        simp [himm, hindex, hsc, hgov, hidx, hidx2]
    · simp [himm, hindex, hsc, hgov]
  · simp [himm, hindex, hsc]

/-- Witness of `anchorStateChangeValid_state_iff`: the state transition of anchor 3
from StateIndex 5 to 6 that changes only the state metadata is accepted. -/
theorem anchorStateChangeValid_state_iff_witness :
    anchorStateChangeValid (exampleAnchorInput (exampleAnchor 5 (some 1) (some 8)))
      (exampleAnchor 6 (some 1) (some 9)) = some none :=
  (anchorStateChangeValid_state_iff (exampleAnchorInput (exampleAnchor 5 (some 1) (some 8)))
    (exampleAnchor 5 (some 1) (some 8)) (exampleAnchor 6 (some 1) (some 9))
    rfl (by decide) rfl).mpr (by decide)

/-! ## Bonded staking features and account destruction -/

/-- C23: `accountStakingNonExpiredValidation` returns no error iff the next output
still has a staking feature, the next output has a block-issuer feature,
StakedAmount, FixedCost and StartEpoch are unchanged, and EndEpoch is either
unchanged or at least the earliest unbonding epoch; `accountStakingSTVF` applies
it, with the earliest unbonding epoch `pastBoundedEpoch + StakingUnbondingPeriod`,
whenever `futureBoundedEpoch ≤` the current EndEpoch, so that a bonded staking
feature can never be removed. -/
theorem accountStakingNonExpiredValidation_iff (vmParams : Params)
    (current next : AccountOutput) (currentStakingFeat : StakingFeature)
    (commitment : Commitment) (isRemovingStakingFeature : Bool)
    (hcur : current.Staking = some currentStakingFeat)
    (hcommit : vmParams.WorkingSet.Commitment = some commitment)
    (hbonded : vmParams.API.TimeProvider.EpochFromSlot
      (vmParams.FutureBoundedSlotIndex commitment.Slot) ≤ currentStakingFeat.EndEpoch)
    (hsum : vmParams.API.TimeProvider.EpochFromSlot
        (vmParams.PastBoundedSlotIndex commitment.Slot)
      + vmParams.API.ProtocolParameters.StakingUnbondingPeriod < 2 ^ 64) :
    (∀ (nextStakingFeat : Option StakingFeature) (earliestUnbondingEpoch : Nat)
        (nextHasBlockIssuerFeat : Bool),
      accountStakingNonExpiredValidation currentStakingFeat nextStakingFeat
          earliestUnbondingEpoch nextHasBlockIssuerFeat = none ↔
        ∃ n, nextStakingFeat = some n ∧ nextHasBlockIssuerFeat = true ∧
          n.StakedAmount = currentStakingFeat.StakedAmount ∧
          n.FixedCost = currentStakingFeat.FixedCost ∧
          n.StartEpoch = currentStakingFeat.StartEpoch ∧
          (n.EndEpoch = currentStakingFeat.EndEpoch ∨ earliestUnbondingEpoch ≤ n.EndEpoch)) ∧
    accountStakingSTVF vmParams current next isRemovingStakingFeature
      = (accountStakingNonExpiredValidation currentStakingFeat next.Staking
          (vmParams.API.TimeProvider.EpochFromSlot
              (vmParams.PastBoundedSlotIndex commitment.Slot)
            + vmParams.API.ProtocolParameters.StakingUnbondingPeriod)
          next.BlockIssuer.isSome, isRemovingStakingFeature) ∧
    ((accountStakingSTVF vmParams current next isRemovingStakingFeature).1 = none ↔
      ∃ n, next.Staking = some n ∧ next.BlockIssuer ≠ none ∧
        n.StakedAmount = currentStakingFeat.StakedAmount ∧
        n.FixedCost = currentStakingFeat.FixedCost ∧
        n.StartEpoch = currentStakingFeat.StartEpoch ∧
        (n.EndEpoch = currentStakingFeat.EndEpoch ∨
          vmParams.API.TimeProvider.EpochFromSlot
              (vmParams.PastBoundedSlotIndex commitment.Slot)
            + vmParams.API.ProtocolParameters.StakingUnbondingPeriod ≤ n.EndEpoch)) ∧
    (next.Staking = none →
      (accountStakingSTVF vmParams current next isRemovingStakingFeature).1
        = some (Error.Join Error.ErrInvalidStakingTransition
            Error.ErrInvalidStakingBondedRemoval)) := by
  have hfun : ∀ (nextStakingFeat : Option StakingFeature) (earliestUnbondingEpoch : Nat)
      (nextHasBlockIssuerFeat : Bool),
      accountStakingNonExpiredValidation currentStakingFeat nextStakingFeat
          earliestUnbondingEpoch nextHasBlockIssuerFeat = none ↔
        ∃ n, nextStakingFeat = some n ∧ nextHasBlockIssuerFeat = true ∧
          n.StakedAmount = currentStakingFeat.StakedAmount ∧
          n.FixedCost = currentStakingFeat.FixedCost ∧
          n.StartEpoch = currentStakingFeat.StartEpoch ∧
          (n.EndEpoch = currentStakingFeat.EndEpoch ∨ earliestUnbondingEpoch ≤ n.EndEpoch) := by
    intro nextStakingFeat earliestUnbondingEpoch nextHasBlockIssuerFeat
    unfold accountStakingNonExpiredValidation
    cases nextStakingFeat with
    | none => simp
    | some n =>
      cases nextHasBlockIssuerFeat with
      | false => simp
      | true =>
        by_cases h1 : currentStakingFeat.StakedAmount = n.StakedAmount
        · by_cases h2 : currentStakingFeat.FixedCost = n.FixedCost
          · by_cases h3 : currentStakingFeat.StartEpoch = n.StartEpoch
            · by_cases h4 : currentStakingFeat.EndEpoch = n.EndEpoch
              · simp [h1, h2, h3, h4]
              · have h4b : ¬ n.EndEpoch = currentStakingFeat.EndEpoch := fun h => h4 h.symm
                simp [h1, h2, h3, h4, h4b]
            · have h3b : ¬ n.StartEpoch = currentStakingFeat.StartEpoch := fun h => h3 h.symm
              simp [h1, h2, h3, h3b]
          · have h2b : ¬ n.FixedCost = currentStakingFeat.FixedCost := fun h => h2 h.symm
            simp [h1, h2, h2b]
        · have h1b : ¬ n.StakedAmount = currentStakingFeat.StakedAmount := fun h => h1 h.symm
          simp [h1, h1b]
  have hstvf : accountStakingSTVF vmParams current next isRemovingStakingFeature
      = (accountStakingNonExpiredValidation currentStakingFeat next.Staking
          (vmParams.API.TimeProvider.EpochFromSlot
              (vmParams.PastBoundedSlotIndex commitment.Slot)
            + vmParams.API.ProtocolParameters.StakingUnbondingPeriod)
          next.BlockIssuer.isSome, isRemovingStakingFeature) := by
    unfold accountStakingSTVF
    simp only [hcur, hcommit]
    rw [if_pos hbonded, add64_eq hsum]
  refine ⟨hfun, hstvf, ?_, ?_⟩
  · rw [hstvf]
    simp only []
    rw [hfun]
    constructor
    · rintro ⟨n, hn, hbi, rest⟩
      refine ⟨n, hn, ?_, rest⟩
      intro hnone
      rw [hnone] at hbi
      simp at hbi
    · rintro ⟨n, hn, hbi, rest⟩
      refine ⟨n, hn, ?_, rest⟩
      cases hb : next.BlockIssuer with
      | none => exact absurd hb hbi
      | some f => rfl
  · intro hnone
    rw [hstvf, hnone]
    rfl

/-- Witness of `accountStakingNonExpiredValidation_iff`: a staking feature bonded
until epoch 40, with the commitment of slot 100 (past-bounded epoch 13,
future-bounded epoch 12, unbonding period 10); removing the feature is rejected. -/
theorem accountStakingNonExpiredValidation_iff_witness :
    (accountStakingSTVF (exampleParams 4 2 (some ⟨100⟩) (fun _ => none) (fun _ => none) [] 0 0)
        ⟨1000, 0, 7, 0, some ⟨[1], 500⟩, some ⟨500, 1, 2, 40⟩, []⟩
        ⟨1000, 0, 7, 0, some ⟨[1], 500⟩, none, []⟩ false).1
      = some (Error.Join Error.ErrInvalidStakingTransition
          Error.ErrInvalidStakingBondedRemoval) :=
  (accountStakingNonExpiredValidation_iff
    (exampleParams 4 2 (some ⟨100⟩) (fun _ => none) (fun _ => none) [] 0 0)
    ⟨1000, 0, 7, 0, some ⟨[1], 500⟩, some ⟨500, 1, 2, 40⟩, []⟩
    ⟨1000, 0, 7, 0, some ⟨[1], 500⟩, none, []⟩ ⟨500, 1, 2, 40⟩ ⟨100⟩ false
    rfl rfl (by decide) (by decide)).2.2.2 rfl

/-- C24: `accountDestructionValid` rejects the destruction of an account whenever
(a) the transaction capabilities disallow account destruction, or (b) the
account has a block-issuer feature and there is no commitment, or its
ExpirySlot is at least the commitment slot, or its BIC entry is absent or
negative, or (c) the account has a staking feature and there is no commitment
or `futureBoundedEpoch ≤` the EndEpoch of the feature; if none of these holds
it accepts. -/
theorem accountDestructionValid_iff (vmParams : Params) (input : ChainOutputWithIDs)
    (current : AccountOutput) (accountID : Nat) (isRemovingStakingFeature : Bool)
    (hout : input.Output = Output.Account current)
    (hid : input.ChainID = ChainID.Account accountID) :
    ((vmParams.WorkingSet.Tx.Capabilities.CannotDestroyAccountOutputs = true ∨
      (∃ feat, current.BlockIssuer = some feat ∧
        (vmParams.WorkingSet.Commitment = none ∨
          (∃ c, vmParams.WorkingSet.Commitment = some c ∧ feat.ExpirySlot ≥ c.Slot) ∨
          vmParams.WorkingSet.BIC accountID = none ∨
          ∃ bic, vmParams.WorkingSet.BIC accountID = some bic ∧ bic < 0)) ∨
      (∃ stakingFeat, current.Staking = some stakingFeat ∧
        (vmParams.WorkingSet.Commitment = none ∨
          ∃ c, vmParams.WorkingSet.Commitment = some c ∧
            vmParams.API.TimeProvider.EpochFromSlot (vmParams.FutureBoundedSlotIndex c.Slot)
              ≤ stakingFeat.EndEpoch))) →
      ∃ err flag, accountDestructionValid vmParams input isRemovingStakingFeature
        = some (some err, flag)) ∧
    (¬ (vmParams.WorkingSet.Tx.Capabilities.CannotDestroyAccountOutputs = true ∨
      (∃ feat, current.BlockIssuer = some feat ∧
        (vmParams.WorkingSet.Commitment = none ∨
          (∃ c, vmParams.WorkingSet.Commitment = some c ∧ feat.ExpirySlot ≥ c.Slot) ∨
          vmParams.WorkingSet.BIC accountID = none ∨
          ∃ bic, vmParams.WorkingSet.BIC accountID = some bic ∧ bic < 0)) ∨
      (∃ stakingFeat, current.Staking = some stakingFeat ∧
        (vmParams.WorkingSet.Commitment = none ∨
          ∃ c, vmParams.WorkingSet.Commitment = some c ∧
            vmParams.API.TimeProvider.EpochFromSlot (vmParams.FutureBoundedSlotIndex c.Slot)
              ≤ stakingFeat.EndEpoch))) →
      ∃ flag, accountDestructionValid vmParams input isRemovingStakingFeature
        = some (none, flag)) := by
  unfold accountDestructionValid accountBlockIssuanceCreditLocked
  simp only [hout, hid]
  cases hcap : vmParams.WorkingSet.Tx.Capabilities.CannotDestroyAccountOutputs
  · cases hbi : current.BlockIssuer with
    | none =>
      cases hst : current.Staking with
      | none => simp
      | some stakingFeat =>
        cases hc : vmParams.WorkingSet.Commitment with
        | none => simp
        | some c =>
          by_cases hb : vmParams.API.TimeProvider.EpochFromSlot
              (vmParams.FutureBoundedSlotIndex c.Slot) ≤ stakingFeat.EndEpoch
          · simp [hb]
          · simp [hb]
    | some feat =>
      cases hc : vmParams.WorkingSet.Commitment with
      | none => simp
      | some c =>
        by_cases hexp : feat.ExpirySlot ≥ c.Slot
        · simp [hexp]
        · cases hbic : vmParams.WorkingSet.BIC accountID with
          | none => simp [hexp]
          | some bic =>
            by_cases hneg : bic < 0
            · simp [hexp, hneg]
            · cases hst : current.Staking with
              | none => simp [hexp, hneg]
              | some stakingFeat =>
                by_cases hb : vmParams.API.TimeProvider.EpochFromSlot
                    (vmParams.FutureBoundedSlotIndex c.Slot) ≤ stakingFeat.EndEpoch
                · simp [hexp, hneg, hb]
                · simp [hexp, hneg, hb]
  · simp

/-- Witness of `accountDestructionValid_iff`: account 7 with a block-issuer feature
expired in slot 50, a BIC entry of 0 and a staking feature that ended in epoch
5 is destroyed with the commitment of slot 100 (future-bounded epoch 12). -/
theorem accountDestructionValid_iff_witness :
    (accountDestructionValid
        (exampleParams 4 2 (some ⟨100⟩) (fun _ => some 0) (fun _ => none) [] 0 0)
        (exampleAccountInput ⟨1000, 0, 7, 0, some ⟨[1], 50⟩, some ⟨500, 1, 2, 5⟩, []⟩)
        false).map Prod.fst = some none :=
  match (accountDestructionValid_iff
      (exampleParams 4 2 (some ⟨100⟩) (fun _ => some 0) (fun _ => none) [] 0 0)
      (exampleAccountInput ⟨1000, 0, 7, 0, some ⟨[1], 50⟩, some ⟨500, 1, 2, 5⟩, []⟩)
      ⟨1000, 0, 7, 0, some ⟨[1], 50⟩, some ⟨500, 1, 2, 5⟩, []⟩ 7 false rfl rfl).2
      (by
        rintro (h | ⟨feat, hf, h⟩ | ⟨stakingFeat, hs, h⟩)
        · exact absurd h (by decide)
        · cases hf
          rcases h with h | ⟨c, hc, h⟩ | h | ⟨bic, hb, h⟩
          · exact absurd h (by decide)
          · cases hc
            exact absurd h (by decide)
          · exact absurd h (by decide)
          · cases hb
            exact absurd h (by decide)
        · cases hs
          rcases h with h | ⟨c, hc, h⟩
          · exact absurd h (by decide)
          · cases hc
            exact absurd h (by decide)) with
  | ⟨_, h⟩ => by rw [h]; rfl

/-! ## Block-issuer features need a commitment -/

/-- Without a commitment the block-issuer check of a state change fails as soon
as one side has a block-issuer feature. -/
theorem accountBlockIssuerSTVF_no_commitment (vmParams : Params) (input : ChainOutputWithIDs)
    (currentBlockIssuerFeat : Option BlockIssuerFeature) (next : AccountOutput)
    (hnone : vmParams.WorkingSet.Commitment = none)
    (hfeat : currentBlockIssuerFeat ≠ none ∨ next.BlockIssuer ≠ none) :
    accountBlockIssuerSTVF vmParams input currentBlockIssuerFeat next
      = some Error.ErrInvalidBlockIssuerTransition := by
  unfold accountBlockIssuerSTVF
  simp only []
  rw [if_neg (by tauto)]
  simp [hnone]

/-- Without a commitment a state change of an account fails as soon as one side
has a block-issuer feature. -/
theorem accountStateChangeValid_no_commitment (vmParams : Params) (input : ChainOutputWithIDs)
    (current next : AccountOutput) (isRemovingStakingFeature : Bool)
    (hout : input.Output = Output.Account current)
    (hnone : vmParams.WorkingSet.Commitment = none)
    (hfeat : current.BlockIssuer ≠ none ∨ next.BlockIssuer ≠ none) :
    ∃ err flag, accountStateChangeValid vmParams input next isRemovingStakingFeature
      = some (some err, flag) := by
  unfold accountStateChangeValid
  simp only [hout, accountBlockIssuerSTVF_no_commitment vmParams input current.BlockIssuer next
    hnone hfeat]
  by_cases himm : current.ImmutableFeatures ≠ next.ImmutableFeatures
  · rw [if_pos himm]
    exact ⟨_, _, rfl⟩
  · rw [if_neg himm]
    generalize (if current.BlockIssuer ≠ none then
      accountBlockIssuanceCreditLocked input vmParams.WorkingSet.BIC else none) = lock
    cases lock with
    | some err => exact ⟨_, _, rfl⟩
    | none =>
      generalize accountStakingSTVF vmParams current next isRemovingStakingFeature = staking
      rcases staking with ⟨_ | err, flag⟩
      · generalize accountFoundryCounterSTVF vmParams current next = counter
        cases counter with
        | some err => exact ⟨_, _, rfl⟩
        | none => exact ⟨_, _, rfl⟩
      · exact ⟨_, _, rfl⟩

/-- C25: when the working set has no commitment, `accountSTVF` returns an error
for every Genesis whose created account has a block-issuer feature, for every
StateChange in which the consumed or the created account has one, and for
every Destroy of an account that has one; and when neither side of a state
change has a block-issuer feature, `accountBlockIssuerSTVF` accepts whatever
the commitment and the BIC entries of the working set are. -/
theorem accountSTVF_block_issuer_needs_commitment (vmParams : Params)
    (hnone : vmParams.WorkingSet.Commitment = none) :
    (∀ (input : Option ChainOutputWithIDs) (next : AccountOutput),
      next.BlockIssuer ≠ none →
      ∃ err, accountSTVF vmParams input ChainTransitionType.Genesis (some next)
        = some (some err)) ∧
    (∀ (input : ChainOutputWithIDs) (current next : AccountOutput),
      input.Output = Output.Account current →
      (current.BlockIssuer ≠ none ∨ next.BlockIssuer ≠ none) →
      ∃ err, accountSTVF vmParams (some input) ChainTransitionType.StateChange (some next)
        = some (some err)) ∧
    (∀ (input : ChainOutputWithIDs) (current : AccountOutput) (next : Option AccountOutput),
      input.Output = Output.Account current →
      current.BlockIssuer ≠ none →
      ∃ err, accountSTVF vmParams (some input) ChainTransitionType.Destroy next
        = some (some err)) ∧
    (∀ (anyParams : Params) (input : ChainOutputWithIDs) (next : AccountOutput),
      next.BlockIssuer = none →
      accountBlockIssuerSTVF anyParams input none next = none) := by
  refine ⟨?_, ?_, ?_, ?_⟩
  · intro input next hbi
    have hgen : ∃ err, accountGenesisValid vmParams next true = some err := by
      unfold accountGenesisValid
      by_cases hzero : (true = true) ∧ next.AccountID ≠ 0
      · rw [if_pos hzero]
        exact ⟨_, rfl⟩
      · rw [if_neg hzero]
        cases hf : next.BlockIssuer with
        | none => exact absurd hf hbi
        | some feat =>
          simp only [hnone]
          exact ⟨_, rfl⟩
    obtain ⟨err, herr⟩ := hgen
    refine ⟨err, ?_⟩
    unfold accountSTVF
    simp only [herr]
  · intro input current next hout hfeat
    obtain ⟨err, flag, herr⟩ :=
      accountStateChangeValid_no_commitment vmParams input current next false hout hnone hfeat
    refine ⟨err, ?_⟩
    unfold accountSTVF
    simp only [herr]
  · intro input current next hout hbi
    have hdes : ∃ err flag, accountDestructionValid vmParams input false
        = some (some err, flag) := by
      unfold accountDestructionValid
      simp only [hout]
      cases hcap : vmParams.WorkingSet.Tx.Capabilities.CannotDestroyAccountOutputs with
      | true => exact ⟨_, _, rfl⟩
      | false =>
        cases hf : current.BlockIssuer with
        | none => exact absurd hf hbi
        | some feat =>
          simp only [hnone]
          exact ⟨Error.ErrInvalidBlockIssuerTransition, false, by simp⟩
    obtain ⟨err, flag, herr⟩ := hdes
    refine ⟨err, ?_⟩
    unfold accountSTVF
    simp only [herr, hout]
  · intro anyParams input next hbi
    unfold accountBlockIssuerSTVF
    simp [hbi]

/-- Witness of `accountSTVF_block_issuer_needs_commitment`: without a commitment
the genesis of an account with a block-issuer feature and a zeroed account ID
is not accepted. -/
theorem accountSTVF_block_issuer_needs_commitment_witness :
    accountSTVF (exampleParams 4 2 none (fun _ => some 0) (fun _ => none) [] 0 0) none
        ChainTransitionType.Genesis (some ⟨1000, 0, 0, 0, some ⟨[1], 500⟩, none, []⟩)
      ≠ some none :=
  match (accountSTVF_block_issuer_needs_commitment
      (exampleParams 4 2 none (fun _ => some 0) (fun _ => none) [] 0 0) rfl).1 none
      ⟨1000, 0, 0, 0, some ⟨[1], 500⟩, none, []⟩ (by decide) with
  | ⟨_, h⟩ => by rw [h]; simp

/-! ## The execution entry point -/

/-- The copy loop of `Execute` fills the slots from index `done.length` on with
the remaining outputs, in order. -/
theorem copyOutputs_eq : ∀ (rest done : List Output),
    copyOutputs (done.map some ++ List.replicate rest.length none) done.length rest
      = (done ++ rest).map some := by
  intro rest
  induction rest with
  | nil =>
    intro done
    simp [copyOutputs]
  | cons output rest ih =>
    intro done
    rw [copyOutputs]
    have hset : (done.map some ++ List.replicate (output :: rest).length none).set done.length
        (some output)
        = (done ++ [output]).map some ++ List.replicate rest.length none := by
      rw [List.set_append_right _ _ (by simp)]
      simp [List.replicate_succ]
    have hlen : done.length + 1 = (done ++ [output]).length := by simp
    rw [hset, hlen, ih (done ++ [output])]
    simp

/-- The outputs `Execute` returns on success are the outputs of the transaction. -/
theorem copyOutputs_replicate (outputs : List Output) :
    copyOutputs (List.replicate outputs.length none) 0 outputs = outputs.map some := by
  have h := copyOutputs_eq outputs []
  simpa using h

/-- C28: `Execute` produces no partial results: it returns either an error with a
nil output list (when the construction of the working set fails or an exec
function fails) or no error with a list equal to the outputs of the
transaction, of the same length and in the same order; it runs the exec
functions of the caller when at least one is given and the default list of
the VM only when none is given. -/
theorem Execute_spec (novaVM : VirtualMachine)
    (newVMParamsWorkingSet : Except Error WorkingSet)
    (withUnlockedIdents : WorkingSet → Params) (transaction : Transaction)
    (execFunctions : List ExecFunc) :
    ((∃ err, Execute novaVM newVMParamsWorkingSet withUnlockedIdents transaction execFunctions
        = (none, some err)) ∨
      Execute novaVM newVMParamsWorkingSet withUnlockedIdents transaction execFunctions
        = (some (transaction.Outputs.map some), none)) ∧
    (Execute novaVM newVMParamsWorkingSet withUnlockedIdents transaction execFunctions
        = (some (transaction.Outputs.map some), none) ↔
      ∃ workingSet, newVMParamsWorkingSet = Except.ok workingSet ∧
        RunVMFuncs (withUnlockedIdents workingSet)
          (if execFunctions.length = 0 then novaVM.execList else execFunctions) = none) ∧
    (∀ err, newVMParamsWorkingSet = Except.error err →
      Execute novaVM newVMParamsWorkingSet withUnlockedIdents transaction execFunctions
        = (none, some err)) ∧
    (∀ workingSet err, newVMParamsWorkingSet = Except.ok workingSet →
      RunVMFuncs (withUnlockedIdents workingSet)
        (if execFunctions.length = 0 then novaVM.execList else execFunctions) = some err →
      Execute novaVM newVMParamsWorkingSet withUnlockedIdents transaction execFunctions
        = (none, some err)) ∧
    (execFunctions.length ≠ 0 → ∀ otherVM : VirtualMachine,
      Execute novaVM newVMParamsWorkingSet withUnlockedIdents transaction execFunctions
        = Execute otherVM newVMParamsWorkingSet withUnlockedIdents transaction execFunctions) ∧
    Execute novaVM newVMParamsWorkingSet withUnlockedIdents transaction []
      = Execute novaVM newVMParamsWorkingSet withUnlockedIdents transaction novaVM.execList ∧
    (transaction.Outputs.map some).length = transaction.Outputs.length := by
  refine ⟨?_, ?_, ?_, ?_, ?_, ?_, ?_⟩
  · unfold Execute
    cases newVMParamsWorkingSet with
    | error err => exact Or.inl ⟨err, rfl⟩
    | ok workingSet =>
      simp only []
      cases hrun : RunVMFuncs (withUnlockedIdents workingSet)
          (if execFunctions.length = 0 then novaVM.execList else execFunctions) with
      | some err => exact Or.inl ⟨err, rfl⟩
      | none =>
        right
        simp only [copyOutputs_replicate]
  · unfold Execute
    cases newVMParamsWorkingSet with
    | error err => simp
    | ok workingSet =>
      simp only []
      cases hrun : RunVMFuncs (withUnlockedIdents workingSet)
          (if execFunctions.length = 0 then novaVM.execList else execFunctions) with
      | some err => simp [hrun]
      | none => simp [hrun, copyOutputs_replicate]
  · intro err herr
    unfold Execute
    rw [herr]
  · intro workingSet err hws hrun
    unfold Execute
    rw [hws]
    simp only [hrun]
  · intro hlen otherVM
    unfold Execute
    simp only [if_neg hlen]
  · unfold Execute
    cases newVMParamsWorkingSet with
    | error err => rfl
    | ok workingSet =>
      by_cases hlen : novaVM.execList.length = 0
      · have hnil : novaVM.execList = [] := List.length_eq_zero.mp hlen
        simp [hnil]
      · simp [hlen]
  · simp

/-- Witness of `Execute_spec`: the default list of a VM whose seven exec functions
accept is run when the caller gives none, and the two outputs of the
transaction are returned in order. -/
theorem Execute_spec_witness :
    Execute
        (NewVirtualMachine (fun _ => none) (fun _ => none) (fun _ => none) (fun _ => none)
          (fun _ => none) (fun _ => none) (fun _ => none))
        (Except.ok (exampleParams 4 2 none (fun _ => none) (fun _ => none) [] 0 0).WorkingSet)
        (fun workingSet =>
          { exampleParams 4 2 none (fun _ => none) (fun _ => none) [] 0 0 with
            WorkingSet := workingSet })
        (exampleTransaction [Output.Basic ⟨10, 0⟩, Output.Foundry (exampleFoundry 1)]) []
      = (some [some (Output.Basic ⟨10, 0⟩), some (Output.Foundry (exampleFoundry 1))], none) :=
  ((Execute_spec
      (NewVirtualMachine (fun _ => none) (fun _ => none) (fun _ => none) (fun _ => none)
        (fun _ => none) (fun _ => none) (fun _ => none))
      (Except.ok (exampleParams 4 2 none (fun _ => none) (fun _ => none) [] 0 0).WorkingSet)
      (fun workingSet =>
        { exampleParams 4 2 none (fun _ => none) (fun _ => none) [] 0 0 with
          WorkingSet := workingSet })
      (exampleTransaction [Output.Basic ⟨10, 0⟩, Output.Foundry (exampleFoundry 1)])
      []).2.1).mpr ⟨_, rfl, rfl⟩

/-- An exec function of the caller that fails makes `Execute` return its error and
no outputs, although the default list of the VM accepts. -/
theorem Execute_caller_functions_run :
    Execute
        (NewVirtualMachine (fun _ => none) (fun _ => none) (fun _ => none) (fun _ => none)
          (fun _ => none) (fun _ => none) (fun _ => none))
        (Except.ok (exampleParams 4 2 none (fun _ => none) (fun _ => none) [] 0 0).WorkingSet)
        (fun workingSet =>
          { exampleParams 4 2 none (fun _ => none) (fun _ => none) [] 0 0 with
            WorkingSet := workingSet })
        (exampleTransaction [Output.Basic ⟨10, 0⟩])
        [fun _ => none, fun _ => some Error.ErrInvalidFeatureTransition, fun _ => some Error.New]
      = (none, some Error.ErrInvalidFeatureTransition) := by
  rfl

/-! ## Decay never increases mana -/

/-- The merged value is a 64-bit value. -/
theorem mergeUint64_lt (hi lo : Nat) (hlo : lo < 2 ^ 64) : mergeUint64 hi lo < 2 ^ 64 := by
  unfold mergeUint64
  apply Nat.or_lt_two_pow _ hlo
  unfold shl64
  rw [if_pos (by norm_num)]
  exact Nat.mod_lt _ (by norm_num)

/-- The result of `fixedPointMultiplication32` is a 64-bit value. -/
theorem fixedPointMultiplication32_lt (value factor scale : Nat) :
    fixedPointMultiplication32 value factor scale < 2 ^ 64 := by
  unfold fixedPointMultiplication32 fixedPointMultiplication32Splitted
  apply mergeUint64_lt
  simp only []
  rw [and_mask32]
  have := Nat.mod_lt (add64
    (shl64 (mul64 (splitUint64 value).1 factor &&& sub64 (shl64 1 scale) 1) (sub64 32 scale))
    (shr64 (mul64 (splitUint64 value).2 factor) scale)) (by norm_num : 0 < 2 ^ 32)
  omega

/-- With factors of at most `2^decayFactorsShiftFactor` and a shift factor of at
most 32, `decay` never returns more than the 64-bit value it is given. -/
theorem decay_le (p : ManaDecayProvider) (hWF : p.WellFormed)
    (hs : p.decayFactorsShiftFactor ≤ 32)
    (hf : ∀ f ∈ p.decayFactors, f ≤ 2 ^ p.decayFactorsShiftFactor)
    (v d : Nat) (hv : v < 2 ^ 64) : decay p v d ≤ v := by
  by_cases h0 : v = 0 ∨ d = 0 ∨ p.decayFactorsLength = 0
  · unfold decay
    rw [if_pos h0]
  · have hsplit := split_merge hv
    have hsplit1 : (splitUint64 v).1 < 2 ^ 32 := by rw [hsplit]; simp only []; omega
    have hsplit2 : (splitUint64 v).2 < 2 ^ 32 := by rw [hsplit]; simp only []; omega
    have hval : (splitUint64 v).1 * 2 ^ 32 + (splitUint64 v).2 = v := by
      rw [hsplit]; simp only []; omega
    obtain ⟨r1, r2, r3⟩ := decayLoop_le p hWF hs hf d (splitUint64 v).1 (splitUint64 v).2 d
      hsplit1 hsplit2
    rw [decay_eq_loop p v d (fun h => h0 (Or.inl h)) (fun h => h0 (Or.inr (Or.inl h)))
      (fun h => h0 (Or.inr (Or.inr h))), mergeUint64_eq r2,
      Nat.mod_eq_of_lt r1]
    omega

/-- C31: if `decayFactorsShiftFactor ≤ 32` and every decay factor is at most
`2^decayFactorsShiftFactor`, then `decay(v, d) ≤ v` for every 64-bit value `v`
and every epoch difference `d`, and `StoredManaWithDecay` and
`RewardsWithDecay` never return more than their input. -/
theorem decay_never_increases (p : ManaDecayProvider) (hWF : p.WellFormed)
    (hs : p.decayFactorsShiftFactor ≤ 32)
    (hf : ∀ f ∈ p.decayFactors, f ≤ 2 ^ p.decayFactorsShiftFactor)
    (v : Nat) (hv : v < 2 ^ 64) :
    (∀ d, decay p v d ≤ v) ∧
    (∀ slotIndexCreated slotIndexTarget,
      (StoredManaWithDecay p v slotIndexCreated slotIndexTarget).1 ≤ v) ∧
    (∀ rewardEpochIndex epochIndexClaimed,
      (RewardsWithDecay p v rewardEpochIndex epochIndexClaimed).1 ≤ v) := by
  refine ⟨fun d => decay_le p hWF hs hf v d hv, ?_, ?_⟩
  · intro slotIndexCreated slotIndexTarget
    unfold StoredManaWithDecay
    simp only []
    split_ifs
    · exact Nat.zero_le _
    · exact decay_le p hWF hs hf v _ hv
  · intro rewardEpochIndex epochIndexClaimed
    unfold RewardsWithDecay
    split_ifs
    · exact Nat.zero_le _
    · exact decay_le p hWF hs hf v _ hv

/-- Witness of `decay_never_increases`: the table `[⌊2^32·2/3⌋, ⌊2^32·4/9⌋]` with
shift factor 32 and the value 1000 over 3 epochs. -/
theorem decay_never_increases_witness :
    decay twoThirdsProvider 1000 3 ≤ 1000 :=
  (decay_never_increases twoThirdsProvider
    ⟨rfl, by decide, by decide, by decide, by decide, by decide, by decide, by decide⟩
    (by decide) (by decide) 1000 (by norm_num)).1 3

/-! ## Decay across whole table lengths and the closed form without underflow -/

/-- Decaying over `k` whole table lengths and then over `b` further epochs is
decaying over `k · decayFactorsLength + b` epochs at once. -/
theorem decay_multiple_add (p : ManaDecayProvider) (hWF : p.WellFormed)
    (hs : p.decayFactorsShiftFactor ≤ 32)
    (hf : ∀ f ∈ p.decayFactors, f ≤ 2 ^ p.decayFactorsShiftFactor)
    (v k b : Nat) (hv : v < 2 ^ 64) (hd : k * p.decayFactorsLength + b < 2 ^ 64) :
    decay p v (k * p.decayFactorsLength + b)
      = decay p (decay p v (k * p.decayFactorsLength)) b := by
  by_cases hv0 : v = 0
  · subst hv0; simp [decay]
  by_cases hL0 : p.decayFactorsLength = 0
  · simp [decay, hL0]
  by_cases ha : k * p.decayFactorsLength = 0
  · rw [ha]; simp [decay]
  by_cases hb : b = 0
  · subst hb; simp [decay]
  have hsplit1 : (splitUint64 v).1 < 2 ^ 32 := by rw [split_merge hv]; simp only []; omega
  have hsplit2 : (splitUint64 v).2 < 2 ^ 32 := by rw [split_merge hv]; simp only []; omega
  obtain ⟨r1, r2, _⟩ := decayLoop_le p hWF hs hf (k * p.decayFactorsLength)
    (splitUint64 v).1 (splitUint64 v).2 (k * p.decayFactorsLength) hsplit1 hsplit2
  rw [decay_eq_loop p v (k * p.decayFactorsLength + b) hv0 (by omega) hL0,
    decayLoop_multiple_add p (by omega) k _ _ b hd,
    decay_eq_loop p v (k * p.decayFactorsLength) hv0 ha hL0]
  by_cases hm : mergeUint64
      (decayLoop p (k * p.decayFactorsLength) (splitUint64 v).1 (splitUint64 v).2
        (k * p.decayFactorsLength)).1
      (decayLoop p (k * p.decayFactorsLength) (splitUint64 v).1 (splitUint64 v).2
        (k * p.decayFactorsLength)).2 = 0
  · have hz := hm
    rw [mergeUint64_eq r2, Nat.mod_eq_of_lt r1] at hz
    obtain ⟨_, q2, q3⟩ := decayLoop_le p hWF hs hf b 0 0 b (by norm_num) (by norm_num)
    have hdec : decay p 0 b = 0 := by simp [decay]
    have z1 : (decayLoop p (k * p.decayFactorsLength) (splitUint64 v).1 (splitUint64 v).2
        (k * p.decayFactorsLength)).1 = 0 := by omega
    have z2 : (decayLoop p (k * p.decayFactorsLength) (splitUint64 v).1 (splitUint64 v).2
        (k * p.decayFactorsLength)).2 = 0 := by omega
    rw [hm, hdec, z1, z2, mergeUint64_eq q2]
    omega
  · rw [decay_eq_loop p _ b hm hb hL0, splitUint64_mergeUint64 r1 r2]

/-- C32: decay composes across whole table lengths: if
`decayFactorsShiftFactor ≤ 32` and every decay factor is at most
`2^decayFactorsShiftFactor`, then for a table of length `L`, every 64-bit
value `v`, every `k` and every `b` (with `k · L + b` a 64-bit epoch difference):
`decay(v, k·L + b) = decay(decay(v, k·L), b)`; this covers every `L > 0`, and
for the empty table both sides are `v`. -/
theorem decay_composes_across_table_lengths (p : ManaDecayProvider) (L : Nat)
    (hWF : p.WellFormed) (hs : p.decayFactorsShiftFactor ≤ 32)
    (hf : ∀ f ∈ p.decayFactors, f ≤ 2 ^ p.decayFactorsShiftFactor)
    (hlen : p.decayFactors.length = L)
    (v k b : Nat) (hv : v < 2 ^ 64) (hd : k * L + b < 2 ^ 64) :
    decay p v (k * L + b) = decay p (decay p v (k * L)) b := by
  have hpL : p.decayFactorsLength = L := by rw [hWF.1, hlen]
  rw [← hpL] at hd ⊢
  exact decay_multiple_add p hWF hs hf v k b hv hd

/-- Witness of `decay_composes_across_table_lengths`: the halving table
`[2^31, 2^30]` of length 2, the value `2^40`, `k = 2` whole table lengths and
`b = 1`. -/
theorem decay_composes_across_table_lengths_witness :
    decay halvingProvider (2 ^ 40) (2 * 2 + 1)
      = decay halvingProvider (decay halvingProvider (2 ^ 40) (2 * 2)) 1 :=
  decay_composes_across_table_lengths halvingProvider 2
    ⟨rfl, by decide, by decide, by decide, by decide, by decide, by decide, by decide⟩
    (by decide) (by decide) rfl (2 ^ 40) 2 1 (by norm_num) (by norm_num)

/-- C33: in the branch of `PotentialManaWithDecay` for an epoch difference
`n ≥ 2`, with `gen1`, `gen2` the mana generated before the next epoch and since
the start of the target epoch and `c` the closed-form constant: if
`decayFactorsShiftFactor ≤ 32`, every decay factor is at most
`2^decayFactorsShiftFactor` and the natural-number sum
`decay(gen1, n) + gen2 + (c - decay(c, n-1))` is below `2^64`, then
`c ≥ decay(c, n-1)`, the returned value is that sum, and it is at least
`decay(gen1, n) + gen2`, wherever the intermediate subtraction wraps. -/
theorem PotentialManaWithDecay_no_underflow (p : ManaDecayProvider)
    (deposit created target n gen1 gen2 c : Nat)
    (hWF : p.WellFormed) (hs : p.decayFactorsShiftFactor ≤ 32)
    (hf : ∀ f ∈ p.decayFactors, f ≤ 2 ^ p.decayFactorsShiftFactor)
    (hT : p.timeProvider.EpochsFromSlot target < 2 ^ 64)
    (hn : p.timeProvider.EpochsFromSlot target = p.timeProvider.EpochsFromSlot created + n)
    (hn2 : 2 ≤ n)
    (hgen1 : gen1 = generateMana p deposit (p.timeProvider.SlotsBeforeNextEpoch created))
    (hgen2 : gen2 = generateMana p deposit (p.timeProvider.SlotsSinceEpochStart target))
    (hc : c = fixedPointMultiplication32 deposit p.decayFactorEpochsSum
      (sub64 (add64 p.decayFactorEpochsSumShiftFactor p.generationRateShiftFactor)
        p.slotsPerEpochShiftFactor))
    (hsum : decay p gen1 n + gen2 + (c - decay p c (n - 1)) < 2 ^ 64) :
    decay p c (n - 1) ≤ c ∧
    PotentialManaWithDecay p deposit created target
      = (decay p gen1 n + gen2 + (c - decay p c (n - 1)), none) ∧
    decay p gen1 n + gen2 ≤ (PotentialManaWithDecay p deposit created target).1 := by
  have hc64 : c < 2 ^ 64 := by rw [hc]; exact fixedPointMultiplication32_lt _ _ _
  have hle : decay p c (n - 1) ≤ c := decay_le p hWF hs hf c (n - 1) hc64
  have hsub : sub64 (p.timeProvider.EpochsFromSlot target)
      (p.timeProvider.EpochsFromSlot created) = n := by
    rw [sub64_eq (by omega) hT]; omega
  have hres : PotentialManaWithDecay p deposit created target
      = (decay p gen1 n + gen2 + (c - decay p c (n - 1)), none) := by
    unfold PotentialManaWithDecay
    simp only []
    rw [if_neg (by omega), hsub]
    obtain ⟨m, rfl⟩ : ∃ m, n = m + 2 := ⟨n - 2, by omega⟩
    have h1 : sub64 (m + 2) 1 = m + 2 - 1 := sub64_eq (by omega) (by omega)
    simp only [h1, ← hgen1, ← hgen2, ← hc]
    have hval : add64 (sub64 (decay p gen1 (m + 2)) (decay p c (m + 2 - 1))) (add64 gen2 c)
        = decay p gen1 (m + 2) + gen2 + (c - decay p c (m + 2 - 1)) := by
      unfold add64 sub64
      omega
    rw [hval]
  refine ⟨hle, hres, ?_⟩
  rw [hres]
  simp only []
  omega

/-- Witness of `PotentialManaWithDecay_no_underflow`: the halving configuration,
deposit `2^20`, created slot 3 (epoch 0) and target slot 37 (epoch 4): here
`decay(gen1, 4) = 320` is below `decay(c, 3) = 1024`, so the intermediate
subtraction wraps, and the result is `320 + 5120 + (8192 - 1024) = 12608`. -/
theorem PotentialManaWithDecay_no_underflow_witness :
    decay halvingProvider 5120 4 < decay halvingProvider 8192 (4 - 1) ∧
    PotentialManaWithDecay halvingProvider (2 ^ 20) 3 37
      = (decay halvingProvider 5120 4 + 5120
          + (8192 - decay halvingProvider 8192 (4 - 1)), none) ∧
    decay halvingProvider 5120 4 + 5120 + (8192 - decay halvingProvider 8192 (4 - 1))
      = 12608 :=
  ⟨by decide,
    (PotentialManaWithDecay_no_underflow halvingProvider (2 ^ 20) 3 37 4 5120 5120 8192
      ⟨rfl, by decide, by decide, by decide, by decide, by decide, by decide, by decide⟩
      (by decide) (by decide) (by decide) (by decide) (by decide) (by decide) (by decide)
      (by decide) (by decide)).2.1,
    by decide⟩

/-! ## The serial numbers of the new foundries of an account -/

/-- A strictly increasing list of numbers that all lie in `(a, a + length]` is the
list `a + 1, a + 2, ..., a + length`. -/
theorem increasing_in_interval_eq_range (l : List Nat) :
    ∀ a, l.Pairwise (· < ·) → (∀ x ∈ l, a < x ∧ x ≤ a + l.length) →
      l = List.range' (a + 1) l.length := by
  induction l with
  | nil => intro a _ _; rfl
  | cons x t ih =>
    intro a hp hb
    rw [List.pairwise_cons] at hp
    have hx := hb x (List.mem_cons_self x t)
    rw [List.length_cons] at hx
    have ht : t = List.range' (x + 1) t.length := by
      apply ih x hp.2
      intro y hy
      have hy2 := (hb y (List.mem_cons_of_mem x hy)).2
      rw [List.length_cons] at hy2
      exact ⟨hp.1 y hy, by omega⟩
    have hxa : x = a + 1 := by
      by_cases hlen : t.length = 0
      · omega
      · have hmem : x + t.length ∈ List.range' (x + 1) t.length := by
          rw [List.mem_range'_1]; omega
        rw [← ht] at hmem
        have := (hb _ (List.mem_cons_of_mem x hmem)).2
        rw [List.length_cons] at this
        omega
    rw [List.length_cons, List.range'_succ, ← hxa, ← ht]

/-- C34: if the state change of an account passes `accountFoundryCounterSTVF`,
every new foundry output owned by that account passes
`foundrySerialNumberValid`, and the new foundries have pairwise distinct
foundry IDs, then the serial numbers of the new foundries of the account, in
output-list order, are exactly `current.FoundryCounter + 1, ...,
next.FoundryCounter`, and there is none when the counter is unchanged
(32-bit counters and fewer than `2^32` outputs). -/
theorem new_foundry_serials_consecutive (vmParams : Params) (current next : AccountOutput)
    (hcurrent : current.FoundryCounter < 2 ^ 32) (hnext : next.FoundryCounter < 2 ^ 32)
    (houtputs : vmParams.WorkingSet.Tx.Outputs.length < 2 ^ 32)
    (hcounter : accountFoundryCounterSTVF vmParams current next = none)
    (hvalid : ∀ f ∈ newFoundriesOfAccount vmParams next.AccountID
        vmParams.WorkingSet.Tx.Outputs,
      foundrySerialNumberValid vmParams f current next f.MustFoundryID = none)
    (hdistinct : ((newFoundriesOfAccount vmParams next.AccountID
      vmParams.WorkingSet.Tx.Outputs).map FoundryOutput.MustFoundryID).Nodup) :
    (newFoundriesOfAccount vmParams next.AccountID vmParams.WorkingSet.Tx.Outputs).map
        FoundryOutput.SerialNumber
      = List.range' (current.FoundryCounter + 1)
          (next.FoundryCounter - current.FoundryCounter) ∧
    (current.FoundryCounter = next.FoundryCounter →
      newFoundriesOfAccount vmParams next.AccountID vmParams.WorkingSet.Tx.Outputs = []) := by
  have hint : ∀ f ∈ newFoundriesOfAccount vmParams next.AccountID
      vmParams.WorkingSet.Tx.Outputs,
      current.FoundryCounter < f.SerialNumber ∧ f.SerialNumber ≤ next.FoundryCounter ∧
      foundrySerialOrderLoop vmParams f f.MustFoundryID vmParams.WorkingSet.Tx.Outputs
        = none := by
    intro f hf
    have h := hvalid f hf
    unfold foundrySerialNumberValid foundrySerialInInterval at h
    simp only [] at h
    by_cases hout : current.FoundryCounter ≥ f.SerialNumber ∨
        f.SerialNumber > next.FoundryCounter
    · rw [if_pos hout] at h
      cases h
    · rw [if_neg hout] at h
      exact ⟨by omega, by omega, h⟩
  have hpair := (foundrySerialOrderLoop_all_iff vmParams next.AccountID _ hdistinct).mp
    (fun f hf => (hint f hf).2.2)
  have hlen := newFoundriesOfAccount_length_le vmParams next.AccountID
    vmParams.WorkingSet.Tx.Outputs
  have hcount : current.FoundryCounter = next.FoundryCounter ∨
      (current.FoundryCounter < next.FoundryCounter ∧
        next.FoundryCounter - current.FoundryCounter
          = (newFoundriesOfAccount vmParams next.AccountID
              vmParams.WorkingSet.Tx.Outputs).length) := by
    unfold accountFoundryCounterSTVF at hcounter
    simp only [] at hcounter
    rw [seenNewFoundriesOfAccount_eq vmParams next.AccountID _ 0 (by norm_num)] at hcounter
    by_cases hgt : current.FoundryCounter > next.FoundryCounter
    · rw [if_pos hgt] at hcounter
      cases hcounter
    · rw [if_neg hgt] at hcounter
      by_cases heq : current.FoundryCounter = next.FoundryCounter
      · exact Or.inl heq
      · rw [if_neg heq] at hcounter
        right
        by_cases hne : sub32 next.FoundryCounter current.FoundryCounter
            ≠ (0 + (newFoundriesOfAccount vmParams next.AccountID
              vmParams.WorkingSet.Tx.Outputs).length) % 2 ^ 32
        · rw [if_pos hne] at hcounter
          cases hcounter
        · unfold sub32 at hne
          omega
  have hempty : current.FoundryCounter = next.FoundryCounter →
      newFoundriesOfAccount vmParams next.AccountID vmParams.WorkingSet.Tx.Outputs = [] := by
    intro heq
    apply List.eq_nil_iff_forall_not_mem.mpr
    intro f hf
    have := hint f hf
    omega
  refine ⟨?_, hempty⟩
  rcases hcount with heq | ⟨hlt, hdiff⟩
  · rw [hempty heq, heq, Nat.sub_self]
    rfl
  · rw [hdiff]
    have hlenmap : ((newFoundriesOfAccount vmParams next.AccountID
        vmParams.WorkingSet.Tx.Outputs).map FoundryOutput.SerialNumber).length
        = (newFoundriesOfAccount vmParams next.AccountID
            vmParams.WorkingSet.Tx.Outputs).length := List.length_map _ _
    rw [← hlenmap]
    apply increasing_in_interval_eq_range _ _ hpair
    intro x hx
    obtain ⟨f, hf, rfl⟩ := List.mem_map.mp hx
    have := hint f hf
    rw [hlenmap]
    omega

/-- Witness of `new_foundry_serials_consecutive`: the counter of account 7 goes
from 2 to 4 and the outputs hold the new foundries 3 and 4 of that account, in
that order. -/
theorem new_foundry_serials_consecutive_witness :
    (newFoundriesOfAccount
        (exampleParams 4 2 none (fun _ => none) (fun _ => none)
          [Output.Foundry (exampleFoundry 3), Output.Basic ⟨10, 0⟩,
            Output.Foundry (exampleFoundry 4)] 0 0) 7
        [Output.Foundry (exampleFoundry 3), Output.Basic ⟨10, 0⟩,
          Output.Foundry (exampleFoundry 4)]).map FoundryOutput.SerialNumber
      = List.range' (2 + 1) (4 - 2) :=
  (new_foundry_serials_consecutive
    (exampleParams 4 2 none (fun _ => none) (fun _ => none)
      [Output.Foundry (exampleFoundry 3), Output.Basic ⟨10, 0⟩,
        Output.Foundry (exampleFoundry 4)] 0 0)
    (exampleAccount 0 2) (exampleAccount 0 4) (by decide) (by decide) (by decide)
    (by decide) (by decide) (by decide)).1

/-! ## The expiry of block-issuer features -/

/-- C35: the block-issuer expiry rule of `accountBlockIssuerSTVF`, with a commitment
and a non-negative BIC entry present: a current feature with
`ExpirySlot >=` the commitment slot cannot be removed, and its expiry may only
be left unchanged or set to a value `>= pastBoundedSlot`; a feature that is
newly added, or kept after the current one has expired, is rejected iff its
`ExpirySlot < pastBoundedSlot`; removing an expired feature passes the rule. -/
theorem accountBlockIssuerExpiry_rule (vmParams : Params) (input : ChainOutputWithIDs)
    (currentBlockIssuerFeat : Option BlockIssuerFeature) (next : AccountOutput)
    (commitment : Commitment) (bic : Int)
    (hfeat : currentBlockIssuerFeat ≠ none ∨ next.BlockIssuer ≠ none)
    (hcommitment : vmParams.WorkingSet.Commitment = some commitment)
    (hbic : vmParams.WorkingSet.BIC next.AccountID = some bic) (hbic0 : 0 ≤ bic) :
    (∀ err, accountBlockIssuerExpiry currentBlockIssuerFeat next.BlockIssuer commitment.Slot
        (vmParams.PastBoundedSlotIndex commitment.Slot) = some err →
      accountBlockIssuerSTVF vmParams input currentBlockIssuerFeat next = some err) ∧
    (accountBlockIssuerExpiry currentBlockIssuerFeat next.BlockIssuer commitment.Slot
        (vmParams.PastBoundedSlotIndex commitment.Slot) = none →
      accountBlockIssuerSTVF vmParams input currentBlockIssuerFeat next
        = accountBlockIssuerMana vmParams input next
            (vmParams.PastBoundedSlotIndex commitment.Slot)) ∧
    (∀ currentFeat, currentBlockIssuerFeat = some currentFeat →
      currentFeat.ExpirySlot ≥ commitment.Slot →
      (next.BlockIssuer = none →
        accountBlockIssuerSTVF vmParams input currentBlockIssuerFeat next
          = some Error.ErrInvalidBlockIssuerTransition) ∧
      (∀ nextFeat, next.BlockIssuer = some nextFeat →
        (accountBlockIssuerExpiry currentBlockIssuerFeat next.BlockIssuer commitment.Slot
            (vmParams.PastBoundedSlotIndex commitment.Slot) = none ↔
          nextFeat.ExpirySlot = currentFeat.ExpirySlot ∨
            nextFeat.ExpirySlot ≥ vmParams.PastBoundedSlotIndex commitment.Slot))) ∧
    (∀ nextFeat, next.BlockIssuer = some nextFeat →
      (currentBlockIssuerFeat = none ∨
        ∃ currentFeat, currentBlockIssuerFeat = some currentFeat ∧
          currentFeat.ExpirySlot < commitment.Slot) →
      (accountBlockIssuerSTVF vmParams input currentBlockIssuerFeat next
          = some Error.ErrInvalidBlockIssuerTransition ∧
        accountBlockIssuerExpiry currentBlockIssuerFeat next.BlockIssuer commitment.Slot
          (vmParams.PastBoundedSlotIndex commitment.Slot)
          = some Error.ErrInvalidBlockIssuerTransition ↔
        nextFeat.ExpirySlot < vmParams.PastBoundedSlotIndex commitment.Slot)) ∧
    (∀ currentFeat, currentBlockIssuerFeat = some currentFeat →
      currentFeat.ExpirySlot < commitment.Slot → next.BlockIssuer = none →
      accountBlockIssuerExpiry currentBlockIssuerFeat next.BlockIssuer commitment.Slot
        (vmParams.PastBoundedSlotIndex commitment.Slot) = none) := by
  have hstvf : accountBlockIssuerSTVF vmParams input currentBlockIssuerFeat next
      = match accountBlockIssuerExpiry currentBlockIssuerFeat next.BlockIssuer commitment.Slot
          (vmParams.PastBoundedSlotIndex commitment.Slot) with
        | some err => some err
        | none => accountBlockIssuerMana vmParams input next
            (vmParams.PastBoundedSlotIndex commitment.Slot) := by
    unfold accountBlockIssuerSTVF
    simp only []
    rw [if_neg (by tauto), hcommitment]
    simp only [hbic]
    rw [if_neg (by omega)]
  refine ⟨?_, ?_, ?_, ?_, ?_⟩
  · intro err herr
    rw [hstvf, herr]
  · intro hnone
    rw [hstvf, hnone]
  · intro currentFeat hcur hexp
    constructor
    · intro hnext
      rw [hstvf, hcur, hnext]
      unfold accountBlockIssuerExpiry
      simp [hexp]
    · intro nextFeat hnext
      rw [hcur, hnext]
      unfold accountBlockIssuerExpiry
      simp only [hexp, if_true]
      by_cases h1 : nextFeat.ExpirySlot = currentFeat.ExpirySlot
      · simp [h1]
      · by_cases h2 : nextFeat.ExpirySlot < vmParams.PastBoundedSlotIndex commitment.Slot
        · simp [h1, h2]
        · simp [h1, h2]
          omega
  · intro nextFeat hnext hcur
    rw [hstvf, hnext]
    rcases hcur with hcur | ⟨currentFeat, hcur, hexp⟩
    · rw [hcur]
      unfold accountBlockIssuerExpiry
      by_cases h2 : nextFeat.ExpirySlot < vmParams.PastBoundedSlotIndex commitment.Slot
      · simp [h2]
      · simp [h2]
    · rw [hcur]
      unfold accountBlockIssuerExpiry
      have hexp2 : ¬ currentFeat.ExpirySlot ≥ commitment.Slot := by omega
      by_cases h2 : nextFeat.ExpirySlot < vmParams.PastBoundedSlotIndex commitment.Slot
      · simp [hexp2, h2]
      · simp [hexp2, h2]
  · intro currentFeat hcur hexp hnext
    rw [hcur, hnext]
    unfold accountBlockIssuerExpiry
    have hexp2 : ¬ currentFeat.ExpirySlot ≥ commitment.Slot := by omega
    simp [hexp2]

/-- Witness of `accountBlockIssuerExpiry_rule`: with the commitment of slot 90, the
block-issuer feature of account 7 that expires in slot 200 cannot be removed. -/
theorem accountBlockIssuerExpiry_rule_witness :
    accountBlockIssuerSTVF
      (exampleParams 4 2 (some ⟨90⟩) (fun _ => some 0) (fun _ => none) [] 500 300)
      (exampleAccountInput (exampleIssuerAccount 400 200)) (some ⟨[1], 200⟩)
      (exampleAccount 250 0) = some Error.ErrInvalidBlockIssuerTransition :=
  ((accountBlockIssuerExpiry_rule
    (exampleParams 4 2 (some ⟨90⟩) (fun _ => some 0) (fun _ => none) [] 500 300)
    (exampleAccountInput (exampleIssuerAccount 400 200)) (some ⟨[1], 200⟩)
    (exampleAccount 250 0) ⟨90⟩ 0 (by decide) rfl rfl (by decide)).2.2.1
    ⟨[1], 200⟩ rfl (by decide)).1 rfl

/-- C36: `accountBlockIssuerSTVF` has no check of the block issuer keys: the state
change of account 7 whose created output carries a block-issuer feature with
an empty `BlockIssuerKeys` set passes `accountBlockIssuerSTVF`, and the whole
transition is accepted by `accountSTVF`. -/
theorem accountBlockIssuerSTVF_empty_keys_accepted :
    (⟨1000, 250, 7, 0, some ⟨[], 200⟩, none, []⟩ : AccountOutput).BlockIssuer
      = some ⟨[], 200⟩ ∧
    accountBlockIssuerSTVF
      (exampleParams 4 2 (some ⟨90⟩) (fun _ => some 0) (fun _ => none) [] 500 300)
      (exampleAccountInput (exampleIssuerAccount 400 200)) (some ⟨[1], 200⟩)
      ⟨1000, 250, 7, 0, some ⟨[], 200⟩, none, []⟩ = none ∧
    accountSTVF
      (exampleParams 4 2 (some ⟨90⟩) (fun _ => some 0) (fun _ => none) [] 500 300)
      (some (exampleAccountInput (exampleIssuerAccount 400 200)))
      ChainTransitionType.StateChange (some ⟨1000, 250, 7, 0, some ⟨[], 200⟩, none, []⟩)
      = some none := by
  decide

/-! ## Implicit account conversion -/

/-- C37: an implicit account conversion (a transition other than Destroy handled by
`implicitAccountSTVF`) always returns, and is accepted only if a commitment is
present, the BIC set holds a non-negative entry for the resulting AccountID and
the resulting account output carries a block-issuer feature whose expiry is at
least the past-bounded slot; the synthetic feature of the input side, with
`ExpirySlot = MaxSlotIndex`, is never treated as expired, so the expiry rule
passes iff the feature is kept with the expiry `MaxSlotIndex` or with an
expiry `>= pastBoundedSlot`.  Commitment slots are 64-bit values. -/
theorem implicitAccountSTVF_conversion (vmParams : Params) (implicitAccount : BasicOutput)
    (outputID : OutputID) (next : AccountOutput) (transType : ChainTransitionType)
    (htrans : transType ≠ ChainTransitionType.Destroy)
    (hslot : ∀ c, vmParams.WorkingSet.Commitment = some c → c.Slot ≤ MaxSlotIndex) :
    (∃ result, implicitAccountSTVF vmParams implicitAccount outputID (some next) transType
      = some result) ∧
    (implicitAccountSTVF vmParams implicitAccount outputID (some next) transType = some none →
      ∃ commitment bic feat,
        vmParams.WorkingSet.Commitment = some commitment ∧
        vmParams.WorkingSet.BIC next.AccountID = some bic ∧ 0 ≤ bic ∧
        next.BlockIssuer = some feat ∧
        vmParams.PastBoundedSlotIndex commitment.Slot ≤ feat.ExpirySlot) ∧
    (∀ (nextFeat : Option BlockIssuerFeature) (commitmentInputSlot pastBoundedSlot : Nat),
      commitmentInputSlot ≤ MaxSlotIndex →
      (accountBlockIssuerExpiry (some ⟨[], MaxSlotIndex⟩) nextFeat commitmentInputSlot
          pastBoundedSlot = none ↔
        ∃ feat, nextFeat = some feat ∧
          (feat.ExpirySlot = MaxSlotIndex ∨ pastBoundedSlot ≤ feat.ExpirySlot))) := by
  refine ⟨?_, ?_, ?_⟩
  · unfold implicitAccountSTVF
    rw [if_neg htrans]
    simp only []
    cases accountBlockIssuerSTVF vmParams
        ⟨ChainID.Account next.AccountID, outputID, Output.ImplicitAccount implicitAccount⟩
        (some ⟨[], MaxSlotIndex⟩) next with
    | none => exact ⟨_, rfl⟩
    | some err => exact ⟨_, rfl⟩
  · intro haccept
    unfold implicitAccountSTVF at haccept
    rw [if_neg htrans] at haccept
    simp only [] at haccept
    cases hstvf : accountBlockIssuerSTVF vmParams
        ⟨ChainID.Account next.AccountID, outputID, Output.ImplicitAccount implicitAccount⟩
        (some ⟨[], MaxSlotIndex⟩) next with
    | some err =>
      rw [hstvf] at haccept
      simp at haccept
    | none =>
      rw [hstvf] at haccept
      simp only [Option.some.injEq] at haccept
      unfold accountBlockIssuerSTVF at hstvf
      simp only [] at hstvf
      rw [if_neg (by simp)] at hstvf
      cases hc : vmParams.WorkingSet.Commitment with
      | none => rw [hc] at hstvf; simp at hstvf
      | some commitment =>
        rw [hc] at hstvf
        simp only [] at hstvf
        cases hb : vmParams.WorkingSet.BIC next.AccountID with
        | none => rw [hb] at hstvf; simp at hstvf
        | some bic =>
          rw [hb] at hstvf
          simp only [] at hstvf
          by_cases hneg : bic < 0
          · rw [if_pos hneg] at hstvf
            simp at hstvf
          · cases hf : next.BlockIssuer with
            | none =>
              rw [if_neg hneg, hf] at hstvf
              have hle := hslot commitment hc
              unfold accountBlockIssuerExpiry at hstvf
              simp [hle] at hstvf
            | some feat =>
              refine ⟨commitment, bic, feat, rfl, rfl, by omega, rfl, ?_⟩
              unfold accountGenesisValid at haccept
              simp only [hf, hc] at haccept
              by_contra hlt
              have hlt2 : feat.ExpirySlot < vmParams.PastBoundedSlotIndex commitment.Slot := by
                omega
              simp [hlt2] at haccept
  · intro nextFeat commitmentInputSlot pastBoundedSlot hle
    unfold accountBlockIssuerExpiry
    cases nextFeat with
    | none => simp [hle]
    | some feat =>
      simp only [ge_iff_le, hle, if_true]
      by_cases h1 : feat.ExpirySlot = MaxSlotIndex
      · simp [h1]
      · by_cases h2 : feat.ExpirySlot < pastBoundedSlot
        · simp [h1, h2]
        · simp [h1, h2]
          omega

/-- Witness of `implicitAccountSTVF_conversion`: the implicit account with 400 mana,
created in slot 100, becomes account 7 with a block-issuer feature that expires
in slot 200, with the commitment of slot 90 and a BIC entry of 0; the
conversion is accepted and a commitment is present. -/
theorem implicitAccountSTVF_conversion_witness :
    implicitAccountSTVF
        (exampleParams 4 2 (some ⟨90⟩) (fun _ => some 0) (fun _ => none) [] 500 300)
        ⟨1000, 400⟩ ⟨100, 0⟩ (some (exampleIssuerAccount 250 200))
        ChainTransitionType.StateChange = some none ∧
      (exampleParams 4 2 (some ⟨90⟩) (fun _ => some 0) (fun _ => none) [] 500 300
        ).WorkingSet.Commitment ≠ none :=
  ⟨by decide,
    match (implicitAccountSTVF_conversion
        (exampleParams 4 2 (some ⟨90⟩) (fun _ => some 0) (fun _ => none) [] 500 300)
        ⟨1000, 400⟩ ⟨100, 0⟩ (exampleIssuerAccount 250 200) ChainTransitionType.StateChange
        (by decide) (fun c hc => by cases hc; decide)).2.1 (by decide) with
    | ⟨_, _, _, hc, _⟩ => by rw [hc]; simp⟩

/-! ## Immutable features -/

/-- C40: immutable features are frozen across state changes: every Account or
Anchor state change whose input and output ImmutableFeatures differ is
rejected, by the validator and by the STVF, and `nftStateChangeValid` accepts an NFT
state change iff the ImmutableFeatures of input and output are equal. -/
theorem immutable_features_frozen (vmParams : Params) (input : ChainOutputWithIDs) :
    (∀ (current next : AccountOutput) (isRemovingStakingFeature : Bool),
      input.Output = Output.Account current →
      current.ImmutableFeatures ≠ next.ImmutableFeatures →
      accountStateChangeValid vmParams input next isRemovingStakingFeature
        = some (some Error.ErrInvalidAccountStateTransition, isRemovingStakingFeature) ∧
      accountSTVF vmParams (some input) ChainTransitionType.StateChange (some next)
        = some (some Error.ErrInvalidAccountStateTransition)) ∧
    (∀ (current next : AnchorOutput),
      input.Output = Output.Anchor current →
      current.ImmutableFeatures ≠ next.ImmutableFeatures →
      (∃ err, anchorStateChangeValid input next = some (some err)) ∧
      (∃ err, anchorSTVF vmParams (some input) ChainTransitionType.StateChange (some next)
        = some (some err))) ∧
    (∀ (current next : NFTOutput),
      (nftStateChangeValid current next = none ↔
        current.ImmutableFeatures = next.ImmutableFeatures) ∧
      (input.Output = Output.NFT current →
        (nftSTVF vmParams (some input) ChainTransitionType.StateChange (some next) = some none ↔
          current.ImmutableFeatures = next.ImmutableFeatures))) := by
  refine ⟨?_, ?_, ?_⟩
  · intro current next flag hout hne
    have h : accountStateChangeValid vmParams input next flag
        = some (some Error.ErrInvalidAccountStateTransition, flag) := by
      unfold accountStateChangeValid
      simp only [hout]
      rw [if_pos hne]
    refine ⟨h, ?_⟩
    have h2 : accountStateChangeValid vmParams input next false
        = some (some Error.ErrInvalidAccountStateTransition, false) := by
      unfold accountStateChangeValid
      simp only [hout]
      rw [if_pos hne]
    unfold accountSTVF
    simp only [h2]
  · intro current next hout hne
    have h : ∃ err, anchorStateChangeValid input next = some (some err) := by
      unfold anchorStateChangeValid
      simp only [hout]
      rw [if_pos hne]
      by_cases hidx : current.StateIndex = next.StateIndex
      · rw [if_pos hidx]; exact ⟨_, rfl⟩
      · rw [if_neg hidx]; exact ⟨_, rfl⟩
    refine ⟨h, ?_⟩
    obtain ⟨err, herr⟩ := h
    exact ⟨err, by unfold anchorSTVF; simp only [herr]⟩
  · intro current next
    have h : nftStateChangeValid current next = none ↔
        current.ImmutableFeatures = next.ImmutableFeatures := by
      unfold nftStateChangeValid
      by_cases heq : current.ImmutableFeatures = next.ImmutableFeatures
      · simp [heq]
      · simp [heq]
    refine ⟨h, ?_⟩
    intro hout
    rw [← h]
    unfold nftSTVF
    simp only [hout]
    cases nftStateChangeValid current next <;> simp

/-- Witness of `immutable_features_frozen`: the state change of account 7 that
turns the immutable features `[1]` into `[2]` is rejected. -/
theorem immutable_features_frozen_witness :
    accountSTVF (exampleParams 4 2 none (fun _ => none) (fun _ => none) [] 0 0)
      (some (exampleAccountInput ⟨1000, 0, 7, 0, none, none, [1]⟩))
      ChainTransitionType.StateChange (some ⟨1000, 0, 7, 0, none, none, [2]⟩)
      = some (some Error.ErrInvalidAccountStateTransition) :=
  ((immutable_features_frozen (exampleParams 4 2 none (fun _ => none) (fun _ => none) [] 0 0)
    (exampleAccountInput ⟨1000, 0, 7, 0, none, none, [1]⟩)).1
    ⟨1000, 0, 7, 0, none, none, [1]⟩ ⟨1000, 0, 7, 0, none, none, [2]⟩ false rfl
    (by decide)).2

/-! ## Replacing an expired staking feature -/

/-- Whenever `accountStakingSTVF` accepts a state change that replaces an expired
staking feature (`futureBoundedEpoch >` the current EndEpoch) by a different
staking feature, the StartEpoch of the new feature is the past-bounded epoch
and the replacement counts as removing the feature; if the future-bounded
epoch is not after the past-bounded epoch, the new StartEpoch is after the
current EndEpoch. -/
theorem accountStakingSTVF_replacement_disjoint (vmParams : Params)
    (current next : AccountOutput) (currentStakingFeat nextStakingFeat : StakingFeature)
    (commitment : Commitment) (isRemovingStakingFeature : Bool)
    (hcur : current.Staking = some currentStakingFeat)
    (hnext : next.Staking = some nextStakingFeat)
    (hdiff : currentStakingFeat ≠ nextStakingFeat)
    (hcommit : vmParams.WorkingSet.Commitment = some commitment)
    (hexpired : vmParams.API.TimeProvider.EpochFromSlot
      (vmParams.FutureBoundedSlotIndex commitment.Slot) > currentStakingFeat.EndEpoch)
    (haccept : (accountStakingSTVF vmParams current next isRemovingStakingFeature).1 = none) :
    nextStakingFeat.StartEpoch
      = vmParams.API.TimeProvider.EpochFromSlot
          (vmParams.PastBoundedSlotIndex commitment.Slot) ∧
    accountStakingSTVF vmParams current next isRemovingStakingFeature = (none, true) ∧
    (vmParams.API.TimeProvider.EpochFromSlot (vmParams.FutureBoundedSlotIndex commitment.Slot)
        ≤ vmParams.API.TimeProvider.EpochFromSlot
            (vmParams.PastBoundedSlotIndex commitment.Slot) →
      nextStakingFeat.StartEpoch > currentStakingFeat.EndEpoch) := by
  have hnb : ¬ vmParams.API.TimeProvider.EpochFromSlot
      (vmParams.FutureBoundedSlotIndex commitment.Slot) ≤ currentStakingFeat.EndEpoch := by
    omega
  unfold accountStakingSTVF at haccept ⊢
  simp only [hcur, hcommit, hnext] at haccept ⊢
  rw [if_neg hnb] at haccept ⊢
  unfold accountStakingExpiredValidation at haccept ⊢
  simp only [] at haccept ⊢
  rw [if_pos hdiff] at haccept ⊢
  cases hgen : accountStakingGenesisValidation vmParams next nextStakingFeat with
  | some err =>
    rw [hgen] at haccept
    simp at haccept
  | none =>
    have hstart : nextStakingFeat.StartEpoch
        = vmParams.API.TimeProvider.EpochFromSlot
            (vmParams.PastBoundedSlotIndex commitment.Slot) := by
      unfold accountStakingGenesisValidation at hgen
      simp only [hcommit] at hgen
      by_contra hne
      rw [if_pos hne] at hgen
      cases hgen
    refine ⟨hstart, rfl, ?_⟩
    intro hle
    omega

/-- C38: whenever `accountStakingSTVF` accepts a state change that replaces an
expired staking feature (`futureBoundedEpoch >` the current EndEpoch) by a
different staking feature, the epoch range of the new feature is disjoint from
the old one: `next.StartEpoch > current.EndEpoch`.  The past-bounded slot is the
commitment slot plus `MaxCommittableAge` (the doc comment of
`accountBlockIssuerSTVF`, line 337, and the calls in `output_test.go`, lines
1113 and 1220), the future-bounded slot is the commitment slot plus
`minCommittableAge`, which is at most `MaxCommittableAge`, the sums are 64-bit
slots, and the epoch of a 64-bit slot does not decrease with the slot. -/
theorem accountStakingSTVF_replacement_start_after_end (vmParams : Params)
    (current next : AccountOutput) (currentStakingFeat nextStakingFeat : StakingFeature)
    (commitment : Commitment) (isRemovingStakingFeature : Bool) (minCommittableAge : Nat)
    (hpast : ∀ slot, vmParams.PastBoundedSlotIndex slot
      = add64 slot vmParams.API.ProtocolParameters.MaxCommittableAge)
    (hfuture : ∀ slot, vmParams.FutureBoundedSlotIndex slot = add64 slot minCommittableAge)
    (hages : minCommittableAge ≤ vmParams.API.ProtocolParameters.MaxCommittableAge)
    (hslot : commitment.Slot + vmParams.API.ProtocolParameters.MaxCommittableAge < 2 ^ 64)
    (hmono : ∀ a b, a ≤ b → b < 2 ^ 64 →
      vmParams.API.TimeProvider.EpochFromSlot a ≤ vmParams.API.TimeProvider.EpochFromSlot b)
    (hcur : current.Staking = some currentStakingFeat)
    (hnext : next.Staking = some nextStakingFeat)
    (hdiff : currentStakingFeat ≠ nextStakingFeat)
    (hcommit : vmParams.WorkingSet.Commitment = some commitment)
    (hexpired : vmParams.API.TimeProvider.EpochFromSlot
      (vmParams.FutureBoundedSlotIndex commitment.Slot) > currentStakingFeat.EndEpoch)
    (haccept : (accountStakingSTVF vmParams current next isRemovingStakingFeature).1 = none) :
    nextStakingFeat.StartEpoch > currentStakingFeat.EndEpoch ∧
    nextStakingFeat.StartEpoch
      = vmParams.API.TimeProvider.EpochFromSlot
          (add64 commitment.Slot vmParams.API.ProtocolParameters.MaxCommittableAge) ∧
    accountStakingSTVF vmParams current next isRemovingStakingFeature = (none, true) := by
  have h := accountStakingSTVF_replacement_disjoint vmParams current next currentStakingFeat
    nextStakingFeat commitment isRemovingStakingFeature hcur hnext hdiff hcommit hexpired
    haccept
  have hle : vmParams.FutureBoundedSlotIndex commitment.Slot
      ≤ vmParams.PastBoundedSlotIndex commitment.Slot := by
    rw [hpast, hfuture, add64_eq hslot, add64_eq (by omega)]
    omega
  have hlt : vmParams.PastBoundedSlotIndex commitment.Slot < 2 ^ 64 := by
    rw [hpast]
    exact add64_lt _ _
  refine ⟨h.2.2 (hmono _ _ hle hlt), ?_, h.2.1⟩
  rw [h.1, hpast]

/-- Witness of `accountStakingSTVF_replacement_start_after_end`: epochs of 8 slots,
`MaxCommittableAge = 4`, `minCommittableAge = 2` and the commitment of slot 100
(past-bounded epoch 13, future-bounded epoch 12): the staking feature that
ended in epoch 11 is replaced by one with the epoch range 13 to 23. -/
theorem accountStakingSTVF_replacement_start_after_end_witness :
    (⟨500, 1, 13, 23⟩ : StakingFeature).StartEpoch > (⟨500, 1, 2, 11⟩ : StakingFeature).EndEpoch ∧
    accountStakingSTVF (exampleParams 4 2 (some ⟨100⟩) (fun _ => some 0) (fun _ => none) [] 0 0)
      (exampleStakingAccount (some ⟨500, 1, 2, 11⟩))
      (exampleStakingAccount (some ⟨500, 1, 13, 23⟩)) false = (none, true) :=
  have h := accountStakingSTVF_replacement_start_after_end
    (exampleParams 4 2 (some ⟨100⟩) (fun _ => some 0) (fun _ => none) [] 0 0)
    (exampleStakingAccount (some ⟨500, 1, 2, 11⟩))
    (exampleStakingAccount (some ⟨500, 1, 13, 23⟩)) ⟨500, 1, 2, 11⟩ ⟨500, 1, 13, 23⟩ ⟨100⟩
    false 2 (fun _ => rfl) (fun _ => rfl) (by decide) (by decide)
    (fun a b hab hb => by
      show shr64 a 3 ≤ shr64 b 3
      rw [shr64_eq (by norm_num) (by omega), shr64_eq (by norm_num) hb]
      exact Nat.div_le_div_right hab)
    rfl rfl (by decide) rfl (by decide) (by decide)
  ⟨h.1, h.2.2⟩

/-! ## Claiming rewards and giving up the staking feature -/

/-- When the staking checks of a state change pass, the flag they return says
whether an expired staking feature was removed or replaced. -/
theorem accountStakingSTVF_flag (vmParams : Params) (current next : AccountOutput)
    (flag : Bool)
    (h : accountStakingSTVF vmParams current next false = (none, flag)) :
    flag = removesOrReplacesExpiredStaking vmParams current next := by
  unfold removesOrReplacesExpiredStaking hasExpiredStaking
  unfold accountStakingSTVF at h
  cases hcur : current.Staking with
  | none =>
    rw [hcur] at h
    simp only [] at h
    cases hnext : next.Staking with
    | none =>
      rw [hnext] at h
      simp only [Prod.mk.injEq, true_and] at h
      simp [← h]
    | some n =>
      rw [hnext] at h
      simp only [Prod.mk.injEq] at h
      simp [← h.2]
  | some cur =>
    rw [hcur] at h
    simp only [] at h
    cases hc : vmParams.WorkingSet.Commitment with
    | none =>
      rw [hc] at h
      simp at h
    | some c =>
      rw [hc] at h
      simp only [] at h
      by_cases hb : vmParams.API.TimeProvider.EpochFromSlot
          (vmParams.FutureBoundedSlotIndex c.Slot) ≤ cur.EndEpoch
      · rw [if_pos hb] at h
        simp only [Prod.mk.injEq] at h
        have hnlt : ¬ cur.EndEpoch < vmParams.API.TimeProvider.EpochFromSlot
            (vmParams.FutureBoundedSlotIndex c.Slot) := by omega
        simp [← h.2, hnlt]
      · rw [if_neg hb] at h
        have hlt : cur.EndEpoch < vmParams.API.TimeProvider.EpochFromSlot
            (vmParams.FutureBoundedSlotIndex c.Slot) := by omega
        unfold accountStakingExpiredValidation at h
        cases hnext : next.Staking with
        | none =>
          rw [hnext] at h
          simp only [Prod.mk.injEq, true_and] at h
          simp [← h, hlt]
        | some n =>
          rw [hnext] at h
          simp only [] at h
          by_cases hne : cur ≠ n
          · rw [if_pos hne] at h
            cases hgen : accountStakingGenesisValidation vmParams next n with
            | some err =>
              rw [hgen] at h
              simp at h
            | none =>
              rw [hgen] at h
              simp only [Prod.mk.injEq, true_and] at h
              have hne2 : ¬ n = cur := fun e => hne e.symm
              simp [← h, hlt, hne2]
          · rw [if_neg hne] at h
            simp only [Prod.mk.injEq, true_and] at h
            have heq : n = cur := by
              by_contra e
              exact hne (fun e2 => e e2.symm)
            simp [← h, heq]

/-- When a state change of an account passes, the flag it returns says whether
an expired staking feature was removed or replaced. -/
theorem accountStateChangeValid_flag (vmParams : Params) (input : ChainOutputWithIDs)
    (current next : AccountOutput) (flag : Bool)
    (hout : input.Output = Output.Account current)
    (h : accountStateChangeValid vmParams input next false = some (none, flag)) :
    flag = removesOrReplacesExpiredStaking vmParams current next := by
  unfold accountStateChangeValid at h
  simp only [hout, Option.some.injEq] at h
  by_cases himm : current.ImmutableFeatures ≠ next.ImmutableFeatures
  · rw [if_pos himm] at h
    simp at h
  · rw [if_neg himm] at h
    generalize (if current.BlockIssuer ≠ none then
      accountBlockIssuanceCreditLocked input vmParams.WorkingSet.BIC else none) = lock at h
    cases lock with
    | some err => simp at h
    | none =>
      simp only [] at h
      cases hst : accountStakingSTVF vmParams current next false with
      | mk res flag2 =>
        rw [hst] at h
        cases res with
        | some err => simp at h
        | none =>
          simp only [] at h
          have hflag : flag2 = flag := by
            generalize accountFoundryCounterSTVF vmParams current next = counter at h
            cases counter with
            | some err => simp at h
            | none =>
              simp only [Prod.mk.injEq] at h
              exact h.2
          rw [← hflag]
          exact accountStakingSTVF_flag vmParams current next flag2 hst

/-- When the destruction of an account passes, the flag it returns says whether
the account had an expired staking feature. -/
theorem accountDestructionValid_flag (vmParams : Params) (input : ChainOutputWithIDs)
    (current : AccountOutput) (flag : Bool)
    (hout : input.Output = Output.Account current)
    (h : accountDestructionValid vmParams input false = some (none, flag)) :
    flag = hasExpiredStaking vmParams current := by
  unfold hasExpiredStaking
  unfold accountDestructionValid at h
  by_cases hcap : vmParams.WorkingSet.Tx.Capabilities.CannotDestroyAccountOutputs = true
  · rw [if_pos hcap] at h
    simp at h
  · rw [if_neg hcap] at h
    simp only [hout] at h
    generalize (match current.BlockIssuer with
      | some blockIssuerFeat =>
        match vmParams.WorkingSet.Commitment with
        | none => some Error.ErrInvalidBlockIssuerTransition
        | some commitment =>
          if blockIssuerFeat.ExpirySlot ≥ commitment.Slot then
            some Error.ErrInvalidBlockIssuerTransition
          else accountBlockIssuanceCreditLocked input vmParams.WorkingSet.BIC
      | none => none) = check at h
    cases check with
    | some err => simp at h
    | none =>
      simp only [] at h
      cases hst : current.Staking with
      | none =>
        rw [hst] at h
        simp only [Option.some.injEq, Prod.mk.injEq, true_and] at h
        simp [← h]
      | some stakingFeat =>
        rw [hst] at h
        simp only [] at h
        cases hc : vmParams.WorkingSet.Commitment with
        | none =>
          rw [hc] at h
          simp at h
        | some c =>
          rw [hc] at h
          simp only [] at h
          by_cases hb : vmParams.API.TimeProvider.EpochFromSlot
              (vmParams.FutureBoundedSlotIndex c.Slot) ≤ stakingFeat.EndEpoch
          · rw [if_pos hb] at h
            simp at h
          · rw [if_neg hb] at h
            simp only [Option.some.injEq, Prod.mk.injEq, true_and] at h
            have hlt : stakingFeat.EndEpoch < vmParams.API.TimeProvider.EpochFromSlot
                (vmParams.FutureBoundedSlotIndex c.Slot) := by omega
            simp [← h, hlt]

/-- A state change of an account is either rejected, or accepted with the rewards
claim coinciding with the removal or replacement of an expired staking
feature. -/
theorem accountSTVF_stateChange_cases (vmParams : Params) (input : ChainOutputWithIDs)
    (current next : AccountOutput) (hout : input.Output = Output.Account current) :
    (∃ err, accountSTVF vmParams (some input) ChainTransitionType.StateChange (some next)
      = some (some err)) ∨
    (accountSTVF vmParams (some input) ChainTransitionType.StateChange (some next) = some none ∧
      (vmParams.WorkingSet.Rewards input.ChainID).isSome
        = removesOrReplacesExpiredStaking vmParams current next) := by
  unfold accountSTVF
  simp only []
  cases hv : accountStateChangeValid vmParams input next false with
  | none =>
    unfold accountStateChangeValid at hv
    simp [hout] at hv
  | some r =>
    rcases r with ⟨_ | err, flag⟩
    · have hflag := accountStateChangeValid_flag vmParams input current next flag hout hv
      rw [← hflag]
      simp only []
      cases (vmParams.WorkingSet.Rewards input.ChainID).isSome <;> cases flag <;>
        simp [accountRewardsCheck]
    · exact Or.inl ⟨err, rfl⟩

/-- The destruction of an account output returns: the type assertion on the
consumed output does not fail. -/
theorem accountDestructionValid_returns (vmParams : Params) (input : ChainOutputWithIDs)
    (current : AccountOutput) (isRemovingStakingFeature : Bool)
    (hout : input.Output = Output.Account current) :
    ∃ r, accountDestructionValid vmParams input isRemovingStakingFeature = some r := by
  unfold accountDestructionValid
  by_cases hcap : vmParams.WorkingSet.Tx.Capabilities.CannotDestroyAccountOutputs = true
  · rw [if_pos hcap]
    exact ⟨_, rfl⟩
  · rw [if_neg hcap]
    simp only [hout]
    generalize (match current.BlockIssuer with
      | some blockIssuerFeat =>
        match vmParams.WorkingSet.Commitment with
        | none => some Error.ErrInvalidBlockIssuerTransition
        | some commitment =>
          if blockIssuerFeat.ExpirySlot ≥ commitment.Slot then
            some Error.ErrInvalidBlockIssuerTransition
          else accountBlockIssuanceCreditLocked input vmParams.WorkingSet.BIC
      | none => none) = check
    cases check with
    | some err => exact ⟨_, rfl⟩
    | none =>
      simp only []
      cases current.Staking with
      | none => exact ⟨_, rfl⟩
      | some stakingFeat =>
        simp only []
        cases vmParams.WorkingSet.Commitment with
        | none => exact ⟨_, rfl⟩
        | some c =>
          simp only []
          by_cases hb : vmParams.API.TimeProvider.EpochFromSlot
              (vmParams.FutureBoundedSlotIndex c.Slot) ≤ stakingFeat.EndEpoch
          · rw [if_pos hb]
            exact ⟨_, rfl⟩
          · rw [if_neg hb]
            exact ⟨_, rfl⟩

/-- The destruction of an account is either rejected, or accepted with the rewards
claim coinciding with the presence of an expired staking feature. -/
theorem accountSTVF_destroy_cases (vmParams : Params) (input : ChainOutputWithIDs)
    (current : AccountOutput) (next : Option AccountOutput)
    (hout : input.Output = Output.Account current) :
    (∃ err, accountSTVF vmParams (some input) ChainTransitionType.Destroy next
      = some (some err)) ∨
    (accountSTVF vmParams (some input) ChainTransitionType.Destroy next = some none ∧
      (vmParams.WorkingSet.Rewards input.ChainID).isSome
        = hasExpiredStaking vmParams current) := by
  unfold accountSTVF
  simp only []
  cases hv : accountDestructionValid vmParams input false with
  | none =>
    obtain ⟨r, hr⟩ := accountDestructionValid_returns vmParams input current false hout
    rw [hr] at hv
    cases hv
  | some r =>
    rcases r with ⟨_ | err, flag⟩
    · have hflag := accountDestructionValid_flag vmParams input current flag hout hv
      rw [← hflag]
      simp only []
      cases (vmParams.WorkingSet.Rewards input.ChainID).isSome <;> cases flag <;>
        simp [accountRewardsCheck]
    · exact Or.inl ⟨err, by simp only [hout]⟩

/-- C39: `accountSTVF` accepts a transition only if claiming mana rewards for the
account coincides with giving up its expired staking feature: a StateChange
or Destroy that has a rewards entry for the ChainID of the account but neither
removes nor replaces (StateChange) nor destroys (Destroy) an expired staking
feature is rejected, and one that removes, replaces or destroys an expired
staking feature without a rewards entry is rejected; a Genesis, which has no
consumed output, is decided by `accountGenesisValid` alone. -/
theorem accountSTVF_rewards_coincide (vmParams : Params) (input : ChainOutputWithIDs)
    (current : AccountOutput) (hout : input.Output = Output.Account current) :
    (∀ next : AccountOutput,
      accountSTVF vmParams (some input) ChainTransitionType.StateChange (some next)
        = some none →
      (vmParams.WorkingSet.Rewards input.ChainID).isSome
        = removesOrReplacesExpiredStaking vmParams current next) ∧
    (∀ next : AccountOutput,
      (vmParams.WorkingSet.Rewards input.ChainID).isSome = true →
      removesOrReplacesExpiredStaking vmParams current next = false →
      ∃ err, accountSTVF vmParams (some input) ChainTransitionType.StateChange (some next)
        = some (some err)) ∧
    (∀ next : AccountOutput,
      (vmParams.WorkingSet.Rewards input.ChainID).isSome = false →
      removesOrReplacesExpiredStaking vmParams current next = true →
      ∃ err, accountSTVF vmParams (some input) ChainTransitionType.StateChange (some next)
        = some (some err)) ∧
    (∀ next : Option AccountOutput,
      accountSTVF vmParams (some input) ChainTransitionType.Destroy next = some none →
      (vmParams.WorkingSet.Rewards input.ChainID).isSome
        = hasExpiredStaking vmParams current) ∧
    (∀ next : Option AccountOutput,
      (vmParams.WorkingSet.Rewards input.ChainID).isSome = true →
      hasExpiredStaking vmParams current = false →
      ∃ err, accountSTVF vmParams (some input) ChainTransitionType.Destroy next
        = some (some err)) ∧
    (∀ next : Option AccountOutput,
      (vmParams.WorkingSet.Rewards input.ChainID).isSome = false →
      hasExpiredStaking vmParams current = true →
      ∃ err, accountSTVF vmParams (some input) ChainTransitionType.Destroy next
        = some (some err)) ∧
    (∀ next : AccountOutput,
      accountSTVF vmParams none ChainTransitionType.Genesis (some next)
        = some (accountGenesisValid vmParams next true)) := by
  refine ⟨?_, ?_, ?_, ?_, ?_, ?_, ?_⟩
  · intro next haccept
    rcases accountSTVF_stateChange_cases vmParams input current next hout with
      ⟨err, herr⟩ | ⟨_, h⟩
    · rw [herr] at haccept
      cases haccept
    · exact h
  · intro next hclaim hgive
    rcases accountSTVF_stateChange_cases vmParams input current next hout with
      herr | ⟨_, h⟩
    · exact herr
    · rw [hclaim, hgive] at h
      cases h
  · intro next hclaim hgive
    rcases accountSTVF_stateChange_cases vmParams input current next hout with
      herr | ⟨_, h⟩
    · exact herr
    · rw [hclaim, hgive] at h
      cases h
  · intro next haccept
    rcases accountSTVF_destroy_cases vmParams input current next hout with
      ⟨err, herr⟩ | ⟨_, h⟩
    · rw [herr] at haccept
      cases haccept
    · exact h
  · intro next hclaim hgive
    rcases accountSTVF_destroy_cases vmParams input current next hout with
      herr | ⟨_, h⟩
    · exact herr
    · rw [hclaim, hgive] at h
      cases h
  · intro next hclaim hgive
    rcases accountSTVF_destroy_cases vmParams input current next hout with
      herr | ⟨_, h⟩
    · exact herr
    · rw [hclaim, hgive] at h
      cases h
  · intro next
    unfold accountSTVF
    simp only []
    cases accountGenesisValid vmParams next true with
    | some err => rfl
    | none => rfl

/-- Witness of `accountSTVF_rewards_coincide`: with a rewards entry for account 7,
the state change that keeps the account without a staking feature is not
accepted, and the state change that removes the staking feature expired in
epoch 11 (future-bounded epoch 12) is accepted. -/
theorem accountSTVF_rewards_coincide_witness :
    accountSTVF (exampleParams 4 2 (some ⟨100⟩) (fun _ => some 0) (fun _ => some 5) [] 0 0)
        (some (exampleAccountInput (exampleAccount 0 0))) ChainTransitionType.StateChange
        (some (exampleAccount 0 0)) ≠ some none ∧
      accountSTVF (exampleParams 4 2 (some ⟨100⟩) (fun _ => some 0) (fun _ => some 5) [] 0 0)
        (some (exampleAccountInput (exampleStakingAccount (some ⟨500, 1, 2, 11⟩))))
        ChainTransitionType.StateChange (some (exampleStakingAccount none)) = some none :=
  ⟨match (accountSTVF_rewards_coincide
        (exampleParams 4 2 (some ⟨100⟩) (fun _ => some 0) (fun _ => some 5) [] 0 0)
        (exampleAccountInput (exampleAccount 0 0)) (exampleAccount 0 0) rfl).2.1
        (exampleAccount 0 0) (by decide) (by decide) with
    | ⟨_, h⟩ => by rw [h]; simp,
    by decide⟩

/-! ## The closed form of the potential mana against the per-epoch sum -/

/-- One epoch of decay is one fixed-point multiplication with the first table
entry: for a 64-bit value and a first entry of at most
`2^decayFactorsShiftFactor` it is the exact quotient. -/
theorem decay_one_eq (p : ManaDecayProvider) (hWF : p.WellFormed)
    (hs : p.decayFactorsShiftFactor ≤ 32) (hL : 1 ≤ p.decayFactorsLength)
    (hf : p.decayFactors.getD 0 0 ≤ 2 ^ p.decayFactorsShiftFactor)
    (x : Nat) (hx : x < 2 ^ 64) :
    decay p x 1 = x * p.decayFactors.getD 0 0 / 2 ^ p.decayFactorsShiftFactor := by
  by_cases hx0 : x = 0
  · subst hx0
    simp [decay]
  · have hF : p.decayFactors.getD 0 0 < 2 ^ 32 := by
      rcases getD_mem_or_zero p.decayFactors 0 with h | h
      · exact hWF.2.1 _ h
      · rw [h]; norm_num
    have hloop : decay p x 1
        = fixedPointMultiplication32 x (p.decayFactors.getD 0 0) p.decayFactorsShiftFactor := by
      rw [decay_eq_loop p x 1 hx0 (by norm_num) (by omega),
        decayLoop_remainder p _ _ 1 hL (by norm_num)]
      rfl
    rw [hloop, fixedPointMultiplication32_mod hx hF hs]
    apply Nat.mod_eq_of_lt
    have hpos : 0 < 2 ^ p.decayFactorsShiftFactor := by positivity
    calc x * p.decayFactors.getD 0 0 / 2 ^ p.decayFactorsShiftFactor
        ≤ x * 2 ^ p.decayFactorsShiftFactor / 2 ^ p.decayFactorsShiftFactor :=
          Nat.div_le_div_right (Nat.mul_le_mul_left _ hf)
      _ = x := Nat.mul_div_cancel _ hpos
      _ < 2 ^ 64 := hx

/-- The arithmetic behind the closed form: with `w + f = 2^s`, a sum constant
`S` that matches the factor `f` (`S · w = R · f · 2^m`) and the four truncated
quotients `c = ⌊D·S / 2^t⌋`, `a = ⌊c·f / 2^s⌋`, `G = ⌊D·2^e·R / 2^g⌋`,
`b = ⌊G·f / 2^s⌋` with `e + t = m + g`, the difference `c - a` is `b`, `b + 1`
or `b + 2`. -/
theorem closed_form_error_arith (D S R w f c a G b Pt Pg Pe Pm : Nat)
    (hPs : 0 < w + f) (hPt : 0 < Pt) (hPg : 0 < Pg)
    (hm : S * w = R * f * Pm) (hpow : Pe * Pt = Pm * Pg)
    (hc1 : c * Pt ≤ D * S) (hc2 : D * S < (c + 1) * Pt)
    (ha1 : a * (w + f) ≤ c * f) (ha2 : c * f < (a + 1) * (w + f))
    (hg1 : G * Pg ≤ D * (Pe * R)) (hg2 : D * (Pe * R) < (G + 1) * Pg)
    (hb1 : b * (w + f) ≤ G * f) (hb2 : G * f < (b + 1) * (w + f)) :
    a + b ≤ c ∧ c ≤ a + b + 2 := by
  have hkey : D * (Pe * R) * (f * Pt) = D * S * (w * Pg) := by
    calc D * (Pe * R) * (f * Pt) = D * (R * f) * (Pe * Pt) := by ring
      _ = D * (R * f) * (Pm * Pg) := by rw [hpow]
      _ = D * (R * f * Pm) * Pg := by ring
      _ = D * (S * w) * Pg := by rw [hm]
      _ = D * S * (w * Pg) := by ring
  have hK : 0 < Pt * Pg := Nat.mul_pos hPt hPg
  constructor
  · rcases Nat.eq_zero_or_pos w with hw0 | hwpos
    · subst hw0
      have hz : D * (Pe * R) * (f * Pt) = 0 := by rw [hkey]; simp
      have A1 : G * Pg * (f * Pt) ≤ D * (Pe * R) * (f * Pt) := Nat.mul_le_mul_right _ hg1
      have hGf : G * f * (Pt * Pg) = 0 := by
        have : G * Pg * (f * Pt) = 0 := by omega
        calc G * f * (Pt * Pg) = G * Pg * (f * Pt) := by ring
          _ = 0 := this
      have hGf0 : G * f = 0 := by
        rcases Nat.mul_eq_zero.mp hGf with h | h
        · exact h
        · omega
      simp only [Nat.zero_add] at ha1 hb1 hPs
      have hb0 : b = 0 := by
        have : b * f = 0 := by omega
        rcases Nat.mul_eq_zero.mp this with h | h
        · exact h
        · omega
      have hac : a ≤ c := Nat.le_of_mul_le_mul_right ha1 hPs
      omega
    · have A1 : G * Pg * (f * Pt) ≤ D * (Pe * R) * (f * Pt) := Nat.mul_le_mul_right _ hg1
      have A2 : D * S * (w * Pg) < (c + 1) * Pt * (w * Pg) :=
        Nat.mul_lt_mul_of_pos_right hc2 (Nat.mul_pos hwpos hPg)
      have A3 : G * f * (Pt * Pg) < (c + 1) * w * (Pt * Pg) := by
        calc G * f * (Pt * Pg) = G * Pg * (f * Pt) := by ring
          _ ≤ D * (Pe * R) * (f * Pt) := A1
          _ = D * S * (w * Pg) := hkey
          _ < (c + 1) * Pt * (w * Pg) := A2
          _ = (c + 1) * w * (Pt * Pg) := by ring
      have hGf : G * f < (c + 1) * w := Nat.lt_of_mul_lt_mul_right A3
      have hlt : (a + b) * (w + f) < (c + 1) * (w + f) := by nlinarith
      have := Nat.lt_of_mul_lt_mul_right hlt
      omega
  · rcases Nat.eq_zero_or_pos f with hf0 | hfpos
    · subst hf0
      simp only [Nat.add_zero, Nat.mul_zero, Nat.zero_mul] at hm hPs
      have hS : S = 0 := by
        rcases Nat.mul_eq_zero.mp hm with h | h
        · exact h
        · omega
      subst hS
      have hc0 : c = 0 := by
        have : c * Pt = 0 := by simpa using hc1
        rcases Nat.mul_eq_zero.mp this with h | h
        · exact h
        · omega
      omega
    · have B1 : c * Pt * (w * Pg) ≤ D * S * (w * Pg) := Nat.mul_le_mul_right _ hc1
      have B2 : D * (Pe * R) * (f * Pt) < (G + 1) * Pg * (f * Pt) :=
        Nat.mul_lt_mul_of_pos_right hg2 (Nat.mul_pos hfpos hPt)
      have B3 : c * w * (Pt * Pg) < (G + 1) * f * (Pt * Pg) := by
        calc c * w * (Pt * Pg) = c * Pt * (w * Pg) := by ring
          _ ≤ D * S * (w * Pg) := B1
          _ = D * (Pe * R) * (f * Pt) := hkey.symm
          _ < (G + 1) * Pg * (f * Pt) := B2
          _ = (G + 1) * f * (Pt * Pg) := by ring
      have hcw : c * w < (G + 1) * f := Nat.lt_of_mul_lt_mul_right B3
      have hlt : c * (w + f) < (a + b + 3) * (w + f) := by nlinarith
      have := Nat.lt_of_mul_lt_mul_right hlt
      omega

/-- The arithmetic behind the closed form when no quotient truncates: then
`c - a = b` exactly. -/
theorem closed_form_exact_arith (D S R w f c a G b Pt Pg Pe Pm : Nat)
    (hPs : 0 < w + f) (hPt : 0 < Pt) (hPg : 0 < Pg)
    (hm : S * w = R * f * Pm) (hpow : Pe * Pt = Pm * Pg)
    (hc : c * Pt = D * S) (ha : a * (w + f) = c * f)
    (hg : G * Pg = D * (Pe * R)) (hb : b * (w + f) = G * f) :
    a + b = c := by
  have hK : 0 < Pt * Pg := Nat.mul_pos hPt hPg
  have h1 : c * w * (Pt * Pg) = G * f * (Pt * Pg) := by
    calc c * w * (Pt * Pg) = c * Pt * (w * Pg) := by ring
      _ = D * S * (w * Pg) := by rw [hc]
      _ = D * (S * w) * Pg := by ring
      _ = D * (R * f * Pm) * Pg := by rw [hm]
      _ = D * (R * f) * (Pm * Pg) := by ring
      _ = D * (R * f) * (Pe * Pt) := by rw [hpow]
      _ = D * (Pe * R) * (f * Pt) := by ring
      _ = G * Pg * (f * Pt) := by rw [hg]
      _ = G * f * (Pt * Pg) := by ring
  have hcw : c * w = G * f := Nat.eq_of_mul_eq_mul_right hK h1
  have h2 : (a + b) * (w + f) = c * (w + f) := by
    calc (a + b) * (w + f) = a * (w + f) + b * (w + f) := by ring
      _ = c * f + G * f := by rw [ha, hb]
      _ = c * f + c * w := by rw [hcw]
      _ = c * (w + f) := by ring
  exact Nat.eq_of_mul_eq_mul_right hPs h2

/-- Division with remainder, as two bounds on the quotient. -/
theorem div_mul_bounds (x d : Nat) (hd : 0 < d) : x / d * d ≤ x ∧ x < (x / d + 1) * d := by
  constructor
  · exact Nat.div_mul_le_self x d
  · have := Nat.lt_mul_div_succ x hd
    rw [Nat.mul_comm] at this
    exact this

/-- The mana generated over one whole epoch, in the design range of the
fixed-point multiplication. -/
theorem generateMana_epoch_eq (p : ManaDecayProvider) (deposit : Nat)
    (hd : deposit < 2 ^ 64)
    (hrate : 2 ^ p.slotsPerEpochShiftFactor * p.generationRate < 2 ^ 32)
    (hg : p.generationRateShiftFactor ≤ 32)
    (hgen : deposit * (2 ^ p.slotsPerEpochShiftFactor * p.generationRate)
      / 2 ^ p.generationRateShiftFactor < 2 ^ 64) :
    generateMana p deposit (shl64 1 p.slotsPerEpochShiftFactor)
      = deposit * (2 ^ p.slotsPerEpochShiftFactor * p.generationRate)
          / 2 ^ p.generationRateShiftFactor := by
  by_cases hR : p.generationRate = 0
  · unfold generateMana
    rw [if_pos (Or.inr hR), hR]
    simp
  · have h1 : 2 ^ p.slotsPerEpochShiftFactor
        ≤ 2 ^ p.slotsPerEpochShiftFactor * p.generationRate :=
      Nat.le_mul_of_pos_right _ (Nat.pos_of_ne_zero hR)
    have h2 : 2 ^ p.slotsPerEpochShiftFactor < 2 ^ 32 := lt_of_le_of_lt h1 hrate
    have he32 : p.slotsPerEpochShiftFactor < 32 :=
      (Nat.pow_lt_pow_iff_right (by norm_num)).mp h2
    have hshl : shl64 1 p.slotsPerEpochShiftFactor = 2 ^ p.slotsPerEpochShiftFactor := by
      rw [shl64_eq (by omega) (by norm_num at h2 ⊢; omega)]
      simp
    have hpos : 0 < 2 ^ p.slotsPerEpochShiftFactor := by positivity
    unfold generateMana
    rw [hshl, if_neg (by
      intro h
      rcases h with h | h
      · omega
      · exact hR h), mul64_eq (by norm_num at hrate ⊢; omega),
      fixedPointMultiplication32_mod hd hrate hg, Nat.mod_eq_of_lt hgen]

/-- The closed form and the iterative sum in 64-bit arithmetic, once the middle
terms are related. -/
theorem closed_form_sum_eq (A a b c G2 : Nat) (hab : a + b ≤ c) (hc : c < 2 ^ 64) :
    add64 (sub64 A a) (add64 G2 c) = add64 (add64 (add64 A b) G2) (c - a - b) := by
  unfold add64 sub64
  rw [Nat.mod_eq_of_lt (by omega : a < 2 ^ 64)]
  simp only [Nat.mod_add_mod, Nat.add_mod_mod]
  have h : A + (2 ^ 64 - a) + (G2 + c) = A + b + G2 + (c - a - b) + 2 ^ 64 := by omega
  rw [h, Nat.add_mod_right]

/-- The closed form and the iterative sum agree in 64-bit arithmetic when the
middle terms agree. -/
theorem closed_form_sum_eq_exact (A a b c G2 : Nat) (hab : a + b = c) (hc : c < 2 ^ 64) :
    add64 (sub64 A a) (add64 G2 c) = add64 (add64 A b) G2 := by
  have hk : c - a - b = 0 := by omega
  rw [closed_form_sum_eq A a b c G2 (le_of_eq hab) hc, hk]
  unfold add64
  rw [Nat.add_zero, Nat.mod_mod]

/-- C7, amended: for an epoch difference of exactly 2, a table of at least 2
entries, shift factors within the range of the 32-bit fixed-point
multiplication and a decay-factor sum constant that matches the first decay
factor `f` (`decayFactorEpochsSum · (2^s - f) = generationRate · f · 2^sumShift`),
the closed form used by `PotentialManaWithDecay` is the per-epoch iterative sum
plus a truncation error of at most 2, in unsigned 64-bit arithmetic; it equals
the iterative sum whenever the four fixed-point products involved (the mana
generated over one epoch, the constant `c`, and the one-epoch decay of each)
lose no bits to truncation. -/
theorem closed_form_two_epochs_error (p : ManaDecayProvider) (deposit created target : Nat)
    (hWF : p.WellFormed)
    (h2 : p.timeProvider.EpochsFromSlot target = p.timeProvider.EpochsFromSlot created + 2)
    (hT : p.timeProvider.EpochsFromSlot target < 2 ^ 64)
    (hlen : 2 ≤ p.decayFactors.length)
    (hs : p.decayFactorsShiftFactor ≤ 32)
    (hf : p.decayFactors.getD 0 0 ≤ 2 ^ p.decayFactorsShiftFactor)
    (hd : deposit < 2 ^ 64)
    (hrate : 2 ^ p.slotsPerEpochShiftFactor * p.generationRate < 2 ^ 32)
    (hg : p.generationRateShiftFactor ≤ 32)
    (het : p.slotsPerEpochShiftFactor
      ≤ p.decayFactorEpochsSumShiftFactor + p.generationRateShiftFactor)
    (ht : p.decayFactorEpochsSumShiftFactor + p.generationRateShiftFactor
      - p.slotsPerEpochShiftFactor ≤ 32)
    (hmatch : p.decayFactorEpochsSum
        * (2 ^ p.decayFactorsShiftFactor - p.decayFactors.getD 0 0)
      = p.generationRate * p.decayFactors.getD 0 0 * 2 ^ p.decayFactorEpochsSumShiftFactor)
    (hgen : deposit * (2 ^ p.slotsPerEpochShiftFactor * p.generationRate)
      / 2 ^ p.generationRateShiftFactor < 2 ^ 64)
    (hcfit : deposit * p.decayFactorEpochsSum
      / 2 ^ (p.decayFactorEpochsSumShiftFactor + p.generationRateShiftFactor
        - p.slotsPerEpochShiftFactor) < 2 ^ 64) :
    (∃ k, k ≤ 2 ∧
      (PotentialManaWithDecay p deposit created target).1
        = add64 (potentialManaIterativeTwoEpochs p deposit created target) k) ∧
    (2 ^ p.generationRateShiftFactor
        ∣ deposit * (2 ^ p.slotsPerEpochShiftFactor * p.generationRate) →
      2 ^ p.decayFactorsShiftFactor
        ∣ deposit * (2 ^ p.slotsPerEpochShiftFactor * p.generationRate)
          / 2 ^ p.generationRateShiftFactor * p.decayFactors.getD 0 0 →
      2 ^ (p.decayFactorEpochsSumShiftFactor + p.generationRateShiftFactor
        - p.slotsPerEpochShiftFactor) ∣ deposit * p.decayFactorEpochsSum →
      2 ^ p.decayFactorsShiftFactor
        ∣ deposit * p.decayFactorEpochsSum
          / 2 ^ (p.decayFactorEpochsSumShiftFactor + p.generationRateShiftFactor
            - p.slotsPerEpochShiftFactor) * p.decayFactors.getD 0 0 →
      (PotentialManaWithDecay p deposit created target).1
        = potentialManaIterativeTwoEpochs p deposit created target) := by
  obtain ⟨hlenc, hfac, hsum, hrate8, he8, hg8, hs8, hm8⟩ := hWF
  have hWF : p.WellFormed := ⟨hlenc, hfac, hsum, hrate8, he8, hg8, hs8, hm8⟩
  have hL : 1 ≤ p.decayFactorsLength := by rw [hlenc]; omega
  have hscale : sub64 (add64 p.decayFactorEpochsSumShiftFactor p.generationRateShiftFactor)
      p.slotsPerEpochShiftFactor
      = p.decayFactorEpochsSumShiftFactor + p.generationRateShiftFactor
        - p.slotsPerEpochShiftFactor := by
    rw [add64_eq (by omega), sub64_eq het (by omega)]
  have hC : fixedPointMultiplication32 deposit p.decayFactorEpochsSum
      (sub64 (add64 p.decayFactorEpochsSumShiftFactor p.generationRateShiftFactor)
        p.slotsPerEpochShiftFactor)
      = deposit * p.decayFactorEpochsSum
        / 2 ^ (p.decayFactorEpochsSumShiftFactor + p.generationRateShiftFactor
          - p.slotsPerEpochShiftFactor) := by
    rw [hscale, fixedPointMultiplication32_mod hd hsum ht, Nat.mod_eq_of_lt hcfit]
  have hG := generateMana_epoch_eq p deposit hd hrate hg hgen
  have hform : (PotentialManaWithDecay p deposit created target).1
      = add64
          (sub64
            (decay p (generateMana p deposit (p.timeProvider.SlotsBeforeNextEpoch created)) 2)
            (deposit * p.decayFactorEpochsSum
              / 2 ^ (p.decayFactorEpochsSumShiftFactor + p.generationRateShiftFactor
                - p.slotsPerEpochShiftFactor) * p.decayFactors.getD 0 0
              / 2 ^ p.decayFactorsShiftFactor))
          (add64 (generateMana p deposit (p.timeProvider.SlotsSinceEpochStart target))
            (deposit * p.decayFactorEpochsSum
              / 2 ^ (p.decayFactorEpochsSumShiftFactor + p.generationRateShiftFactor
                - p.slotsPerEpochShiftFactor))) := by
    rw [PotentialManaWithDecay_diff_two p deposit created target h2 hT]
    simp only []
    rw [hC, decay_one_eq p hWF hs hL hf _ hcfit]
  have hiter : potentialManaIterativeTwoEpochs p deposit created target
      = add64
          (add64
            (decay p (generateMana p deposit (p.timeProvider.SlotsBeforeNextEpoch created)) 2)
            (deposit * (2 ^ p.slotsPerEpochShiftFactor * p.generationRate)
              / 2 ^ p.generationRateShiftFactor * p.decayFactors.getD 0 0
              / 2 ^ p.decayFactorsShiftFactor))
          (generateMana p deposit (p.timeProvider.SlotsSinceEpochStart target)) := by
    unfold potentialManaIterativeTwoEpochs
    rw [hG, decay_one_eq p hWF hs hL hf _ hgen]
  have hwf : 2 ^ p.decayFactorsShiftFactor - p.decayFactors.getD 0 0
      + p.decayFactors.getD 0 0 = 2 ^ p.decayFactorsShiftFactor := Nat.sub_add_cancel hf
  have hPs : 0 < 2 ^ p.decayFactorsShiftFactor := by positivity
  have hPt : 0 < 2 ^ (p.decayFactorEpochsSumShiftFactor + p.generationRateShiftFactor
      - p.slotsPerEpochShiftFactor) := by positivity
  have hPg : 0 < 2 ^ p.generationRateShiftFactor := by positivity
  have hpow : 2 ^ p.slotsPerEpochShiftFactor
      * 2 ^ (p.decayFactorEpochsSumShiftFactor + p.generationRateShiftFactor
        - p.slotsPerEpochShiftFactor)
      = 2 ^ p.decayFactorEpochsSumShiftFactor * 2 ^ p.generationRateShiftFactor := by
    rw [← pow_add, ← pow_add]
    congr 1
    omega
  rw [hform, hiter]
  generalize decay p (generateMana p deposit (p.timeProvider.SlotsBeforeNextEpoch created)) 2
    = A
  generalize generateMana p deposit (p.timeProvider.SlotsSinceEpochStart target) = G2
  constructor
  · have hbounds := closed_form_error_arith deposit p.decayFactorEpochsSum p.generationRate
      (2 ^ p.decayFactorsShiftFactor - p.decayFactors.getD 0 0) (p.decayFactors.getD 0 0)
      (deposit * p.decayFactorEpochsSum
        / 2 ^ (p.decayFactorEpochsSumShiftFactor + p.generationRateShiftFactor
          - p.slotsPerEpochShiftFactor))
      (deposit * p.decayFactorEpochsSum
        / 2 ^ (p.decayFactorEpochsSumShiftFactor + p.generationRateShiftFactor
          - p.slotsPerEpochShiftFactor) * p.decayFactors.getD 0 0
        / 2 ^ p.decayFactorsShiftFactor)
      (deposit * (2 ^ p.slotsPerEpochShiftFactor * p.generationRate)
        / 2 ^ p.generationRateShiftFactor)
      (deposit * (2 ^ p.slotsPerEpochShiftFactor * p.generationRate)
        / 2 ^ p.generationRateShiftFactor * p.decayFactors.getD 0 0
        / 2 ^ p.decayFactorsShiftFactor)
      _ _ _ _
      (by rw [hwf]; exact hPs) hPt hPg hmatch hpow
      (div_mul_bounds _ _ hPt).1 (div_mul_bounds _ _ hPt).2
      (by rw [hwf]; exact (div_mul_bounds _ _ hPs).1)
      (by rw [hwf]; exact (div_mul_bounds _ _ hPs).2)
      (div_mul_bounds _ _ hPg).1 (div_mul_bounds _ _ hPg).2
      (by rw [hwf]; exact (div_mul_bounds _ _ hPs).1)
      (by rw [hwf]; exact (div_mul_bounds _ _ hPs).2)
    refine ⟨_, ?_, closed_form_sum_eq A _ _ _ G2 hbounds.1 hcfit⟩
    omega
  · intro hx1 hx2 hx3 hx4
    have hexact := closed_form_exact_arith deposit p.decayFactorEpochsSum p.generationRate
      (2 ^ p.decayFactorsShiftFactor - p.decayFactors.getD 0 0) (p.decayFactors.getD 0 0)
      (deposit * p.decayFactorEpochsSum
        / 2 ^ (p.decayFactorEpochsSumShiftFactor + p.generationRateShiftFactor
          - p.slotsPerEpochShiftFactor))
      (deposit * p.decayFactorEpochsSum
        / 2 ^ (p.decayFactorEpochsSumShiftFactor + p.generationRateShiftFactor
          - p.slotsPerEpochShiftFactor) * p.decayFactors.getD 0 0
        / 2 ^ p.decayFactorsShiftFactor)
      (deposit * (2 ^ p.slotsPerEpochShiftFactor * p.generationRate)
        / 2 ^ p.generationRateShiftFactor)
      (deposit * (2 ^ p.slotsPerEpochShiftFactor * p.generationRate)
        / 2 ^ p.generationRateShiftFactor * p.decayFactors.getD 0 0
        / 2 ^ p.decayFactorsShiftFactor)
      _ _ _ _
      (by rw [hwf]; exact hPs) hPt hPg hmatch hpow
      (Nat.div_mul_cancel hx3)
      (by rw [hwf]; exact Nat.div_mul_cancel hx4)
      (Nat.div_mul_cancel hx1)
      (by rw [hwf]; exact Nat.div_mul_cancel hx2)
    exact closed_form_sum_eq_exact A _ _ _ G2 hexact hcfit

/-- Witness of `closed_form_two_epochs_error`: the halving configuration (table
`[2^31, 2^30]` with shift factor 32, sum constant `2^20 / 2^20 = 1`, rate 1),
deposit 256, created slot 16 and target slot 32: no product truncates and the
closed form is the iterative sum. -/
theorem closed_form_two_epochs_error_witness :
    (PotentialManaWithDecay halvingProvider 256 16 32).1
      = potentialManaIterativeTwoEpochs halvingProvider 256 16 32 :=
  (closed_form_two_epochs_error halvingProvider 256 16 32
    ⟨rfl, by decide, by decide, by decide, by decide, by decide, by decide, by decide⟩
    (by decide) (by decide) (by decide) (by decide) (by decide) (by decide) (by decide)
    (by decide) (by decide) (by decide) (by decide) (by decide) (by decide)).2
    (Nat.dvd_of_mod_eq_zero (by decide)) (Nat.dvd_of_mod_eq_zero (by decide))
    (Nat.dvd_of_mod_eq_zero (by decide)) (Nat.dvd_of_mod_eq_zero (by decide))

/-- The truncation error occurs: in the same configuration with deposit 128 the
constant `c = 1` is odd, its one-epoch decay truncates, and the closed form is
the iterative sum plus 1. -/
theorem closed_form_two_epochs_error_one :
    (PotentialManaWithDecay halvingProvider 128 16 32).1
      = add64 (potentialManaIterativeTwoEpochs halvingProvider 128 16 32) 1 := by
  decide

/-- The sum constant has to match the decay factors: with the table
`[⌊2^32·2/3⌋, ⌊2^32·4/9⌋]` and the sum constant 0 the closed form drops the middle
epoch altogether; for deposit `2^40`, created slot `2^13` and target slot
`3 · 2^13` it is `⌊2^26 · 2/3⌋ = 44739242` below the iterative sum. -/
theorem closed_form_needs_matching_sum :
    twoThirdsProvider.timeProvider.EpochsFromSlot (3 * 2 ^ 13)
      = twoThirdsProvider.timeProvider.EpochsFromSlot (2 ^ 13) + 2 ∧
    potentialManaIterativeTwoEpochs twoThirdsProvider (2 ^ 40) (2 ^ 13) (3 * 2 ^ 13)
      = (PotentialManaWithDecay twoThirdsProvider (2 ^ 40) (2 ^ 13) (3 * 2 ^ 13)).1
        + decay twoThirdsProvider (2 ^ 26) 1 ∧
    decay twoThirdsProvider (2 ^ 26) 1 = 44739242 := by
  decide

end Iotago
